import Mathlib

/-!
# xerfi-three: appearance animation, hover, camera and configuration of `script.js`

A shallow embedding of the per-frame logic of `src/script.js`, of its pointer listeners
and of the export and import of the parameter store.

* JavaScript numbers are embedded as exact rationals (`ℚ`); rounding of IEEE
  doubles is outside the embedding.  `Math.PI` is a parameter of `CONFIG`.
* The module-level mutable variables are the fields of `State`; every function
  that mutates them is a function returning the new `State`.
* `Date.now()` is an explicit argument (`now`, `currentTime`).
* Indexing `cubes[index]` outside the array makes the JavaScript throw; the
  embedding returns `none` there.
* The ray-caster is given by the distance at which the pointer ray meets each cube;
  cubes are identified by their index in `cubes`.
* The parameter store keeps its own entries and what it inherits through its prototype
  chain, since `key in shaderParams` sees both.
-/

namespace XerfiThree

/-! ## Data model -/

/-- A `THREE.Vector3`. -/
structure Vec3 where
  x : ℚ
  y : ℚ
  z : ℚ
deriving DecidableEq, Repr

/-- The `mouse` object `{ x, y }`. -/
structure Vec2 where
  x : ℚ
  y : ℚ
deriving DecidableEq, Repr

/-- The part of a cube's material that the script mutates. -/
structure Material where
  opacity : ℚ
deriving DecidableEq, Repr

/-- The bag `cube.userData`.  The first three fields are written by `createCubeGroup`,
the others by `initHoverSystem`; `originalScale` and `targetScale` are `none` while they
are still `undefined`. -/
structure UserData where
  finalPosition : Vec3
  initialOpacity : ℚ
  finalOpacity : ℚ
  originalScale : Option Vec3
  targetScale : Option Vec3
  isHovered : Bool
  hoverProgress : ℚ
deriving DecidableEq, Repr

/-- A cube mesh: the fields of `THREE.Mesh` that the script reads or writes. -/
structure Cube where
  position : Vec3
  scale : Vec3
  material : Material
  userData : UserData
deriving DecidableEq, Repr

/-- A `THREE.Group`, reduced to `rotation.y`. -/
structure Group where
  rotationY : ℚ
deriving DecidableEq, Repr

/-- The constant object `CONFIG` (the fields read by the embedded functions). -/
structure Config where
  cubeSize : ℚ
  transparency : ℚ
  rotationSpeed : ℚ
  cameraDistance : ℚ
  animationDuration : ℚ
  stageRotationDuration : ℚ
  stageRotationAngle : ℚ
deriving DecidableEq, Repr

/-- The value of `CONFIG` in the source; `PI` stands for `Math.PI`. -/
def CONFIG (PI : ℚ) : Config where
  cubeSize := 5 / 2
  transparency := 1
  rotationSpeed := 7 / 1000
  cameraDistance := 12
  animationDuration := 1000
  stageRotationDuration := 2000
  stageRotationAngle := PI / 2

/-- The entries of `shaderParams` that the frame loop reads. -/
structure ShaderParams where
  rotationSpeed : ℚ
  enableRotation : Bool
  transparency : ℚ
  cameraDistance : ℚ
  cameraMouseSensitivity : ℚ
  cameraLerpSpeed : ℚ
  cameraMaxOffset : ℚ
  pauseAnimation : Bool
deriving DecidableEq, Repr

/-- The initial value of those entries of `shaderParams`. -/
def shaderParams : ShaderParams where
  rotationSpeed := 7 / 1000
  enableRotation := true
  transparency := 1
  cameraDistance := 12
  cameraMouseSensitivity := 3
  cameraLerpSpeed := 5 / 100
  cameraMaxOffset := 2
  pauseAnimation := false

/-- The module-level variables of `script.js`.  `hoveredCube` is the index in `cubes` of the
hovered mesh (`none` for `null`); `stageRotationStartTime` is `none` while `undefined`. -/
structure State where
  cubes : List Cube
  animationStartTime : ℚ
  animationPhase : Nat
  cubeGroup : Group
  topStageGroup : Group
  bottomStageGroup : Group
  stageRotationStartTime : Option ℚ
  shaderParams : ShaderParams
  hoveredCube : Option Nat
  hoverStartTime : ℚ
  mouse : Vec2
  targetCameraPosition : Vec3
  currentCameraPosition : Vec3
deriving DecidableEq, Repr

/-- The constant `HOVER_ANIMATION_DURATION`, in milliseconds. -/
def HOVER_ANIMATION_DURATION : ℚ := 200

/-- The constant `HOVER_SCALE_FACTOR`: a hovered cube is scaled down to 85%. -/
def HOVER_SCALE_FACTOR : ℚ := 85 / 100

/-! ## Numeric helpers -/

/-- The library function `THREE.MathUtils.lerp(x, y, t)`, defined there as
`(1 - t) * x + t * y`. -/
def lerp (x y t : ℚ) : ℚ := (1 - t) * x + t * y

/-- The easing function `easeInOutCubic(t)`. -/
def easeInOutCubic (t : ℚ) : ℚ :=
  if t < 1 / 2 then 4 * t * t * t else 1 - (-2 * t + 2) ^ 3 / 2

/-! ## Reset action -/

/-- The action `shaderParams.resetAnimation`, called at time `now`. -/
def resetAnimation (s : State) (now : ℚ) : State :=
  { s with
    animationPhase := 1
    animationStartTime := now
    cubes := s.cubes.map fun cube =>
      { cube with scale := ⟨0, 0, 0⟩, material := { cube.material with opacity := 0 } } }

/-! ## Hover animation -/

/-- The body of the `forEach` callback of `updateHoverAnimations`, for one cube. -/
def updateHoverCube (hoverStartTime now : ℚ) (cube : Cube) : Cube :=
  match cube.userData.originalScale with
  | none => cube
  | some originalScale =>
    let targetProgress : ℚ :=
      if cube.userData.isHovered then
        min ((now - hoverStartTime) / HOVER_ANIMATION_DURATION) 1
      else 0
    let lerpSpeed : ℚ := 15 / 100
    let hoverProgress := lerp cube.userData.hoverProgress targetProgress lerpSpeed
    let currentScale := lerp 1 HOVER_SCALE_FACTOR hoverProgress
    { cube with
      userData := { cube.userData with hoverProgress := hoverProgress }
      scale := ⟨originalScale.x * currentScale, originalScale.y * currentScale,
                originalScale.z * currentScale⟩ }

/-- The function `updateHoverAnimations()`, called at time `now`. -/
def updateHoverAnimations (s : State) (now : ℚ) : State :=
  { s with cubes := s.cubes.map (updateHoverCube s.hoverStartTime now) }

/-! ## Appearance animation -/

/-- The body of the `forEach` callback of `animateCubes`, for one cube; `animationPhase`
is the module-level variable the callback reads. -/
def animateCube (cfg : Config) (animationPhase : Nat) (easedProgress : ℚ) (cube : Cube) : Cube :=
  let userData := cube.userData
  let grown : Vec3 × Vec3 :=
    if animationPhase = 1 then
      (⟨1, easedProgress, 1⟩,
        { cube.position with
          y := userData.finalPosition.y - (cfg.cubeSize * (1 - easedProgress)) / 2 })
    else if animationPhase = 2 then
      (⟨1, easedProgress, 1⟩,
        { cube.position with
          y := userData.finalPosition.y - (cfg.cubeSize * (1 - easedProgress)) / 2 })
    else if animationPhase = 3 then
      (⟨1, 1, easedProgress⟩,
        { cube.position with
          z := userData.finalPosition.z - (cfg.cubeSize * (1 - easedProgress)) / 2 })
    else if animationPhase = 4 then
      (⟨easedProgress, 1, 1⟩,
        { cube.position with
          x := userData.finalPosition.x - (cfg.cubeSize * (1 - easedProgress)) / 2 })
    else if animationPhase = 5 then
      (⟨easedProgress, 1, 1⟩,
        { cube.position with
          x := userData.finalPosition.x - (cfg.cubeSize / 2 * (1 - easedProgress)) / 2 })
    else (⟨1, 1, 1⟩, cube.position)
  let animationScale := grown.1
  { position := grown.2
    scale := animationScale
    material :=
      { cube.material with
        opacity := userData.initialOpacity
          + (userData.finalOpacity - userData.initialOpacity) * easedProgress }
    userData :=
      { userData with originalScale := userData.originalScale.map fun _ => animationScale } }

/-- The function `animateCubes(cubeIndices, elapsed)`; `none` when some index is not in `cubes`. -/
def animateCubes (cfg : Config) (animationPhase : Nat) (cubes : List Cube)
    (cubeIndices : List Nat) (elapsed : ℚ) : Option (List Cube) :=
  let progress := min (elapsed / cfg.animationDuration) 1
  let easedProgress := easeInOutCubic progress
  cubeIndices.foldlM
    (fun cs index =>
      match cs[index]? with
      | some cube => some (cs.set index (animateCube cfg animationPhase easedProgress cube))
      | none => none)
    cubes

/-- The function `animateStageRotation(stageGroup, elapsed)`. -/
def animateStageRotation (cfg : Config) (_stageGroup : Group) (elapsed : ℚ) : Group :=
  let progress := min (elapsed / cfg.stageRotationDuration) 1
  let easedProgress := easeInOutCubic progress
  let targetRotation := cfg.stageRotationAngle
  { rotationY := targetRotation * easedProgress }

/-- The function `handleAppearanceAnimation()`, called at time `currentTime`. -/
def handleAppearanceAnimation (cfg : Config) (s : State) (currentTime : ℚ) : Option State :=
  let elapsed := currentTime - s.animationStartTime
  if s.animationPhase = 1 then
    (animateCubes cfg s.animationPhase s.cubes [0] elapsed).map fun cubes =>
      if elapsed > cfg.animationDuration then
        { s with cubes := cubes, animationStartTime := currentTime, animationPhase := 2 }
      else { s with cubes := cubes }
  else if s.animationPhase = 2 then
    (animateCubes cfg s.animationPhase s.cubes [4] elapsed).map fun cubes =>
      if elapsed > cfg.animationDuration then
        { s with cubes := cubes, animationStartTime := currentTime, animationPhase := 3 }
      else { s with cubes := cubes }
  else if s.animationPhase = 3 then
    (animateCubes cfg s.animationPhase s.cubes [2, 6] elapsed).map fun cubes =>
      if elapsed > cfg.animationDuration then
        { s with cubes := cubes, animationStartTime := currentTime, animationPhase := 4 }
      else { s with cubes := cubes }
  else if s.animationPhase = 4 then
    (animateCubes cfg s.animationPhase s.cubes [1, 3, 5, 7] elapsed).map fun cubes =>
      if elapsed > cfg.animationDuration then
        { s with cubes := cubes, animationStartTime := currentTime, animationPhase := 5 }
      else { s with cubes := cubes }
  else if s.animationPhase = 5 then
    (animateCubes cfg s.animationPhase s.cubes [8, 9] elapsed).map fun cubes =>
      if elapsed > cfg.animationDuration then
        { s with
          cubes := cubes
          animationStartTime := currentTime
          stageRotationStartTime := some currentTime
          animationPhase := 6 }
      else { s with cubes := cubes }
  else if s.animationPhase = 6 then
    let s1 := { s with topStageGroup := animateStageRotation cfg s.topStageGroup elapsed }
    if elapsed > cfg.stageRotationDuration then
      some { s1 with
        animationStartTime := currentTime
        stageRotationStartTime := some currentTime
        animationPhase := 7 }
    else some s1
  else if s.animationPhase = 7 then
    let s1 := { s with bottomStageGroup := animateStageRotation cfg s.bottomStageGroup elapsed }
    if elapsed > cfg.stageRotationDuration then
      some { s1 with animationPhase := 8 }
    else some s1
  else some s

/-- The index subset that `handleAppearanceAnimation` passes to `animateCubes` in each
reveal phase (empty for the other phases). -/
def revealIndices (animationPhase : Nat) : List Nat :=
  if animationPhase = 1 then [0]
  else if animationPhase = 2 then [4]
  else if animationPhase = 3 then [2, 6]
  else if animationPhase = 4 then [1, 3, 5, 7]
  else if animationPhase = 5 then [8, 9]
  else []

/-! ## Camera and frame loop -/

/-- The function `updateSmoothCamera()`. -/
def updateSmoothCamera (s : State) : State :=
  let mouseInfluence := s.shaderParams.cameraMouseSensitivity
  let maxOffset := s.shaderParams.cameraMaxOffset
  let targetOffsetX := max (-maxOffset) (min maxOffset (s.mouse.x * mouseInfluence))
  let targetOffsetY := max (-maxOffset) (min maxOffset (s.mouse.y * mouseInfluence))
  let target : Vec3 := ⟨targetOffsetX, targetOffsetY, s.shaderParams.cameraDistance⟩
  let lerpSpeed := s.shaderParams.cameraLerpSpeed
  { s with
    targetCameraPosition := target
    currentCameraPosition :=
      ⟨lerp s.currentCameraPosition.x target.x lerpSpeed,
       lerp s.currentCameraPosition.y target.y lerpSpeed,
       lerp s.currentCameraPosition.z target.z lerpSpeed⟩ }

/-- The state updates of one frame of `animate`, at time `now` (rendering has no effect on
`State`). -/
def animate (cfg : Config) (s : State) (now : ℚ) : Option State :=
  let s1 := updateSmoothCamera s
  let s2 := updateHoverAnimations s1 now
  let s3 : Option State :=
    if s2.shaderParams.pauseAnimation then some s2 else handleAppearanceAnimation cfg s2 now
  s3.map fun s4 =>
    if s4.shaderParams.enableRotation then
      { s4 with cubeGroup := { rotationY := s4.cubeGroup.rotationY + s4.shaderParams.rotationSpeed } }
    else s4

/-- Successive frames of `animate` at the given times, with no other event in between. -/
def runFrames (cfg : Config) (s : State) : List ℚ → Option State
  | [] => some s
  | now :: rest => (animate cfg s now).bind fun s1 => runFrames cfg s1 rest

/-! ## Initialisation -/

/-- The `positions` table of `createCubeGroup`. -/
def positions : List Vec3 :=
  [⟨-1, -1, -1⟩, ⟨1, -1, -1⟩, ⟨-1, -1, 1⟩, ⟨1, -1, 1⟩,
   ⟨-1, 1, -1⟩, ⟨1, 1, -1⟩, ⟨-1, 1, 1⟩, ⟨1, 1, 1⟩,
   ⟨5 / 2, -1, -1⟩, ⟨5 / 2, -1, 1⟩]

/-- The cubes built by `createCubeGroup`: each at its final position, with scale 0 and
opacity 0, before `initHoverSystem` has run. -/
def createCubeGroup (cfg : Config) : List Cube :=
  positions.map fun pos =>
    let spacing := cfg.cubeSize * (1 / 2)
    let final : Vec3 := ⟨pos.x * spacing, pos.y * spacing, pos.z * spacing⟩
    { position := final
      scale := ⟨0, 0, 0⟩
      material := { opacity := 0 }
      userData :=
        { finalPosition := final
          initialOpacity := 0
          finalOpacity := cfg.transparency
          originalScale := none
          targetScale := none
          isHovered := false
          hoverProgress := 0 } }

/-- The function `initHoverSystem()`. -/
def initHoverSystem (s : State) : State :=
  { s with
    cubes := s.cubes.map fun cube =>
      { cube with
        userData :=
          { cube.userData with
            originalScale := some cube.scale
            targetScale := some cube.scale
            isHovered := false
            hoverProgress := 0 } } }

/-- The function `initAppearanceAnimation()`, called at time `now`. -/
def initAppearanceAnimation (s : State) (now : ℚ) : State :=
  { s with animationStartTime := now, animationPhase := 1 }

/-- The state in which `init` starts the frame loop: `createCubeGroup`, `setupControls`,
`initAppearanceAnimation` at time `now`, then `initHoverSystem`. -/
def init (cfg : Config) (now : ℚ) : State :=
  initHoverSystem
    (initAppearanceAnimation
      { cubes := createCubeGroup cfg
        animationStartTime := 0
        animationPhase := 0
        cubeGroup := ⟨0⟩
        topStageGroup := ⟨0⟩
        bottomStageGroup := ⟨0⟩
        stageRotationStartTime := none
        shaderParams := shaderParams
        hoveredCube := none
        hoverStartTime := 0
        mouse := ⟨0, 0⟩
        targetCameraPosition := ⟨0, 0, cfg.cameraDistance⟩
        currentCameraPosition := ⟨0, 0, cfg.cameraDistance⟩ }
      now)

/-! ## Definitions used to state the properties -/

/-- The phase that `handleAppearanceAnimation` leaves behind, as a function of the phase
before the call and of the elapsed time. -/
def phaseAfter (cfg : Config) (animationPhase : Nat) (elapsed : ℚ) : Nat :=
  if 1 ≤ animationPhase ∧ animationPhase ≤ 5 then
    if elapsed > cfg.animationDuration then animationPhase + 1 else animationPhase
  else if 6 ≤ animationPhase ∧ animationPhase ≤ 7 then
    if elapsed > cfg.stageRotationDuration then animationPhase + 1 else animationPhase
  else animationPhase

/-- Successive calls of `updateHoverAnimations`, one per frame, at the given times. -/
def runHoverFrames (s : State) (times : List ℚ) : State :=
  times.foldl updateHoverAnimations s

/-- A cube as it is once its reveal phase is over: scale and baseline scale (1,1,1),
opacity at its target. -/
def revealed (cube : Cube) : Cube :=
  { cube with
    scale := ⟨1, 1, 1⟩
    material := { opacity := cube.userData.finalOpacity }
    userData := { cube.userData with originalScale := some ⟨1, 1, 1⟩ } }

/-- Cube 0, fully revealed and hovered, with the given `hoverProgress`. -/
def hoveredCube0 (progress : ℚ) : Cube where
  position := ⟨-5 / 4, -5 / 4, -5 / 4⟩
  scale := ⟨1 - 15 / 100 * progress, 1 - 15 / 100 * progress, 1 - 15 / 100 * progress⟩
  material := { opacity := 1 }
  userData :=
    { finalPosition := ⟨-5 / 4, -5 / 4, -5 / 4⟩
      initialOpacity := 0
      finalOpacity := 1
      originalScale := some ⟨1, 1, 1⟩
      targetScale := some ⟨0, 0, 0⟩
      isHovered := true
      hoverProgress := progress }

/-- A state after the whole appearance animation in which the pointer has just come, at
time 5000, onto cube 0, whose `hoverProgress` is `progress` at that moment (0 for a first
hover, more when an earlier hover has not yet faded). -/
def hoverStarted (progress : ℚ) : State :=
  { init (CONFIG 3) 0 with
    animationPhase := 8
    hoveredCube := some 0
    hoverStartTime := 5000
    cubes := hoveredCube0 progress :: ((init (CONFIG 3) 0).cubes.map revealed).tail }

/-- The state `hoverStarted progress` after the pointer has left the canvas: the
`mouseleave` handler has cleared the flag of cube 0 and `hoveredCube`. -/
def hoverEnded (progress : ℚ) : State :=
  { hoverStarted progress with
    hoveredCube := none
    cubes :=
      { hoveredCube0 progress with
        userData := { (hoveredCube0 progress).userData with isHovered := false } }
        :: (hoverStarted progress).cubes.tail }

/-! ## Hover picking and events -/

/-- The filter `cube.material.opacity > 0 && cube.scale.length() > 0` of `checkHover`; the
length of the scale vector is positive exactly when the sum of its squared components is. -/
def isVisibleCube (cube : Cube) : Bool :=
  decide (cube.material.opacity > 0)
    && decide (cube.scale.x * cube.scale.x + cube.scale.y * cube.scale.y
        + cube.scale.z * cube.scale.z > 0)

/-- The library call `raycaster.intersectObjects(objects)`: every object handed over is
tested on its own, the hits are sorted by increasing distance. `ray i` is the distance at
which the pointer ray meets cube `i` in the current scene, `none` when it misses it. -/
def intersectObjects (ray : Nat → Option ℚ) (objects : List Nat) : List (ℚ × Nat) :=
  (objects.filterMap fun i => (ray i).map fun distance => (distance, i)).insertionSort
    (fun a b => a.1 ≤ b.1)

/-- The assignment `cube.userData.isHovered = flag`. -/
def setHovered (flag : Bool) (cube : Cube) : Cube :=
  { cube with userData := { cube.userData with isHovered := flag } }

/-- The function `checkHover()`, called at time `now` once `initHoverSystem` has created the
ray-caster; cubes are identified by their index in `cubes`. -/
def checkHover (s : State) (ray : Nat → Option ℚ) (now : ℚ) : State :=
  let visibleCubes :=
    (List.range s.cubes.length).filter fun i => (s.cubes[i]?).any isVisibleCube
  let intersects := intersectObjects ray visibleCubes
  let newHoveredCube : Option Nat := intersects.head?.map Prod.snd
  if newHoveredCube ≠ s.hoveredCube then
    let cubes1 :=
      match s.hoveredCube with
      | some old => s.cubes.modify (setHovered false) old
      | none => s.cubes
    match newHoveredCube with
    | some new =>
      { s with
        cubes := cubes1.modify (setHovered true) new
        hoveredCube := some new
        hoverStartTime := now }
    | none => { s with cubes := cubes1, hoveredCube := none }
  else s

/-- The `mousemove` listener: it stores the normalised pointer position and calls
`checkHover`. -/
def onMouseMove (s : State) (pointer : Vec2) (ray : Nat → Option ℚ) (now : ℚ) : State :=
  checkHover { s with mouse := pointer } ray now

/-- The `mouseleave` listener. -/
def onMouseLeave (s : State) : State :=
  let s1 := { s with mouse := ⟨0, 0⟩ }
  match s1.hoveredCube with
  | some old => { s1 with cubes := s1.cubes.modify (setHovered false) old, hoveredCube := none }
  | none => s1

/-- What can happen between two states once the frame loop runs: a frame, a pointer move, the
pointer leaving the window, the reset button, the pause checkbox. -/
inductive Event where
  | frame (now : ℚ)
  | mousemove (pointer : Vec2) (ray : Nat → Option ℚ) (now : ℚ)
  | mouseleave
  | reset (now : ℚ)
  | pause (flag : Bool)

/-- The effect of one event. -/
def stepEvent (cfg : Config) (s : State) : Event → Option State
  | .frame now => animate cfg s now
  | .mousemove pointer ray now => some (onMouseMove s pointer ray now)
  | .mouseleave => some (onMouseLeave s)
  | .reset now => some (resetAnimation s now)
  | .pause flag => some { s with shaderParams := { s.shaderParams with pauseAnimation := flag } }

/-- The effect of a sequence of events. -/
def runEvents (cfg : Config) (s : State) : List Event → Option State
  | [] => some s
  | e :: rest => (stepEvent cfg s e).bind fun s1 => runEvents cfg s1 rest

/-- Whether the event is a press of the reset button. -/
def Event.isReset : Event → Bool
  | .reset _ => true
  | _ => false

/-- Frames of `updateSmoothCamera`, each after the pointer has moved to the given position. -/
def pointerFrames (s : State) (pointers : List Vec2) : State :=
  pointers.foldl (fun st pointer => updateSmoothCamera { st with mouse := pointer }) s

/-- The last state update of `animate`: the continuous rotation of the whole cube group. -/
def spinCubeGroup (s : State) : State :=
  if s.shaderParams.enableRotation then
    { s with cubeGroup := { rotationY := s.cubeGroup.rotationY + s.shaderParams.rotationSpeed } }
  else s

/-- Cube 0 during phase 1, as the frame at 250 ms leaves it (eased progress 1/16), with the
hover flag that `checkHover` has just set. -/
def revealingCube0 : Cube where
  position := ⟨-5 / 4, -155 / 64, -5 / 4⟩
  scale := ⟨1, 1 / 16, 1⟩
  material := { opacity := 1 / 16 }
  userData :=
    { finalPosition := ⟨-5 / 4, -5 / 4, -5 / 4⟩
      initialOpacity := 0
      finalOpacity := 1
      originalScale := some ⟨1, 1 / 16, 1⟩
      targetScale := some ⟨0, 0, 0⟩
      isHovered := true
      hoverProgress := 0 }

/-- The state of a run started at time 0 after the frame at 250 ms and a pointer move onto
cube 0 at 300 ms: phase 1 is still revealing cube 0, which is now hovered. -/
def hoveredWhileRevealing : State :=
  { init (CONFIG 3) 0 with
    cubeGroup := { rotationY := 7 / 1000 }
    hoveredCube := some 0
    hoverStartTime := 300
    cubes := revealingCube0 :: (init (CONFIG 3) 0).cubes.tail }

/-- A state of phase 7: all cubes revealed, the top stage group fully rotated, the bottom
stage group rotating since time 7000. -/
def rotatingBottom : State :=
  { init (CONFIG 3) 0 with
    animationPhase := 7
    animationStartTime := 7000
    stageRotationStartTime := some 7000
    topStageGroup := { rotationY := 3 / 2 }
    cubes := (init (CONFIG 3) 0).cubes.map revealed }

/-- The hover flags agree with `hoveredCube`: a cube's `isHovered` is true exactly when the
cube is `hoveredCube`. -/
def HoverConsistent (s : State) : Prop :=
  ∀ (i : Nat) (c : Cube), s.cubes[i]? = some c →
    (c.userData.isHovered = true ↔ s.hoveredCube = some i)

/-- The cube that `checkHover` finds under the pointer: the nearest hit among the visible
cubes, `none` when the ray meets none of them. -/
def pickHovered (s : State) (ray : Nat → Option ℚ) : Option Nat :=
  (intersectObjects ray
    ((List.range s.cubes.length).filter fun i => (s.cubes[i]?).any isVisibleCube)).head?.map
    Prod.snd

/-- The second half of `checkHover`: the change of hovered cube to `newHoveredCube`. -/
def switchHover (s : State) (newHoveredCube : Option Nat) (now : ℚ) : State :=
  if newHoveredCube ≠ s.hoveredCube then
    let cubes1 :=
      match s.hoveredCube with
      | some old => s.cubes.modify (setHovered false) old
      | none => s.cubes
    match newHoveredCube with
    | some new =>
      { s with
        cubes := cubes1.modify (setHovered true) new
        hoveredCube := some new
        hoverStartTime := now }
    | none => { s with cubes := cubes1, hoveredCube := none }
  else s

/-- A pointer ray that meets cube 0 at distance 10 and no other cube. -/
def rayOnCube0 : Nat → Option ℚ := fun i => if i = 0 then some 10 else none

/-- The stage rotations that go with each phase: none before phase 6, the top stage group
fully rotated from phase 7 on, the bottom stage group untouched up to phase 6 and fully
rotated in phase 8. -/
def RotationInvariant (cfg : Config) (s : State) : Prop :=
  s.cubes.length = 10 ∧ s.animationPhase ≤ 8
  ∧ (s.animationPhase ≤ 5 → s.topStageGroup.rotationY = 0)
  ∧ (s.animationPhase ≤ 6 → s.bottomStageGroup.rotationY = 0)
  ∧ (7 ≤ s.animationPhase → s.topStageGroup.rotationY = cfg.stageRotationAngle)
  ∧ (8 ≤ s.animationPhase → s.bottomStageGroup.rotationY = cfg.stageRotationAngle)

/-! ## Configuration export and import

The parameter store is the object `shaderParams`. `JSON.parse` and `JSON.stringify` belong
to the runtime: a file is given by the value `JSON.parse` returns for it (`none` when it
throws), and a value made of finite numbers and booleans is read back as written. -/

/-- A value returned by `JSON.parse`. The members of an object are in the order in which
`Object.keys` enumerates them, each key once. -/
inductive Json where
  | null
  | bool (b : Bool)
  | num (n : ℚ)
  | str (s : String)
  | arr (items : List Json)
  | obj (members : List (String × Json))

/-- An entry of the parameter store: a JSON value, or a function (`resetAnimation`). -/
inductive Entry where
  | data (value : Json)
  | func (name : String)

/-- The property names of `Object.prototype`, which every plain object inherits. -/
def objectPrototypeKeys : List String :=
  ["constructor", "__defineGetter__", "__defineSetter__", "hasOwnProperty",
   "__lookupGetter__", "__lookupSetter__", "isPrototypeOf", "propertyIsEnumerable",
   "toString", "valueOf", "__proto__", "toLocaleString"]

/-- The property names of `Array.prototype` (ECMAScript 2023). -/
def arrayPrototypeKeys : List String :=
  ["length", "constructor", "at", "concat", "copyWithin", "fill", "find", "findIndex",
   "findLast", "findLastIndex", "lastIndexOf", "pop", "push", "reverse", "shift", "unshift",
   "slice", "sort", "splice", "includes", "indexOf", "join", "keys", "entries", "values",
   "forEach", "filter", "flat", "flatMap", "map", "every", "some", "reduce", "reduceRight",
   "toLocaleString", "toString", "toReversed", "toSorted", "toSpliced", "with"]

/-- The object `shaderParams` as the operators `in` and `=` see it: its own entries, the
property names it inherits through its prototype chain, and whether the name `__proto__`
resolves to the accessor of `Object.prototype`. -/
structure Store where
  own : List (String × Entry)
  inherited : List String
  protoSetter : Bool

/-- Truthiness of a JSON value, as tested by `!config.shaderParams`. -/
def Json.truthy : Json → Bool
  | .null => false
  | .bool b => b
  | .num n => decide (n ≠ 0)
  | .str s => decide (s ≠ "")
  | .arr _ => true
  | .obj _ => true

/-- The read `config.shaderParams`: `none` when it throws (on `null`) or gives `undefined`;
both lead to the `catch` branch. -/
def shaderParamsOf : Json → Option Json
  | .obj members => members.lookup "shaderParams"
  | _ => none

/-- The keys of `Object.keys(value)`, each with `value[key]`. -/
def ownEntries : Json → List (String × Json)
  | .obj members => members
  | .arr items => items.enum.map fun ix => (toString ix.1, ix.2)
  | .str s => s.toList.enum.map fun ic => (toString ic.1, Json.str ic.2.toString)
  | _ => []

/-- The test `key in shaderParams`. -/
def Store.hasProperty (st : Store) (key : String) : Bool :=
  st.own.any (fun kv => kv.1 == key) || st.inherited.contains key

/-- The assignment `shaderParams[key] = value`: an own entry is overwritten; the inherited
accessor `__proto__` replaces the prototype when the value is an object, an array or
`null` and ignores other values; any other key becomes a new own entry. -/
def Store.assign (st : Store) (key : String) (value : Json) : Store :=
  if st.own.any (fun kv => kv.1 == key) then
    { st with own := st.own.map fun kv => if kv.1 = key then (kv.1, Entry.data value) else kv }
  else if key = "__proto__" ∧ st.protoSetter = true then
    match value with
    | .obj members =>
      { st with
        inherited := members.map Prod.fst ++ objectPrototypeKeys
        protoSetter := !(members.any fun kv => kv.1 == "__proto__") }
    | .arr items =>
      { st with
        inherited := (List.range items.length).map toString
          ++ "length" :: arrayPrototypeKeys ++ objectPrototypeKeys
        protoSetter := true }
    | .null => { st with inherited := [], protoSetter := false }
    | _ => st
  else { st with own := st.own ++ [(key, Entry.data value)] }

/-- Which `alert` the load handler of `importGUIConfig` shows. -/
inductive ImportOutcome where
  | success
  | error
deriving DecidableEq

/-- The loop `Object.keys(config.shaderParams).forEach(...)` of `importGUIConfig`; the test
`typeof config.shaderParams[key] !== 'function'` holds for every JSON value. -/
def applyImported (st : Store) (entries : List (String × Json)) : Store :=
  entries.foldl (fun acc kv => if acc.hasProperty kv.1 then acc.assign kv.1 kv.2 else acc) st

/-- The `reader.onload` handler of `importGUIConfig`, as far as the parameter store and the
`alert` go; `parsed` is the result of `JSON.parse(e.target.result)`. The calls that follow
the loop push the store to the GUI, the materials and the camera target. -/
def importOnload (parsed : Option Json) (st : Store) : Store × ImportOutcome :=
  match parsed with
  | none => (st, .error)
  | some config =>
    match shaderParamsOf config with
    | none => (st, .error)
    | some sp =>
      if sp.truthy then (applyImported st (ownEntries sp), .success)
      else (st, .error)

/-- The member `shaderParams` of the exported file: the copy `{ ...shaderParams }` as
`JSON.stringify` writes it, without the function-valued entries. -/
def exportedParams (st : Store) : List (String × Json) :=
  st.own.filterMap fun kv =>
    match kv.2 with
    | .data value => some (kv.1, value)
    | .func _ => none

/-- The object that `exportGUIConfig` serialises, as it is read back from the file. -/
def exportGUIConfig (st : Store) (timestamp : String) : Json :=
  .obj [("version", .str "1.0"), ("timestamp", .str timestamp),
        ("shaderParams", .obj (exportedParams st))]

/-- The object `shaderParams` of the source. -/
def shaderParamsStore : Store where
  own :=
    [("iorRed", .data (.num (148 / 100))), ("iorGreen", .data (.num (150 / 100))),
     ("iorBlue", .data (.num (156 / 100))), ("transmission", .data (.num (75 / 100))),
     ("refractionStrength", .data (.num (15 / 100))),
     ("chromaticMultiplierRed", .data (.num (13 / 10))),
     ("chromaticMultiplierBlue", .data (.num (14 / 10))),
     ("verticalVariationFreq", .data (.num (15 / 10))),
     ("horizontalVariationFreq", .data (.num (8 / 10))),
     ("timeSpeed", .data (.num (1 / 10))), ("fresnelPower", .data (.num 2)),
     ("edgeFresnelPower", .data (.num 3)),
     ("blueBaseR", .data (.num (2 / 10))), ("blueBaseG", .data (.num (6 / 10))),
     ("blueBaseB", .data (.num 1)),
     ("blueLighterR", .data (.num (4 / 10))), ("blueLighterG", .data (.num (75 / 100))),
     ("blueLighterB", .data (.num (95 / 100))),
     ("violetSubtleR", .data (.num (4 / 10))), ("violetSubtleG", .data (.num (55 / 100))),
     ("violetSubtleB", .data (.num (85 / 100))),
     ("baseColorIntensity", .data (.num (4 / 10))),
     ("iridescentIntensity", .data (.num (8 / 10))),
     ("reflectionIntensity", .data (.num (25 / 100))),
     ("edgeIntensity", .data (.num (8 / 10))), ("glassBodyIntensity", .data (.num (3 / 10))),
     ("spectralRedMult", .data (.num (1 / 10))), ("spectralGreenMult", .data (.num (12 / 10))),
     ("spectralBlueMult", .data (.num (11 / 10))),
     ("gammaCorrection", .data (.num (11 / 10))), ("finalOpacityMult", .data (.num (11 / 10))),
     ("rotationSpeed", .data (.num (7 / 1000))), ("enableRotation", .data (.bool true)),
     ("cubeSize", .data (.num (25 / 10))), ("transparency", .data (.num 1)),
     ("cameraDistance", .data (.num 12)), ("toneMappingExposure", .data (.num (15 / 10))),
     ("cameraMouseSensitivity", .data (.num 3)), ("cameraLerpSpeed", .data (.num (5 / 100))),
     ("cameraMaxOffset", .data (.num 2)), ("pauseAnimation", .data (.bool false)),
     ("resetAnimation", .func "resetAnimation")]
  inherited := objectPrototypeKeys
  protoSetter := true

/-- The own entry of the store under `key`, if any. -/
def Store.get? (st : Store) (key : String) : Option Entry :=
  st.own.lookup key

/-- An entry that `JSON.stringify` either writes exactly or drops: a finite number, a
boolean, or a function. -/
def Entry.plain : Entry → Bool
  | .data (.num _) => true
  | .data (.bool _) => true
  | .func _ => true
  | _ => false

/-- A file whose `shaderParams` has the single member `toString`. -/
def fileWithToString : Json :=
  .obj [("version", .str "1.0"), ("shaderParams", .obj [("toString", .num 1)])]

/-- A file whose `shaderParams` has the single member `resetAnimation`, a number. -/
def fileWithResetAnimation : Json :=
  .obj [("version", .str "1.0"), ("shaderParams", .obj [("resetAnimation", .num 5)])]

/-- The half extent of a cube along the axis on which its reveal phase grows it: half the
common block size, and a quarter of it for the two narrow blocks of phase 5. -/
def halfExtent (cfg : Config) (animationPhase : Nat) : ℚ :=
  if animationPhase = 5 then cfg.cubeSize / 4 else cfg.cubeSize / 2

/-- The coordinate of a vector on the axis that a reveal phase drives: the vertical axis in
phases 1 and 2, depth in phase 3, the horizontal axis in phases 4 and 5. -/
def drivenAxis (animationPhase : Nat) (v : Vec3) : ℚ :=
  if animationPhase = 1 ∨ animationPhase = 2 then v.y
  else if animationPhase = 3 then v.z
  else v.x

/-- The reveal phase that animates the cube of a given index. -/
def phaseOfIndex (index : Nat) : Nat :=
  if index = 0 then 1
  else if index = 4 then 2
  else if index = 2 ∨ index = 6 then 3
  else if index = 8 ∨ index = 9 then 5
  else 4

/-- The position of a cube agrees with its final resting position on the two axes that
reveal phase `q` does not drive. -/
def OffAxisAtRest (q : Nat) (c : Cube) : Prop :=
  (q ≤ 2 → c.position.x = c.userData.finalPosition.x ∧ c.position.z = c.userData.finalPosition.z)
  ∧ (q = 3 →
      c.position.x = c.userData.finalPosition.x ∧ c.position.y = c.userData.finalPosition.y)
  ∧ (4 ≤ q →
      c.position.y = c.userData.finalPosition.y ∧ c.position.z = c.userData.finalPosition.z)

/-- A cube is fully revealed: baseline scale (1,1,1), at its final resting position, at its
target opacity. -/
def FullyRevealed (c : Cube) : Prop :=
  c.userData.originalScale = some ⟨1, 1, 1⟩
  ∧ c.position = c.userData.finalPosition
  ∧ c.material.opacity = c.userData.finalOpacity

/-- What holds of cube `i` while the animation is in phase `animationPhase`: it has a
baseline scale, its final resting position and target opacity are those given at creation,
it has moved only along the axis of its own reveal phase, and it is fully revealed once its
reveal phase is over. -/
def CubeRevealInvariant (cfg : Config) (animationPhase i : Nat) (c : Cube) : Prop :=
  c.userData.originalScale ≠ none
  ∧ ((createCubeGroup cfg)[i]?).map (fun c0 => (c0.position, c0.userData.finalOpacity))
      = some (c.userData.finalPosition, c.userData.finalOpacity)
  ∧ ∀ q, i ∈ revealIndices q → OffAxisAtRest q c ∧ (q < animationPhase → FullyRevealed c)

/-- The invariant of the reveal: ten cubes, each with `CubeRevealInvariant`. -/
def RevealInvariant (cfg : Config) (s : State) : Prop :=
  s.cubes.length = 10
  ∧ ∀ (i : Nat) (c : Cube), s.cubes[i]? = some c → CubeRevealInvariant cfg s.animationPhase i c

/-! ## Lemmas on the appearance animation -/

theorem animateCube_idem (cfg : Config) (p : Nat) (e : ℚ) (c : Cube) :
    animateCube cfg p e (animateCube cfg p e c) = animateCube cfg p e c := by
  unfold animateCube
  cases h : c.userData.originalScale <;> simp only [h] <;> split_ifs <;> simp

theorem foldlM_set_spec (f : Cube → Cube) (hf : ∀ c, f (f c) = f c) :
    ∀ (idx : List Nat) (cubes : List Cube), (∀ i ∈ idx, i < cubes.length) →
      ∃ cs, idx.foldlM
          (fun cs index =>
            match cs[index]? with
            | some cube => some (cs.set index (f cube))
            | none => none) cubes = some cs
        ∧ cs.length = cubes.length
        ∧ ∀ j, cs[j]? = (cubes[j]?).map fun c => if j ∈ idx then f c else c := by
  intro idx
  induction idx with
  | nil =>
    intro cubes _
    refine ⟨cubes, rfl, rfl, fun j => ?_⟩
    cases cubes[j]? <;> simp
  | cons i rest ih =>
    intro cubes hlt
    have hi : i < cubes.length := hlt i (List.mem_cons_self _ _)
    obtain ⟨cs, hcs, hlen, hget⟩ := ih (cubes.set i (f cubes[i])) (by
      intro k hk
      rw [List.length_set]
      exact hlt k (List.mem_cons_of_mem _ hk))
    refine ⟨cs, ?_, ?_, fun j => ?_⟩
    · rw [List.foldlM_cons, List.getElem?_eq_getElem hi]
      exact hcs
    · rw [hlen, List.length_set]
    · rw [hget j, List.getElem?_set]
      by_cases hji : i = j
      · subst hji
        simp only [hi, if_true, List.getElem?_eq_getElem, Option.map_some', List.mem_cons,
          true_or]
        by_cases hr : i ∈ rest <;> simp [hr, hf]
      · have hji' : j ≠ i := fun h => hji h.symm
        simp only [hji, if_false, List.mem_cons, hji', false_or]

theorem animateCubes_spec (cfg : Config) (p : Nat) (cubes : List Cube) (idx : List Nat)
    (elapsed : ℚ) (hidx : ∀ i ∈ idx, i < cubes.length) :
    ∃ cs, animateCubes cfg p cubes idx elapsed = some cs
      ∧ cs.length = cubes.length
      ∧ ∀ j, cs[j]? = (cubes[j]?).map fun c =>
          if j ∈ idx then
            animateCube cfg p (easeInOutCubic (min (elapsed / cfg.animationDuration) 1)) c
          else c :=
  foldlM_set_spec _ (animateCube_idem cfg p _) idx cubes hidx

theorem handleAppearanceAnimation_some (cfg : Config) (s : State) (now : ℚ)
    (hlen : 10 ≤ s.cubes.length) :
    ∃ s1, handleAppearanceAnimation cfg s now = some s1
      ∧ s1.cubes.length = s.cubes.length
      ∧ s1.shaderParams = s.shaderParams
      ∧ s1.animationPhase = phaseAfter cfg s.animationPhase (now - s.animationStartTime) := by
  have key : ∀ idx : List Nat, (∀ i ∈ idx, i < 10) →
      ∃ cs, animateCubes cfg s.animationPhase s.cubes idx (now - s.animationStartTime) = some cs
        ∧ cs.length = s.cubes.length := by
    intro idx hidx
    obtain ⟨cs, h1, h2, _⟩ := animateCubes_spec cfg s.animationPhase s.cubes idx
      (now - s.animationStartTime) (fun i hi => lt_of_lt_of_le (hidx i hi) hlen)
    exact ⟨cs, h1, h2⟩
  unfold handleAppearanceAnimation phaseAfter
  by_cases he : now - s.animationStartTime > cfg.animationDuration <;>
  by_cases hr : now - s.animationStartTime > cfg.stageRotationDuration <;>
  by_cases h1 : s.animationPhase = 1
  all_goals first
    | (obtain ⟨cs, hcs, hl⟩ := key [0] (by decide)
       clear key
       simp only [h1] at hcs ⊢
       simp only [hcs, Option.map_some', he, if_true, if_false]
       exact ⟨_, rfl, hl, rfl, by norm_num⟩)
    | skip
  all_goals by_cases h2 : s.animationPhase = 2
  all_goals first
    | (obtain ⟨cs, hcs, hl⟩ := key [4] (by decide)
       clear key
       simp only [h2] at hcs ⊢
       simp only [hcs, Option.map_some', he, if_true, if_false]
       exact ⟨_, rfl, hl, rfl, by norm_num⟩)
    | skip
  all_goals by_cases h3 : s.animationPhase = 3
  all_goals first
    | (obtain ⟨cs, hcs, hl⟩ := key [2, 6] (by decide)
       clear key
       simp only [h3] at hcs ⊢
       simp only [hcs, Option.map_some', he, if_true, if_false]
       exact ⟨_, rfl, hl, rfl, by norm_num⟩)
    | skip
  all_goals by_cases h4 : s.animationPhase = 4
  all_goals first
    | (obtain ⟨cs, hcs, hl⟩ := key [1, 3, 5, 7] (by decide)
       clear key
       simp only [h4] at hcs ⊢
       simp only [hcs, Option.map_some', he, if_true, if_false]
       exact ⟨_, rfl, hl, rfl, by norm_num⟩)
    | skip
  all_goals by_cases h5 : s.animationPhase = 5
  all_goals first
    | (obtain ⟨cs, hcs, hl⟩ := key [8, 9] (by decide)
       clear key
       simp only [h5] at hcs ⊢
       simp only [hcs, Option.map_some', he, if_true, if_false]
       exact ⟨_, rfl, hl, rfl, by norm_num⟩)
    | skip
  all_goals clear key
  all_goals by_cases h6 : s.animationPhase = 6
  all_goals first
    | (simp only [h6, hr, if_true, if_false]
       exact ⟨_, rfl, rfl, rfl, by norm_num⟩)
    | skip
  all_goals by_cases h7 : s.animationPhase = 7
  all_goals first
    | (simp only [h7, hr, if_true, if_false]
       exact ⟨_, rfl, rfl, rfl, by norm_num⟩)
    | skip
  all_goals
    simp only [h1, h2, h3, h4, h5, h6, h7, if_false]
    refine ⟨s, rfl, rfl, rfl, ?_⟩
    have hA : ¬ (1 ≤ s.animationPhase ∧ s.animationPhase ≤ 5) := by omega
    have hB : ¬ (6 ≤ s.animationPhase ∧ s.animationPhase ≤ 7) := by omega
    simp only [hA, hB, if_false]

theorem phaseAfter_cases (cfg : Config) (p : Nat) (e : ℚ) :
    phaseAfter cfg p e = p ∨ phaseAfter cfg p e = p + 1 := by
  unfold phaseAfter
  split_ifs <;> simp

theorem phaseAfter_le (cfg : Config) (p : Nat) (e : ℚ) (hp : p ≤ 8) :
    phaseAfter cfg p e ≤ 8 := by
  unfold phaseAfter
  split_ifs <;> omega

theorem animate_some (cfg : Config) (s : State) (now : ℚ) (hlen : 10 ≤ s.cubes.length) :
    ∃ s1, animate cfg s now = some s1
      ∧ s1.cubes.length = s.cubes.length
      ∧ (s1.animationPhase = s.animationPhase ∨ s1.animationPhase = s.animationPhase + 1)
      ∧ (s.animationPhase ≤ 8 → s1.animationPhase ≤ 8) := by
  have hlen2 : 10 ≤ (updateHoverAnimations (updateSmoothCamera s) now).cubes.length := by
    simpa [updateHoverAnimations, updateSmoothCamera] using hlen
  obtain ⟨s3, h3, hl3, _, hp3⟩ := handleAppearanceAnimation_some cfg _ now hlen2
  have hl3' : s3.cubes.length = s.cubes.length := by
    rw [hl3]; simp [updateHoverAnimations, updateSmoothCamera]
  have hp3' : s3.animationPhase
      = phaseAfter cfg s.animationPhase (now - s.animationStartTime) := hp3
  unfold animate
  by_cases hpause : (updateHoverAnimations (updateSmoothCamera s) now).shaderParams.pauseAnimation
      = true
  · simp only [hpause, if_true, Option.map_some']
    refine ⟨_, rfl, ?_, ?_, ?_⟩
    · split_ifs <;> simp [updateHoverAnimations, updateSmoothCamera]
    · left
      split_ifs <;> rfl
    · intro h
      split_ifs <;> exact h
  · simp only [hpause, h3, Option.map_some']
    refine ⟨_, rfl, ?_, ?_, ?_⟩
    · beta_reduce
      split_ifs <;> exact hl3'
    · have hc := phaseAfter_cases cfg s.animationPhase (now - s.animationStartTime)
      rw [← hp3'] at hc
      beta_reduce
      split_ifs <;> exact hc
    · intro h
      have hc := phaseAfter_le cfg s.animationPhase (now - s.animationStartTime) h
      rw [← hp3'] at hc
      beta_reduce
      split_ifs <;> exact hc

theorem runFrames_append (cfg : Config) (a b : List ℚ) :
    ∀ s : State, runFrames cfg s (a ++ b) = (runFrames cfg s a).bind fun s1 => runFrames cfg s1 b := by
  induction a with
  | nil => intro s; rfl
  | cons t ts ih =>
    intro s
    simp only [List.cons_append, runFrames]
    cases animate cfg s t with
    | none => rfl
    | some s1 => simpa using ih s1

theorem runFrames_visits (cfg : Config) (times : List ℚ) :
    ∀ s : State, s.cubes.length = 10 → s.animationPhase ≤ 8 →
      ∃ s2, runFrames cfg s times = some s2
        ∧ s2.cubes.length = 10
        ∧ s.animationPhase ≤ s2.animationPhase ∧ s2.animationPhase ≤ 8
        ∧ ∀ q, s.animationPhase ≤ q → q ≤ s2.animationPhase →
            ∃ pre sq, pre <+: times ∧ runFrames cfg s pre = some sq ∧ sq.animationPhase = q := by
  induction times with
  | nil =>
    intro s hlen hp
    refine ⟨s, rfl, hlen, le_rfl, hp, fun q h1 h2 => ⟨[], s, List.prefix_refl _, rfl, ?_⟩⟩
    exact le_antisymm h1 h2
  | cons t ts ih =>
    intro s hlen hp
    obtain ⟨s1, h1, hl1, hc1, hp1⟩ := animate_some cfg s t (by omega)
    obtain ⟨s2, h2, hl2, hmono, hp2, hvis⟩ := ih s1 (by omega) (hp1 hp)
    refine ⟨s2, ?_, hl2, ?_, hp2, ?_⟩
    · simp [runFrames, h1, h2]
    · rcases hc1 with hc | hc <;> omega
    · intro q hq1 hq2
      by_cases hq : q = s.animationPhase
      · exact ⟨[], s, List.nil_prefix, rfl, hq.symm⟩
      · obtain ⟨pre, sq, hpre, hrun, hph⟩ := hvis q (by rcases hc1 with hc | hc <;> omega) hq2
        refine ⟨t :: pre, sq, ?_, ?_, hph⟩
        · exact (List.prefix_cons_inj t).mpr hpre
        · simp [runFrames, h1, hrun]

/-! ## Claims -/

/-- C1. Phase progression never skips or repeats. For every state with ten cubes whose
phase is in 0..8 and every current time, one call of `handleAppearanceAnimation` returns,
leaving the phase where it was or moving it to the next one, never past 8. Along every
sequence of frames (no reset in between) the phase is non-decreasing between any two
frames, stays at most 8, and every phase between the two was the phase after some frame
in between, so the phases are visited in the order 1, 2, ..., 8. -/
theorem C1_phase_progression (cfg : Config) (s : State)
    (hphase : s.animationPhase ≤ 8) (hlen : s.cubes.length = 10) :
    (∀ currentTime : ℚ, ∃ s1, handleAppearanceAnimation cfg s currentTime = some s1
        ∧ (s1.animationPhase = s.animationPhase ∨ s1.animationPhase = s.animationPhase + 1)
        ∧ s1.animationPhase ≤ 8)
    ∧ (∀ pre post : List ℚ, ∃ s1 s2,
        runFrames cfg s pre = some s1 ∧ runFrames cfg s (pre ++ post) = some s2
        ∧ s1.animationPhase ≤ s2.animationPhase ∧ s2.animationPhase ≤ 8
        ∧ ∀ q, s1.animationPhase ≤ q → q ≤ s2.animationPhase →
            ∃ mid sq, mid <+: post ∧ runFrames cfg s (pre ++ mid) = some sq
              ∧ sq.animationPhase = q) := by
  constructor
  · intro currentTime
    obtain ⟨s1, h1, _, _, hp1⟩ := handleAppearanceAnimation_some cfg s currentTime (by omega)
    refine ⟨s1, h1, ?_, ?_⟩
    · rw [hp1]; exact phaseAfter_cases _ _ _
    · rw [hp1]; exact phaseAfter_le _ _ _ hphase
  · intro pre post
    obtain ⟨s1, h1, hl1, _, hp1, _⟩ := runFrames_visits cfg pre s hlen hphase
    obtain ⟨s2, h2, _, hmono, hp2, hvis⟩ := runFrames_visits cfg post s1 hl1 hp1
    refine ⟨s1, s2, h1, ?_, hmono, hp2, ?_⟩
    · rw [runFrames_append, h1]; exact h2
    · intro q hq1 hq2
      obtain ⟨mid, sq, hmid, hrun, hph⟩ := hvis q hq1 hq2
      refine ⟨mid, sq, hmid, ?_, hph⟩
      rw [runFrames_append, h1]; exact hrun

/-- C1, at a concrete input: the state in which the frame loop starts, one call at 1500 ms. -/
theorem C1_phase_progression_witness :
    (init (CONFIG 3) 0).animationPhase ≤ 8 ∧ (init (CONFIG 3) 0).cubes.length = 10
    ∧ ∃ s1, handleAppearanceAnimation (CONFIG 3) (init (CONFIG 3) 0) 1500 = some s1
        ∧ (s1.animationPhase = (init (CONFIG 3) 0).animationPhase
            ∨ s1.animationPhase = (init (CONFIG 3) 0).animationPhase + 1)
        ∧ s1.animationPhase ≤ 8 :=
  ⟨by decide, by rfl,
    (C1_phase_progression (CONFIG 3) (init (CONFIG 3) 0) (by decide) (by rfl)).1 1500⟩

/-- C2. Once `animationPhase` is 8, `handleAppearanceAnimation` is a no-op for every time
input: it returns the state it was given, so the phase, the phase-start timestamp, every
cube's scale, baseline scale, position and opacity, and both stage-group rotation angles
are unchanged. -/
theorem C2_phase8_noop (cfg : Config) (s : State) (currentTime : ℚ)
    (h8 : s.animationPhase = 8) :
    handleAppearanceAnimation cfg s currentTime = some s := by
  unfold handleAppearanceAnimation
  simp [h8]

/-- C2, at a concrete input: the initial state moved to phase 8, called at 123456 ms. -/
theorem C2_phase8_noop_witness :
    ({ init (CONFIG 3) 0 with animationPhase := 8 } : State).animationPhase = 8
    ∧ handleAppearanceAnimation (CONFIG 3) { init (CONFIG 3) 0 with animationPhase := 8 } 123456
        = some { init (CONFIG 3) 0 with animationPhase := 8 } :=
  ⟨rfl, C2_phase8_noop (CONFIG 3) { init (CONFIG 3) 0 with animationPhase := 8 } 123456 rfl⟩

/-- C3. From any state, `resetAnimation` sets `animationPhase` to 1 and, keeping the number
of cubes, sets all three scale components and the opacity of every cube to 0. -/
theorem C3_reset_zeroes (s : State) (now : ℚ) :
    (resetAnimation s now).animationPhase = 1
    ∧ (resetAnimation s now).cubes.length = s.cubes.length
    ∧ ∀ cube ∈ (resetAnimation s now).cubes,
        cube.scale.x = 0 ∧ cube.scale.y = 0 ∧ cube.scale.z = 0 ∧ cube.material.opacity = 0 := by
  refine ⟨rfl, by simp [resetAnimation], ?_⟩
  intro cube hcube
  simp only [resetAnimation, List.mem_map] at hcube
  obtain ⟨c, _, rfl⟩ := hcube
  exact ⟨rfl, rfl, rfl, rfl⟩

theorem easeInOutCubic_one : easeInOutCubic 1 = 1 := by
  norm_num [easeInOutCubic]

theorem revealIndices_lt (p i : Nat) (hi : i ∈ revealIndices p) : i < 10 := by
  unfold revealIndices at hi
  split_ifs at hi <;> simp at hi <;> omega

theorem animateCube_full (cfg : Config) (p : Nat) (c : Cube) (h1 : 1 ≤ p) (h5 : p ≤ 5) :
    (animateCube cfg p 1 c).scale = ⟨1, 1, 1⟩
    ∧ (animateCube cfg p 1 c).userData.originalScale
        = c.userData.originalScale.map (fun _ => ⟨1, 1, 1⟩)
    ∧ (animateCube cfg p 1 c).material.opacity = c.userData.finalOpacity
    ∧ (animateCube cfg p 1 c).userData.finalOpacity = c.userData.finalOpacity := by
  have hp : p = 1 ∨ p = 2 ∨ p = 3 ∨ p = 4 ∨ p = 5 := by omega
  rcases hp with rfl | rfl | rfl | rfl | rfl <;> simp [animateCube]

/-- C4. In every reveal phase 1..5, `animateCubes` called on the phase's index subset with
`elapsed` exactly equal to `animationDuration` returns, and every cube of the subset ends
with scale (1,1,1), so its driven-axis component is 1, with its baseline scale
`userData.originalScale` (set from `initHoverSystem` on) equal to (1,1,1) too, and with its
opacity equal to its target opacity `userData.finalOpacity`. -/
theorem C4_reveal_boundary (cfg : Config) (p : Nat) (cubes : List Cube)
    (hdur : cfg.animationDuration ≠ 0) (h1 : 1 ≤ p) (h5 : p ≤ 5)
    (hlen : cubes.length = 10)
    (hhover : ∀ c ∈ cubes, c.userData.originalScale ≠ none) :
    ∃ cs, animateCubes cfg p cubes (revealIndices p) cfg.animationDuration = some cs
      ∧ ∀ i ∈ revealIndices p, ∃ c c1, cubes[i]? = some c ∧ cs[i]? = some c1
          ∧ c1.scale = ⟨1, 1, 1⟩
          ∧ c1.userData.originalScale = some ⟨1, 1, 1⟩
          ∧ c1.material.opacity = c.userData.finalOpacity
          ∧ c1.userData.finalOpacity = c.userData.finalOpacity := by
  obtain ⟨cs, hcs, _, hget⟩ := animateCubes_spec cfg p cubes (revealIndices p)
    cfg.animationDuration (fun i hi => by rw [hlen]; exact revealIndices_lt p i hi)
  refine ⟨cs, hcs, fun i hi => ?_⟩
  have hi10 : i < cubes.length := by rw [hlen]; exact revealIndices_lt p i hi
  have hprog : easeInOutCubic (min (cfg.animationDuration / cfg.animationDuration) 1) = 1 := by
    rw [div_self hdur, min_self, easeInOutCubic_one]
  obtain ⟨hs, ho, hop, hf⟩ := animateCube_full cfg p cubes[i] h1 h5
  refine ⟨cubes[i], animateCube cfg p 1 cubes[i], List.getElem?_eq_getElem hi10, ?_, hs, ?_,
    hop, hf⟩
  · rw [hget i, List.getElem?_eq_getElem hi10, hprog]
    simp [hi]
  · rw [ho]
    have := hhover cubes[i] (List.getElem_mem hi10)
    cases h : cubes[i].userData.originalScale with
    | none => exact absurd h this
    | some v => rfl

/-- C4, at a concrete input: phase 3 on the ten cubes of the initial state. -/
theorem C4_reveal_boundary_witness :
    (CONFIG 3).animationDuration ≠ 0 ∧ (init (CONFIG 3) 0).cubes.length = 10
    ∧ ∃ cs, animateCubes (CONFIG 3) 3 (init (CONFIG 3) 0).cubes (revealIndices 3)
          (CONFIG 3).animationDuration = some cs
      ∧ ∀ i ∈ revealIndices 3, ∃ c c1, (init (CONFIG 3) 0).cubes[i]? = some c
          ∧ cs[i]? = some c1
          ∧ c1.scale = ⟨1, 1, 1⟩
          ∧ c1.userData.originalScale = some ⟨1, 1, 1⟩
          ∧ c1.material.opacity = c.userData.finalOpacity
          ∧ c1.userData.finalOpacity = c.userData.finalOpacity :=
  ⟨by norm_num [CONFIG], rfl,
    C4_reveal_boundary (CONFIG 3) 3 (init (CONFIG 3) 0).cubes (by norm_num [CONFIG])
      (by decide) (by decide) rfl
      (by simp [init, initHoverSystem, initAppearanceAnimation, createCubeGroup])⟩

/-- C5. The easing function takes the exact values `ease(0) = 0`, `ease(1/2) = 1/2` and
`ease(1) = 1`. -/
theorem C5_ease_values :
    easeInOutCubic 0 = 0 ∧ easeInOutCubic (1 / 2) = 1 / 2 ∧ easeInOutCubic 1 = 1 := by
  refine ⟨?_, ?_, ?_⟩ <;> norm_num [easeInOutCubic]

theorem easeInOutCubic_bounds (t : ℚ) (h0 : 0 ≤ t) (h1 : t ≤ 1) :
    0 ≤ easeInOutCubic t ∧ easeInOutCubic t ≤ 1 := by
  unfold easeInOutCubic
  split_ifs with h
  · have h3 : 0 ≤ t * t * t := by positivity
    refine ⟨by linarith, ?_⟩
    have : t * t * t ≤ 1 / 2 * (1 / 2) * (1 / 2) := by
      have ht : t ≤ 1 / 2 := le_of_lt h
      have : t * t ≤ 1 / 2 * (1 / 2) := mul_le_mul ht ht h0 (by norm_num)
      exact mul_le_mul this ht h0 (by norm_num)
    linarith
  · have hu0 : 0 ≤ -2 * t + 2 := by linarith
    have hu1 : -2 * t + 2 ≤ 1 := by push_neg at h; linarith
    have hp0 : 0 ≤ (-2 * t + 2) ^ 3 := pow_nonneg hu0 3
    have hp1 : (-2 * t + 2) ^ 3 ≤ 1 := pow_le_one₀ hu0 hu1
    constructor <;> linarith

/-- C6. The easing function is monotonic non-decreasing on [0,1]: for `0 ≤ s ≤ t ≤ 1`,
`ease(s) ≤ ease(t)`, also when `s < 1/2 ≤ t` puts the two values on different branches. -/
theorem C6_ease_monotone (s t : ℚ) (h0 : 0 ≤ s) (hst : s ≤ t) (h1 : t ≤ 1) :
    easeInOutCubic s ≤ easeInOutCubic t := by
  unfold easeInOutCubic
  have ht0 : 0 ≤ t := le_trans h0 hst
  split_ifs with hs ht ht
  · have h2 : s * s ≤ t * t := mul_le_mul hst hst h0 ht0
    have h3 : s * s * s ≤ t * t * t := mul_le_mul h2 hst h0 (by positivity)
    linarith
  · push_neg at ht
    have h2 : s * s ≤ 1 / 2 * (1 / 2) := mul_le_mul hs.le hs.le h0 (by norm_num)
    have h3 : s * s * s ≤ 1 / 2 * (1 / 2) * (1 / 2) := mul_le_mul h2 hs.le h0 (by norm_num)
    have hu0 : 0 ≤ -2 * t + 2 := by linarith
    have hu1 : -2 * t + 2 ≤ 1 := by linarith
    have hp1 : (-2 * t + 2) ^ 3 ≤ 1 := pow_le_one₀ hu0 hu1
    linarith
  · push_neg at hs
    linarith
  · have hu0 : 0 ≤ -2 * t + 2 := by linarith
    have hle : -2 * t + 2 ≤ -2 * s + 2 := by linarith
    have hp : (-2 * t + 2) ^ 3 ≤ (-2 * s + 2) ^ 3 := pow_le_pow_left₀ hu0 hle 3
    linarith

/-- C6, at the concrete pair 1/4 ≤ 3/4, one value from each branch. -/
theorem C6_ease_monotone_witness :
    (0 : ℚ) ≤ 1 / 4 ∧ (1 / 4 : ℚ) ≤ 3 / 4 ∧ (3 / 4 : ℚ) ≤ 1
    ∧ easeInOutCubic (1 / 4) ≤ easeInOutCubic (3 / 4) :=
  ⟨by norm_num, by norm_num, by norm_num,
    C6_ease_monotone (1 / 4) (3 / 4) (by norm_num) (by norm_num) (by norm_num)⟩

/-- C7. For every `t` in [0,1], `easeInOutCubic(t)` lies in [0,1]. -/
theorem C7_ease_range (t : ℚ) (h0 : 0 ≤ t) (h1 : t ≤ 1) :
    0 ≤ easeInOutCubic t ∧ easeInOutCubic t ≤ 1 :=
  easeInOutCubic_bounds t h0 h1

/-- C7, at the concrete input 1/4. -/
theorem C7_ease_range_witness :
    (0 : ℚ) ≤ 1 / 4 ∧ (1 / 4 : ℚ) ≤ 1
    ∧ 0 ≤ easeInOutCubic (1 / 4) ∧ easeInOutCubic (1 / 4) ≤ 1 :=
  ⟨by norm_num, by norm_num, C7_ease_range (1 / 4) (by norm_num) (by norm_num)⟩

/-! ## Lemmas on the hover animation -/

theorem updateHoverAnimations_getElem? (s : State) (now : ℚ) (i : Nat) :
    (updateHoverAnimations s now).cubes[i]?
      = (s.cubes[i]?).map (updateHoverCube s.hoverStartTime now) := by
  simp [updateHoverAnimations]

theorem updateHoverCube_flags (a now : ℚ) (c : Cube) :
    (updateHoverCube a now c).userData.isHovered = c.userData.isHovered
    ∧ (updateHoverCube a now c).userData.originalScale = c.userData.originalScale := by
  unfold updateHoverCube
  cases h : c.userData.originalScale <;> simp [h]

theorem updateHoverCube_hovered (a now : ℚ) (c : Cube)
    (hinit : c.userData.originalScale ≠ none) (hov : c.userData.isHovered = true) :
    (updateHoverCube a now c).userData.hoverProgress
      = lerp c.userData.hoverProgress (min ((now - a) / HOVER_ANIMATION_DURATION) 1)
          (15 / 100) := by
  unfold updateHoverCube
  cases h : c.userData.originalScale with
  | none => exact absurd h hinit
  | some v => simp [hov]

theorem updateHoverCube_unhovered (a now : ℚ) (c : Cube)
    (hinit : c.userData.originalScale ≠ none) (hov : c.userData.isHovered = false) :
    (updateHoverCube a now c).userData.hoverProgress = 85 / 100 * c.userData.hoverProgress := by
  unfold updateHoverCube
  cases h : c.userData.originalScale with
  | none => exact absurd h hinit
  | some v =>
    simp only [hov, lerp]
    norm_num

theorem targetProgress_mono (a t u : ℚ) (htu : t ≤ u) :
    min ((t - a) / HOVER_ANIMATION_DURATION) 1 ≤ min ((u - a) / HOVER_ANIMATION_DURATION) 1 := by
  apply min_le_min _ le_rfl
  unfold HOVER_ANIMATION_DURATION
  apply div_le_div_of_nonneg_right _ (by norm_num)
  linarith

theorem runHoverFrames_append (s : State) (a b : List ℚ) :
    runHoverFrames s (a ++ b) = runHoverFrames (runHoverFrames s a) b := by
  simp [runHoverFrames, List.foldl_append]

theorem runHoverFrames_hoverStartTime (times : List ℚ) :
    ∀ s : State, (runHoverFrames s times).hoverStartTime = s.hoverStartTime := by
  induction times with
  | nil => intro s; rfl
  | cons t ts ih =>
    intro s
    show (runHoverFrames (updateHoverAnimations s t) ts).hoverStartTime = _
    rw [ih]
    rfl

/-- While hovered, with `hoverProgress` at most the target of every coming frame and the
frame times non-decreasing, a run of frames does not lower `hoverProgress` and keeps it at
most the target of any later time. -/
theorem runHoverFrames_hovered (i : Nat) (times : List ℚ) :
    ∀ (s : State) (c : Cube), s.cubes[i]? = some c →
      c.userData.originalScale ≠ none → c.userData.isHovered = true →
      times.Pairwise (· ≤ ·) →
      (∀ t ∈ times, c.userData.hoverProgress
          ≤ min ((t - s.hoverStartTime) / HOVER_ANIMATION_DURATION) 1) →
      ∃ c2, (runHoverFrames s times).cubes[i]? = some c2
        ∧ c2.userData.originalScale ≠ none ∧ c2.userData.isHovered = true
        ∧ c.userData.hoverProgress ≤ c2.userData.hoverProgress
        ∧ ∀ u, (∀ t ∈ times, t ≤ u) →
            c.userData.hoverProgress
              ≤ min ((u - s.hoverStartTime) / HOVER_ANIMATION_DURATION) 1 →
            c2.userData.hoverProgress
              ≤ min ((u - s.hoverStartTime) / HOVER_ANIMATION_DURATION) 1 := by
  induction times with
  | nil =>
    intro s c hc hinit hov _ _
    exact ⟨c, hc, hinit, hov, le_rfl, fun u _ h => h⟩
  | cons t ts ih =>
    intro s c hc hinit hov hsorted hbelow
    obtain ⟨hhead, htail⟩ := List.pairwise_cons.mp hsorted
    have hflags := updateHoverCube_flags s.hoverStartTime t c
    have hstep := updateHoverCube_hovered s.hoverStartTime t c hinit hov
    have hct : c.userData.hoverProgress
        ≤ min ((t - s.hoverStartTime) / HOVER_ANIMATION_DURATION) 1 :=
      hbelow t (List.mem_cons_self _ _)
    have hup : c.userData.hoverProgress
        ≤ (updateHoverCube s.hoverStartTime t c).userData.hoverProgress := by
      rw [hstep]; unfold lerp; linarith
    have hdown : (updateHoverCube s.hoverStartTime t c).userData.hoverProgress
        ≤ min ((t - s.hoverStartTime) / HOVER_ANIMATION_DURATION) 1 := by
      rw [hstep]; unfold lerp; linarith
    have hc1 : (updateHoverAnimations s t).cubes[i]?
        = some (updateHoverCube s.hoverStartTime t c) := by
      rw [updateHoverAnimations_getElem?, hc]; rfl
    obtain ⟨c2, h2, hinit2, hov2, hmono2, hinv2⟩ :=
      ih (updateHoverAnimations s t) _ hc1 (by rw [hflags.2]; exact hinit)
        (by rw [hflags.1]; exact hov) htail
        (fun u hu => le_trans hdown (targetProgress_mono _ _ _ (hhead u hu)))
    refine ⟨c2, h2, hinit2, hov2, le_trans hup hmono2, fun u hu _ => ?_⟩
    exact hinv2 u (fun v hv => hu v (List.mem_cons_of_mem _ hv))
      (le_trans hdown (targetProgress_mono _ _ _ (hu t (List.mem_cons_self _ _))))

/-- While not hovered, each frame multiplies `hoverProgress` by 85/100. -/
theorem runHoverFrames_unhovered (i : Nat) (times : List ℚ) :
    ∀ (s : State) (c : Cube), s.cubes[i]? = some c →
      c.userData.originalScale ≠ none → c.userData.isHovered = false →
      ∃ c2, (runHoverFrames s times).cubes[i]? = some c2
        ∧ c2.userData.originalScale ≠ none ∧ c2.userData.isHovered = false
        ∧ c2.userData.hoverProgress = (85 / 100) ^ times.length * c.userData.hoverProgress := by
  induction times with
  | nil =>
    intro s c hc hinit hov
    exact ⟨c, hc, hinit, hov, by simp⟩
  | cons t ts ih =>
    intro s c hc hinit hov
    have hflags := updateHoverCube_flags s.hoverStartTime t c
    have hstep := updateHoverCube_unhovered s.hoverStartTime t c hinit hov
    have hc1 : (updateHoverAnimations s t).cubes[i]?
        = some (updateHoverCube s.hoverStartTime t c) := by
      rw [updateHoverAnimations_getElem?, hc]; rfl
    obtain ⟨c2, h2, hinit2, hov2, hval⟩ :=
      ih (updateHoverAnimations s t) _ hc1 (by rw [hflags.2]; exact hinit)
        (by rw [hflags.1]; exact hov)
    refine ⟨c2, h2, hinit2, hov2, ?_⟩
    rw [hval, hstep, List.length_cons, pow_succ]
    ring

/-- C8, refuted as stated: cube 0 is hovered from time 5000 on with `hoverProgress` 9/10
(a value in [0,1]); the frames at 5016 and 5032, with the flag still set, bring it to
777/1000 and then to 68445/100000, so it decreases from frame to frame. -/
theorem C8_hover_monotone_counterexample :
    (hoverStarted (9 / 10)).cubes[0]? = some (hoveredCube0 (9 / 10))
    ∧ (hoveredCube0 (9 / 10)).userData.isHovered = true
    ∧ (hoverStarted (9 / 10)).hoverStartTime ≤ 5016
    ∧ ((runHoverFrames (hoverStarted (9 / 10)) [5016]).cubes[0]?).map
        (fun c => (c.userData.isHovered, c.userData.hoverProgress)) = some (true, 777 / 1000)
    ∧ ((runHoverFrames (hoverStarted (9 / 10)) [5016, 5032]).cubes[0]?).map
        (fun c => (c.userData.isHovered, c.userData.hoverProgress))
          = some (true, 68445 / 100000)
    ∧ (777 / 1000 : ℚ) < 9 / 10 ∧ (68445 / 100000 : ℚ) < 777 / 1000 := by
  refine ⟨rfl, rfl, ?_, ?_, ?_, ?_, ?_⟩
  · norm_num [hoverStarted]
  · norm_num [runHoverFrames, updateHoverAnimations, hoverStarted, updateHoverCube,
      hoveredCube0, lerp, HOVER_ANIMATION_DURATION, HOVER_SCALE_FACTOR]
  · norm_num [runHoverFrames, updateHoverAnimations, hoverStarted, updateHoverCube,
      hoveredCube0, lerp, HOVER_ANIMATION_DURATION, HOVER_SCALE_FACTOR]
  · norm_num
  · norm_num

/-- C8, amended. For a hovered cube, one call of `updateHoverAnimations` does not lower
`hoverProgress` exactly when `hoverProgress` is at most that frame's target progress
`min((now - hoverStartTime) / HOVER_ANIMATION_DURATION, 1)`. While the cube stays hovered
over frames with a non-decreasing clock and an unchanged `hoverStartTime`, if its
`hoverProgress` is at most the target progress of the first frame (as when it is 0 at the
moment the hover begins and the clock is not earlier than `hoverStartTime`), then
`hoverProgress` is non-decreasing between any two frames. -/
theorem C8_hover_monotone_amended (s : State) (i : Nat) (c : Cube) (pre post : List ℚ)
    (hc : s.cubes[i]? = some c)
    (hinit : c.userData.originalScale ≠ none)
    (hov : c.userData.isHovered = true)
    (hclock : (pre ++ post).Pairwise (· ≤ ·))
    (hstart : ∀ t ∈ (pre ++ post).head?,
      c.userData.hoverProgress ≤ min ((t - s.hoverStartTime) / HOVER_ANIMATION_DURATION) 1) :
    (∀ now : ℚ, ∃ c1, (updateHoverAnimations s now).cubes[i]? = some c1
        ∧ (c.userData.hoverProgress ≤ c1.userData.hoverProgress
            ↔ c.userData.hoverProgress
                ≤ min ((now - s.hoverStartTime) / HOVER_ANIMATION_DURATION) 1))
    ∧ ∃ c1 c2, (runHoverFrames s pre).cubes[i]? = some c1
        ∧ (runHoverFrames s (pre ++ post)).cubes[i]? = some c2
        ∧ c1.userData.isHovered = true ∧ c2.userData.isHovered = true
        ∧ c1.userData.hoverProgress ≤ c2.userData.hoverProgress := by
  constructor
  · intro now
    refine ⟨updateHoverCube s.hoverStartTime now c, ?_, ?_⟩
    · rw [updateHoverAnimations_getElem?, hc]; rfl
    · rw [updateHoverCube_hovered _ _ _ hinit hov]
      unfold lerp
      constructor <;> intro h <;> linarith
  · have hall : ∀ t ∈ pre ++ post, c.userData.hoverProgress
        ≤ min ((t - s.hoverStartTime) / HOVER_ANIMATION_DURATION) 1 := by
      intro t ht
      cases hl : pre ++ post with
      | nil => rw [hl] at ht; exact absurd ht (List.not_mem_nil _)
      | cons a l =>
        rw [hl] at ht hclock hstart
        have ha := hstart a (by simp)
        rcases List.mem_cons.mp ht with rfl | htl
        · exact ha
        · exact le_trans ha
            (targetProgress_mono _ _ _ ((List.pairwise_cons.mp hclock).1 t htl))
    obtain ⟨hpre, hpost, hcross⟩ := List.pairwise_append.mp hclock
    obtain ⟨c1, h1, hinit1, hov1, _, hinv1⟩ :=
      runHoverFrames_hovered i pre s c hc hinit hov hpre
        (fun t ht => hall t (List.mem_append_left _ ht))
    obtain ⟨c2, h2, _, hov2, hmono2, _⟩ :=
      runHoverFrames_hovered i post (runHoverFrames s pre) c1 h1 hinit1 hov1 hpost
        (fun t ht => by
          rw [runHoverFrames_hoverStartTime]
          exact hinv1 t (fun u hu => hcross u hu t ht) (hall t (List.mem_append_right _ ht)))
    refine ⟨c1, c2, h1, ?_, hov1, hov2, hmono2⟩
    rw [runHoverFrames_append]
    exact h2

/-- C8 amended, at a concrete input: a hover that begins at time 5000 with `hoverProgress`
0, followed by the frames at 5016 and 5032. -/
theorem C8_hover_monotone_amended_witness :
    (hoverStarted 0).cubes[0]? = some (hoveredCube0 0)
    ∧ ∃ c1 c2, (runHoverFrames (hoverStarted 0) [5016]).cubes[0]? = some c1
        ∧ (runHoverFrames (hoverStarted 0) ([5016] ++ [5032])).cubes[0]? = some c2
        ∧ c1.userData.isHovered = true ∧ c2.userData.isHovered = true
        ∧ c1.userData.hoverProgress ≤ c2.userData.hoverProgress :=
  ⟨rfl,
    (C8_hover_monotone_amended (hoverStarted 0) 0 (hoveredCube0 0) [5016] [5032] rfl
      (by simp [hoveredCube0]) rfl (by norm_num)
      (by norm_num [hoveredCube0, hoverStarted, HOVER_ANIMATION_DURATION])).2⟩

/-- C9. The value `hoverProgress` never leaves [0,1]: if a cube's `hoverProgress` is in
[0,1] and the current time is not earlier than `hoverStartTime`, then after
`updateHoverAnimations` it is again in [0,1], hovered or not; and the scale factor
`lerp(1, HOVER_SCALE_FACTOR, hoverProgress)` then lies in [0.85, 1]. -/
theorem C9_hover_range (s : State) (now : ℚ) (i : Nat) (c : Cube)
    (hc : s.cubes[i]? = some c)
    (h0 : 0 ≤ c.userData.hoverProgress) (h1 : c.userData.hoverProgress ≤ 1)
    (hclock : s.hoverStartTime ≤ now) :
    ∃ c1, (updateHoverAnimations s now).cubes[i]? = some c1
      ∧ 0 ≤ c1.userData.hoverProgress ∧ c1.userData.hoverProgress ≤ 1
      ∧ 85 / 100 ≤ lerp 1 HOVER_SCALE_FACTOR c1.userData.hoverProgress
      ∧ lerp 1 HOVER_SCALE_FACTOR c1.userData.hoverProgress ≤ 1 := by
  have hrange : 0 ≤ (updateHoverCube s.hoverStartTime now c).userData.hoverProgress
      ∧ (updateHoverCube s.hoverStartTime now c).userData.hoverProgress ≤ 1 := by
    cases hinit : c.userData.originalScale with
    | none =>
      have : updateHoverCube s.hoverStartTime now c = c := by
        unfold updateHoverCube; simp [hinit]
      rw [this]; exact ⟨h0, h1⟩
    | some v =>
      have hne : c.userData.originalScale ≠ none := by rw [hinit]; simp
      cases hov : c.userData.isHovered with
      | false =>
        rw [updateHoverCube_unhovered _ _ _ hne hov]
        constructor <;> linarith
      | true =>
        rw [updateHoverCube_hovered _ _ _ hne hov]
        have ht0 : 0 ≤ min ((now - s.hoverStartTime) / HOVER_ANIMATION_DURATION) 1 := by
          apply le_min _ zero_le_one
          unfold HOVER_ANIMATION_DURATION
          apply div_nonneg _ (by norm_num)
          linarith
        have ht1 : min ((now - s.hoverStartTime) / HOVER_ANIMATION_DURATION) 1 ≤ 1 :=
          min_le_right _ _
        unfold lerp
        constructor <;> nlinarith
  refine ⟨updateHoverCube s.hoverStartTime now c, ?_, hrange.1, hrange.2, ?_, ?_⟩
  · rw [updateHoverAnimations_getElem?, hc]; rfl
  · unfold lerp HOVER_SCALE_FACTOR; linarith [hrange.2]
  · unfold lerp HOVER_SCALE_FACTOR; linarith [hrange.1]

/-- C9, at a concrete input: cube 0 hovered since 5000 with `hoverProgress` 9/10, frame at
5016. -/
theorem C9_hover_range_witness :
    (hoverStarted (9 / 10)).cubes[0]? = some (hoveredCube0 (9 / 10))
    ∧ ∃ c1, (updateHoverAnimations (hoverStarted (9 / 10)) 5016).cubes[0]? = some c1
      ∧ 0 ≤ c1.userData.hoverProgress ∧ c1.userData.hoverProgress ≤ 1
      ∧ 85 / 100 ≤ lerp 1 HOVER_SCALE_FACTOR c1.userData.hoverProgress
      ∧ lerp 1 HOVER_SCALE_FACTOR c1.userData.hoverProgress ≤ 1 :=
  ⟨rfl,
    C9_hover_range (hoverStarted (9 / 10)) 5016 0 (hoveredCube0 (9 / 10)) rfl
      (by norm_num [hoveredCube0]) (by norm_num [hoveredCube0])
      (by norm_num [hoverStarted])⟩

/-- C10. After hover ends (`isHovered` false), each call of `updateHoverAnimations`
multiplies the cube's `hoverProgress` by exactly 0.85; so, starting from any value in
[0,1], it is non-increasing from frame to frame, stays at least 0, and for every
`ε > 0` it is below `ε` after every run of at least some finite number `N` of frames. -/
theorem C10_hover_decay (s : State) (i : Nat) (c : Cube)
    (hc : s.cubes[i]? = some c)
    (hinit : c.userData.originalScale ≠ none)
    (hov : c.userData.isHovered = false)
    (h0 : 0 ≤ c.userData.hoverProgress) (h1 : c.userData.hoverProgress ≤ 1) :
    (∀ now : ℚ, ∃ c1, (updateHoverAnimations s now).cubes[i]? = some c1
        ∧ c1.userData.hoverProgress = 85 / 100 * c.userData.hoverProgress)
    ∧ (∀ (times : List ℚ) (now : ℚ), ∃ c1 c2,
        (runHoverFrames s times).cubes[i]? = some c1
        ∧ (runHoverFrames s (times ++ [now])).cubes[i]? = some c2
        ∧ c2.userData.hoverProgress = 85 / 100 * c1.userData.hoverProgress
        ∧ c2.userData.hoverProgress ≤ c1.userData.hoverProgress
        ∧ 0 ≤ c2.userData.hoverProgress)
    ∧ (∀ ε : ℚ, 0 < ε → ∃ N : Nat, ∀ times : List ℚ, N ≤ times.length →
        ∃ c2, (runHoverFrames s times).cubes[i]? = some c2
          ∧ c2.userData.hoverProgress < ε) := by
  refine ⟨fun now => ?_, fun times now => ?_, fun ε hε => ?_⟩
  · refine ⟨updateHoverCube s.hoverStartTime now c, ?_,
      updateHoverCube_unhovered _ _ _ hinit hov⟩
    rw [updateHoverAnimations_getElem?, hc]; rfl
  · obtain ⟨c1, hc1, hinit1, hov1, hval1⟩ := runHoverFrames_unhovered i times s c hc hinit hov
    obtain ⟨c2, hc2, _, _, hval2⟩ :=
      runHoverFrames_unhovered i [now] (runHoverFrames s times) c1 hc1 hinit1 hov1
    have hc1nn : 0 ≤ c1.userData.hoverProgress := by
      rw [hval1]; positivity
    have h2 : c2.userData.hoverProgress = 85 / 100 * c1.userData.hoverProgress := by
      rw [hval2]; simp
    refine ⟨c1, c2, hc1, ?_, h2, ?_, ?_⟩
    · rw [runHoverFrames_append]; exact hc2
    · rw [h2]; linarith
    · rw [h2]; linarith
  · obtain ⟨N, hN⟩ := exists_pow_lt_of_lt_one hε (show (85 / 100 : ℚ) < 1 by norm_num)
    refine ⟨N, fun times hlen => ?_⟩
    obtain ⟨c2, hc2, _, _, hval⟩ := runHoverFrames_unhovered i times s c hc hinit hov
    refine ⟨c2, hc2, ?_⟩
    rw [hval]
    have hpow : (85 / 100 : ℚ) ^ times.length ≤ (85 / 100) ^ N :=
      pow_le_pow_of_le_one (by norm_num) (by norm_num) hlen
    have hnn : (0 : ℚ) ≤ (85 / 100) ^ times.length := by positivity
    calc (85 / 100 : ℚ) ^ times.length * c.userData.hoverProgress
        ≤ (85 / 100) ^ times.length * 1 := mul_le_mul_of_nonneg_left h1 hnn
      _ = (85 / 100) ^ times.length := mul_one _
      _ ≤ (85 / 100) ^ N := hpow
      _ < ε := hN

/-- C10, at a concrete input: cube 0 with `hoverProgress` 9/10 when the pointer leaves,
one frame at 5016. -/
theorem C10_hover_decay_witness :
    (hoverEnded (9 / 10)).cubes[0]?
        = some { hoveredCube0 (9 / 10) with
            userData := { (hoveredCube0 (9 / 10)).userData with isHovered := false } }
    ∧ ∃ c1, (updateHoverAnimations (hoverEnded (9 / 10)) 5016).cubes[0]? = some c1
        ∧ c1.userData.hoverProgress = 85 / 100 * (9 / 10) :=
  ⟨rfl,
    (C10_hover_decay (hoverEnded (9 / 10)) 0
      { hoveredCube0 (9 / 10) with
        userData := { (hoveredCube0 (9 / 10)).userData with isHovered := false } }
      rfl (by simp [hoveredCube0]) rfl (by norm_num [hoveredCube0])
      (by norm_num [hoveredCube0])).1 5016⟩

/-! ## The effect of `handleAppearanceAnimation`, field by field -/

theorem animateCubes_nil (cfg : Config) (p : Nat) (cubes : List Cube) (elapsed : ℚ) :
    animateCubes cfg p cubes [] elapsed = some cubes := rfl

theorem handleAppearanceAnimation_eq (cfg : Config) (s : State) (now : ℚ)
    (hlen : 10 ≤ s.cubes.length) :
    ∃ cs, animateCubes cfg s.animationPhase s.cubes (revealIndices s.animationPhase)
          (now - s.animationStartTime) = some cs
      ∧ cs.length = s.cubes.length
      ∧ (∀ j, cs[j]? = (s.cubes[j]?).map fun c =>
          if j ∈ revealIndices s.animationPhase then
            animateCube cfg s.animationPhase
              (easeInOutCubic (min ((now - s.animationStartTime) / cfg.animationDuration) 1)) c
          else c)
      ∧ handleAppearanceAnimation cfg s now = some
          { s with
            cubes := cs
            animationPhase := phaseAfter cfg s.animationPhase (now - s.animationStartTime)
            animationStartTime :=
              if phaseAfter cfg s.animationPhase (now - s.animationStartTime) ≠ s.animationPhase
                  ∧ s.animationPhase ≠ 7 then now
              else s.animationStartTime
            stageRotationStartTime :=
              if phaseAfter cfg s.animationPhase (now - s.animationStartTime) ≠ s.animationPhase
                  ∧ (s.animationPhase = 5 ∨ s.animationPhase = 6) then some now
              else s.stageRotationStartTime
            topStageGroup :=
              if s.animationPhase = 6 then
                animateStageRotation cfg s.topStageGroup (now - s.animationStartTime)
              else s.topStageGroup
            bottomStageGroup :=
              if s.animationPhase = 7 then
                animateStageRotation cfg s.bottomStageGroup (now - s.animationStartTime)
              else s.bottomStageGroup } := by
  obtain ⟨cs, hcs, hl, hget⟩ := animateCubes_spec cfg s.animationPhase s.cubes
    (revealIndices s.animationPhase) (now - s.animationStartTime)
    (fun i hi => lt_of_lt_of_le (revealIndices_lt _ i hi) hlen)
  refine ⟨cs, hcs, hl, hget, ?_⟩
  clear hget
  unfold handleAppearanceAnimation
  by_cases h1 : s.animationPhase = 1
  · have hri : revealIndices 1 = [0] := rfl
    rw [h1, hri] at hcs
    simp only [h1, hcs, Option.map_some']
    by_cases he : now - s.animationStartTime > cfg.animationDuration <;> simp [phaseAfter, he]
  by_cases h2 : s.animationPhase = 2
  · have hri : revealIndices 2 = [4] := rfl
    rw [h2, hri] at hcs
    simp only [h2, hcs, Option.map_some']
    by_cases he : now - s.animationStartTime > cfg.animationDuration <;> simp [phaseAfter, he]
  by_cases h3 : s.animationPhase = 3
  · have hri : revealIndices 3 = [2, 6] := rfl
    rw [h3, hri] at hcs
    simp only [h3, hcs, Option.map_some']
    by_cases he : now - s.animationStartTime > cfg.animationDuration <;> simp [phaseAfter, he]
  by_cases h4 : s.animationPhase = 4
  · have hri : revealIndices 4 = [1, 3, 5, 7] := rfl
    rw [h4, hri] at hcs
    simp only [h4, hcs, Option.map_some']
    by_cases he : now - s.animationStartTime > cfg.animationDuration <;> simp [phaseAfter, he]
  by_cases h5 : s.animationPhase = 5
  · have hri : revealIndices 5 = [8, 9] := rfl
    rw [h5, hri] at hcs
    simp only [h5, hcs, Option.map_some']
    by_cases he : now - s.animationStartTime > cfg.animationDuration <;> simp [phaseAfter, he]
  have hri : revealIndices s.animationPhase = [] := by
    unfold revealIndices
    simp only [h1, h2, h3, h4, h5, if_false]
  rw [hri, animateCubes_nil] at hcs
  have hcs' : cs = s.cubes := (Option.some.inj hcs).symm
  subst hcs'
  by_cases h6 : s.animationPhase = 6
  · simp only [h6]
    by_cases he : now - s.animationStartTime > cfg.stageRotationDuration <;>
      simp [phaseAfter, he]
  by_cases h7 : s.animationPhase = 7
  · simp only [h7]
    by_cases he : now - s.animationStartTime > cfg.stageRotationDuration <;>
      simp [phaseAfter, he]
  · have hA : ¬ (1 ≤ s.animationPhase ∧ s.animationPhase ≤ 5) := by omega
    have hB : ¬ (6 ≤ s.animationPhase ∧ s.animationPhase ≤ 7) := by omega
    simp only [h1, h2, h3, h4, h5, h6, h7, if_false, phaseAfter, hA, hB, ne_eq,
      not_true_eq_false, false_and, or_self, and_false]

theorem animate_eq (cfg : Config) (s : State) (now : ℚ) :
    animate cfg s now
      = (if s.shaderParams.pauseAnimation = true then
          some (updateHoverAnimations (updateSmoothCamera s) now)
        else handleAppearanceAnimation cfg (updateHoverAnimations (updateSmoothCamera s) now)
          now).map spinCubeGroup := rfl

theorem spinCubeGroup_fields (t : State) :
    (spinCubeGroup t).cubes = t.cubes
    ∧ (spinCubeGroup t).hoveredCube = t.hoveredCube
    ∧ (spinCubeGroup t).hoverStartTime = t.hoverStartTime
    ∧ (spinCubeGroup t).shaderParams = t.shaderParams
    ∧ (spinCubeGroup t).animationPhase = t.animationPhase
    ∧ (spinCubeGroup t).animationStartTime = t.animationStartTime
    ∧ (spinCubeGroup t).topStageGroup = t.topStageGroup
    ∧ (spinCubeGroup t).bottomStageGroup = t.bottomStageGroup := by
  unfold spinCubeGroup
  split_ifs <;> exact ⟨rfl, rfl, rfl, rfl, rfl, rfl, rfl, rfl⟩

theorem animate_fields (cfg : Config) (s : State) (now : ℚ) (hlen : 10 ≤ s.cubes.length) :
    ∃ s1, animate cfg s now = some s1
      ∧ s1.cubes.length = s.cubes.length
      ∧ s1.hoveredCube = s.hoveredCube
      ∧ s1.hoverStartTime = s.hoverStartTime
      ∧ s1.shaderParams = s.shaderParams
      ∧ (∀ j : Nat, s1.cubes[j]? = (s.cubes[j]?).map fun c =>
          if s.shaderParams.pauseAnimation = false ∧ j ∈ revealIndices s.animationPhase then
            animateCube cfg s.animationPhase
              (easeInOutCubic (min ((now - s.animationStartTime) / cfg.animationDuration) 1))
              (updateHoverCube s.hoverStartTime now c)
          else updateHoverCube s.hoverStartTime now c)
      ∧ s1.animationPhase =
          (if s.shaderParams.pauseAnimation = false then
            phaseAfter cfg s.animationPhase (now - s.animationStartTime)
          else s.animationPhase)
      ∧ s1.topStageGroup =
          (if s.shaderParams.pauseAnimation = false ∧ s.animationPhase = 6 then
            animateStageRotation cfg s.topStageGroup (now - s.animationStartTime)
          else s.topStageGroup)
      ∧ s1.bottomStageGroup =
          (if s.shaderParams.pauseAnimation = false ∧ s.animationPhase = 7 then
            animateStageRotation cfg s.bottomStageGroup (now - s.animationStartTime)
          else s.bottomStageGroup) := by
  have hlen2 : 10 ≤ (updateHoverAnimations (updateSmoothCamera s) now).cubes.length := by
    simpa [updateHoverAnimations, updateSmoothCamera] using hlen
  have hlen3 : (updateHoverAnimations (updateSmoothCamera s) now).cubes.length
      = s.cubes.length := by
    simp [updateHoverAnimations, updateSmoothCamera]
  have hget2 : ∀ j : Nat, (updateHoverAnimations (updateSmoothCamera s) now).cubes[j]?
      = (s.cubes[j]?).map (updateHoverCube s.hoverStartTime now) := by
    intro j
    rw [updateHoverAnimations_getElem?]
    rfl
  rw [animate_eq]
  cases hp : s.shaderParams.pauseAnimation with
  | true =>
    simp only [if_true, Option.map_some']
    obtain ⟨f1, f2, f3, f4, f5, _, f7, f8⟩ :=
      spinCubeGroup_fields (updateHoverAnimations (updateSmoothCamera s) now)
    refine ⟨_, rfl, ?_, ?_, ?_, ?_, ?_, ?_, ?_, ?_⟩
    · rw [f1, hlen3]
    · rw [f2]; rfl
    · rw [f3]; rfl
    · rw [f4]; rfl
    · intro j
      rw [f1, hget2 j]
      simp
    · rw [f5]; simp; rfl
    · rw [f7]; simp; rfl
    · rw [f8]; simp; rfl
  | false =>
    obtain ⟨cs, _, hl, hget, heq⟩ := handleAppearanceAnimation_eq cfg _ now hlen2
    simp only [Bool.false_eq_true, if_false, heq, Option.map_some']
    obtain ⟨f1, f2, f3, f4, f5, _, f7, f8⟩ := spinCubeGroup_fields
      { updateHoverAnimations (updateSmoothCamera s) now with
        cubes := cs
        animationPhase := phaseAfter cfg
          (updateHoverAnimations (updateSmoothCamera s) now).animationPhase
          (now - (updateHoverAnimations (updateSmoothCamera s) now).animationStartTime)
        animationStartTime :=
          if phaseAfter cfg (updateHoverAnimations (updateSmoothCamera s) now).animationPhase
                (now - (updateHoverAnimations (updateSmoothCamera s) now).animationStartTime)
                ≠ (updateHoverAnimations (updateSmoothCamera s) now).animationPhase
              ∧ (updateHoverAnimations (updateSmoothCamera s) now).animationPhase ≠ 7 then now
          else (updateHoverAnimations (updateSmoothCamera s) now).animationStartTime
        stageRotationStartTime :=
          if phaseAfter cfg (updateHoverAnimations (updateSmoothCamera s) now).animationPhase
                (now - (updateHoverAnimations (updateSmoothCamera s) now).animationStartTime)
                ≠ (updateHoverAnimations (updateSmoothCamera s) now).animationPhase
              ∧ ((updateHoverAnimations (updateSmoothCamera s) now).animationPhase = 5
                ∨ (updateHoverAnimations (updateSmoothCamera s) now).animationPhase = 6) then
            some now
          else (updateHoverAnimations (updateSmoothCamera s) now).stageRotationStartTime
        topStageGroup :=
          if (updateHoverAnimations (updateSmoothCamera s) now).animationPhase = 6 then
            animateStageRotation cfg
              (updateHoverAnimations (updateSmoothCamera s) now).topStageGroup
              (now - (updateHoverAnimations (updateSmoothCamera s) now).animationStartTime)
          else (updateHoverAnimations (updateSmoothCamera s) now).topStageGroup
        bottomStageGroup :=
          if (updateHoverAnimations (updateSmoothCamera s) now).animationPhase = 7 then
            animateStageRotation cfg
              (updateHoverAnimations (updateSmoothCamera s) now).bottomStageGroup
              (now - (updateHoverAnimations (updateSmoothCamera s) now).animationStartTime)
          else (updateHoverAnimations (updateSmoothCamera s) now).bottomStageGroup }
    refine ⟨_, rfl, ?_, ?_, ?_, ?_, ?_, ?_, ?_, ?_⟩
    · rw [f1]; exact hl.trans hlen3
    · rw [f2]; rfl
    · rw [f3]; rfl
    · rw [f4]; rfl
    · intro j
      rw [f1]
      show cs[j]? = _
      rw [hget j, hget2 j]
      cases s.cubes[j]? with
      | none => rfl
      | some c =>
        simp only [Option.map_some', true_and]
        rfl
    · rw [f5]; simp only [if_true]; rfl
    · rw [f7]; simp only [true_and]; rfl
    · rw [f8]; simp only [true_and]; rfl

/-! ## Displayed scale at the end of a frame -/

/-- What `updateHoverAnimations` leaves: for a cube with a baseline scale, the displayed scale
is the baseline times `lerp(1, HOVER_SCALE_FACTOR, hoverProgress)`. -/
theorem updateHoverCube_scale (a now : ℚ) (c : Cube) (v : Vec3)
    (hv : c.userData.originalScale = some v) :
    (updateHoverCube a now c).userData.originalScale = some v
    ∧ (updateHoverCube a now c).scale
        = ⟨v.x * lerp 1 HOVER_SCALE_FACTOR (updateHoverCube a now c).userData.hoverProgress,
           v.y * lerp 1 HOVER_SCALE_FACTOR (updateHoverCube a now c).userData.hoverProgress,
           v.z * lerp 1 HOVER_SCALE_FACTOR (updateHoverCube a now c).userData.hoverProgress⟩ := by
  unfold updateHoverCube
  simp [hv]

/-- At the end of a frame, every cube that the frame's phase update does not animate (all of
them when the animation is paused) is displayed at its baseline scale times the hover
factor. -/
theorem animate_scale_composed (cfg : Config) (s : State) (now : ℚ) (j : Nat) (c : Cube)
    (v : Vec3) (hlen : 10 ≤ s.cubes.length) (hc : s.cubes[j]? = some c)
    (hv : c.userData.originalScale = some v)
    (hidle : s.shaderParams.pauseAnimation = true ∨ j ∉ revealIndices s.animationPhase) :
    ∃ s1 c1, animate cfg s now = some s1 ∧ s1.cubes[j]? = some c1
      ∧ c1.userData.originalScale = some v
      ∧ c1.scale
          = ⟨v.x * lerp 1 HOVER_SCALE_FACTOR c1.userData.hoverProgress,
             v.y * lerp 1 HOVER_SCALE_FACTOR c1.userData.hoverProgress,
             v.z * lerp 1 HOVER_SCALE_FACTOR c1.userData.hoverProgress⟩ := by
  obtain ⟨s1, h1, _, _, _, _, hget, _⟩ := animate_fields cfg s now hlen
  have hcond : ¬ (s.shaderParams.pauseAnimation = false
      ∧ j ∈ revealIndices s.animationPhase) := by
    rintro ⟨hp, hj⟩
    rcases hidle with h | h
    · rw [h] at hp; exact absurd hp (by decide)
    · exact h hj
  refine ⟨s1, updateHoverCube s.hoverStartTime now c, h1, ?_,
    (updateHoverCube_scale _ _ c v hv).1, (updateHoverCube_scale _ _ c v hv).2⟩
  rw [hget j, hc]
  simp only [Option.map_some', hcond, if_false]

/-- C11, evaluated on the code. Phase 1 is revealing cube 0 and the pointer is on it since
300 ms. After the frame at 500 ms (camera update, hover update, phase update) the cube has
`hoverProgress` 3/20, so the hover factor is 391/400, and baseline scale (1, 1/2, 1); its
displayed scale is the baseline itself, not the baseline times the hover factor: the phase
update has overwritten what the hover update wrote. -/
theorem C11_reveal_overwrites_hover_scale :
    (animate (CONFIG 3) hoveredWhileRevealing 500).map
        (fun s => (s.cubes[0]?).map fun c =>
          (c.scale, c.userData.originalScale, c.userData.hoverProgress))
      = some (some (⟨1, 1 / 2, 1⟩, some ⟨1, 1 / 2, 1⟩, 3 / 20))
    ∧ lerp 1 HOVER_SCALE_FACTOR (3 / 20) = 391 / 400
    ∧ (⟨1, 1 / 2, 1⟩ : Vec3) ≠ ⟨1 * (391 / 400), 1 / 2 * (391 / 400), 1 * (391 / 400)⟩ := by
  obtain ⟨s1, h1, _, _, _, _, hget, _⟩ :=
    animate_fields (CONFIG 3) hoveredWhileRevealing 500 (le_of_eq (by rfl))
  refine ⟨?_, by norm_num [lerp, HOVER_SCALE_FACTOR], ?_⟩
  · rw [h1, Option.map_some', hget 0]
    have h0 : hoveredWhileRevealing.cubes[0]? = some revealingCube0 := rfl
    have hp : hoveredWhileRevealing.shaderParams.pauseAnimation = false := rfl
    have hph : hoveredWhileRevealing.animationPhase = 1 := rfl
    have hst : hoveredWhileRevealing.animationStartTime = 0 := rfl
    have hhs : hoveredWhileRevealing.hoverStartTime = 300 := rfl
    rw [h0, hp, hph, hst, hhs]
    norm_num [revealIndices, animateCube, updateHoverCube, revealingCube0, CONFIG, lerp,
      easeInOutCubic, HOVER_ANIMATION_DURATION, HOVER_SCALE_FACTOR]
  · intro h
    have hx := congrArg Vec3.x h
    norm_num at hx

/-! ## Camera -/

theorem lerp_mem_interval (x y t m : ℚ) (ht0 : 0 ≤ t) (ht1 : t ≤ 1)
    (hx : |x| ≤ m) (hy : |y| ≤ m) : |lerp x y t| ≤ m := by
  rw [abs_le] at hx hy ⊢
  unfold lerp
  have h1 : 0 ≤ 1 - t := by linarith
  constructor
  · nlinarith [mul_le_mul_of_nonneg_left hx.1 h1, mul_le_mul_of_nonneg_left hy.1 ht0]
  · nlinarith [mul_le_mul_of_nonneg_left hx.2 h1, mul_le_mul_of_nonneg_left hy.2 ht0]

theorem clamp_abs_le (m v : ℚ) (hm : 0 ≤ m) : |max (-m) (min m v)| ≤ m := by
  rw [abs_le]
  constructor
  · exact le_max_left _ _
  · exact max_le (by linarith) (min_le_left _ _)

theorem updateSmoothCamera_bounded (s : State) (m : ℚ)
    (hm : s.shaderParams.cameraMaxOffset = m) (hm0 : 0 ≤ m)
    (h0 : 0 ≤ s.shaderParams.cameraLerpSpeed) (h1 : s.shaderParams.cameraLerpSpeed ≤ 1)
    (hx : |s.currentCameraPosition.x| ≤ m) (hy : |s.currentCameraPosition.y| ≤ m) :
    (updateSmoothCamera s).shaderParams = s.shaderParams
    ∧ |(updateSmoothCamera s).targetCameraPosition.x| ≤ m
    ∧ |(updateSmoothCamera s).targetCameraPosition.y| ≤ m
    ∧ |(updateSmoothCamera s).currentCameraPosition.x| ≤ m
    ∧ |(updateSmoothCamera s).currentCameraPosition.y| ≤ m := by
  subst hm
  refine ⟨rfl, clamp_abs_le _ _ hm0, clamp_abs_le _ _ hm0, ?_, ?_⟩
  · exact lerp_mem_interval _ _ _ _ h0 h1 hx (clamp_abs_le _ _ hm0)
  · exact lerp_mem_interval _ _ _ _ h0 h1 hy (clamp_abs_le _ _ hm0)

theorem pointerFrames_bounded (pointers : List Vec2) :
    ∀ (s : State) (m : ℚ), s.shaderParams.cameraMaxOffset = m → 0 ≤ m →
      0 ≤ s.shaderParams.cameraLerpSpeed → s.shaderParams.cameraLerpSpeed ≤ 1 →
      |s.currentCameraPosition.x| ≤ m → |s.currentCameraPosition.y| ≤ m →
      (pointerFrames s pointers).shaderParams = s.shaderParams
      ∧ |(pointerFrames s pointers).currentCameraPosition.x| ≤ m
      ∧ |(pointerFrames s pointers).currentCameraPosition.y| ≤ m := by
  induction pointers with
  | nil => intro s m _ _ _ _ hx hy; exact ⟨rfl, hx, hy⟩
  | cons p ps ih =>
    intro s m hm hm0 h0 h1 hx hy
    obtain ⟨hsp, _, _, hx1, hy1⟩ :=
      updateSmoothCamera_bounded { s with mouse := p } m hm hm0 h0 h1 hx hy
    have hsp' : (updateSmoothCamera { s with mouse := p }).shaderParams = s.shaderParams := hsp
    obtain ⟨hsp2, hx2, hy2⟩ := ih (updateSmoothCamera { s with mouse := p }) m
      (by rw [hsp']; exact hm) hm0 (by rw [hsp']; exact h0) (by rw [hsp']; exact h1) hx1 hy1
    exact ⟨hsp2.trans hsp', hx2, hy2⟩

/-- C12. The camera never exceeds `maxOffset` on x or y. Starting from a camera at
x = y = 0, with `cameraMaxOffset ≥ 0` and `cameraLerpSpeed` in [0,1] held fixed, for every
sensitivity and every sequence of pointer positions, after each call of
`updateSmoothCamera` both `targetCameraPosition` and `currentCameraPosition` have
`|x| ≤ maxOffset` and `|y| ≤ maxOffset`. -/
theorem C12_camera_bounded (s : State) (pointers : List Vec2) (pointer : Vec2)
    (hm : 0 ≤ s.shaderParams.cameraMaxOffset)
    (h0 : 0 ≤ s.shaderParams.cameraLerpSpeed) (h1 : s.shaderParams.cameraLerpSpeed ≤ 1)
    (hx : s.currentCameraPosition.x = 0) (hy : s.currentCameraPosition.y = 0) :
    |(pointerFrames s (pointers ++ [pointer])).targetCameraPosition.x|
        ≤ s.shaderParams.cameraMaxOffset
    ∧ |(pointerFrames s (pointers ++ [pointer])).targetCameraPosition.y|
        ≤ s.shaderParams.cameraMaxOffset
    ∧ |(pointerFrames s (pointers ++ [pointer])).currentCameraPosition.x|
        ≤ s.shaderParams.cameraMaxOffset
    ∧ |(pointerFrames s (pointers ++ [pointer])).currentCameraPosition.y|
        ≤ s.shaderParams.cameraMaxOffset := by
  obtain ⟨hsp, hx1, hy1⟩ := pointerFrames_bounded pointers s _ rfl hm h0 h1
    (by rw [hx, abs_zero]; exact hm) (by rw [hy, abs_zero]; exact hm)
  have hrun : pointerFrames s (pointers ++ [pointer])
      = updateSmoothCamera { pointerFrames s pointers with mouse := pointer } := by
    simp [pointerFrames, List.foldl_append]
  rw [hrun]
  obtain ⟨_, a, b, c, d⟩ := updateSmoothCamera_bounded
    { pointerFrames s pointers with mouse := pointer } s.shaderParams.cameraMaxOffset
    (by show (pointerFrames s pointers).shaderParams.cameraMaxOffset = _; rw [hsp])
    hm (by show 0 ≤ (pointerFrames s pointers).shaderParams.cameraLerpSpeed; rw [hsp]; exact h0)
    (by show (pointerFrames s pointers).shaderParams.cameraLerpSpeed ≤ 1; rw [hsp]; exact h1)
    hx1 hy1
  exact ⟨a, b, c, d⟩

/-- C12, at a concrete input: the initial state and two extreme pointer positions. -/
theorem C12_camera_bounded_witness :
    |(pointerFrames (init (CONFIG 3) 0) ([⟨1000, -1000⟩] ++ [⟨-7, 1⟩])).targetCameraPosition.x|
        ≤ (init (CONFIG 3) 0).shaderParams.cameraMaxOffset
    ∧ |(pointerFrames (init (CONFIG 3) 0) ([⟨1000, -1000⟩] ++ [⟨-7, 1⟩])).targetCameraPosition.y|
        ≤ (init (CONFIG 3) 0).shaderParams.cameraMaxOffset
    ∧ |(pointerFrames (init (CONFIG 3) 0)
          ([⟨1000, -1000⟩] ++ [⟨-7, 1⟩])).currentCameraPosition.x|
        ≤ (init (CONFIG 3) 0).shaderParams.cameraMaxOffset
    ∧ |(pointerFrames (init (CONFIG 3) 0)
          ([⟨1000, -1000⟩] ++ [⟨-7, 1⟩])).currentCameraPosition.y|
        ≤ (init (CONFIG 3) 0).shaderParams.cameraMaxOffset :=
  C12_camera_bounded (init (CONFIG 3) 0) [⟨1000, -1000⟩] ⟨-7, 1⟩
    (by norm_num [init, initHoverSystem, initAppearanceAnimation, shaderParams])
    (by norm_num [init, initHoverSystem, initAppearanceAnimation, shaderParams])
    (by norm_num [init, initHoverSystem, initAppearanceAnimation, shaderParams])
    rfl rfl

theorem updateSmoothCamera_step (s : State) :
    (updateSmoothCamera s).mouse = s.mouse
    ∧ (updateSmoothCamera s).shaderParams = s.shaderParams
    ∧ (updateSmoothCamera s).currentCameraPosition.x
          - (updateSmoothCamera s).targetCameraPosition.x
        = (1 - s.shaderParams.cameraLerpSpeed)
          * (s.currentCameraPosition.x - (updateSmoothCamera s).targetCameraPosition.x)
    ∧ (updateSmoothCamera s).currentCameraPosition.y
          - (updateSmoothCamera s).targetCameraPosition.y
        = (1 - s.shaderParams.cameraLerpSpeed)
          * (s.currentCameraPosition.y - (updateSmoothCamera s).targetCameraPosition.y)
    ∧ (updateSmoothCamera s).currentCameraPosition.z
          - (updateSmoothCamera s).targetCameraPosition.z
        = (1 - s.shaderParams.cameraLerpSpeed)
          * (s.currentCameraPosition.z - (updateSmoothCamera s).targetCameraPosition.z) := by
  refine ⟨rfl, rfl, ?_, ?_, ?_⟩ <;> simp only [updateSmoothCamera, lerp] <;> ring

theorem updateSmoothCamera_target_congr (s t : State) (hmouse : t.mouse = s.mouse)
    (hsp : t.shaderParams = s.shaderParams) :
    (updateSmoothCamera t).targetCameraPosition = (updateSmoothCamera s).targetCameraPosition := by
  simp only [updateSmoothCamera, hmouse, hsp]

theorem updateSmoothCamera_iterate (s : State) (n : Nat) :
    (updateSmoothCamera^[n] s).mouse = s.mouse
    ∧ (updateSmoothCamera^[n] s).shaderParams = s.shaderParams
    ∧ (updateSmoothCamera^[n] s).currentCameraPosition.x
          - (updateSmoothCamera s).targetCameraPosition.x
        = (1 - s.shaderParams.cameraLerpSpeed) ^ n
          * (s.currentCameraPosition.x - (updateSmoothCamera s).targetCameraPosition.x)
    ∧ (updateSmoothCamera^[n] s).currentCameraPosition.y
          - (updateSmoothCamera s).targetCameraPosition.y
        = (1 - s.shaderParams.cameraLerpSpeed) ^ n
          * (s.currentCameraPosition.y - (updateSmoothCamera s).targetCameraPosition.y)
    ∧ (updateSmoothCamera^[n] s).currentCameraPosition.z
          - (updateSmoothCamera s).targetCameraPosition.z
        = (1 - s.shaderParams.cameraLerpSpeed) ^ n
          * (s.currentCameraPosition.z - (updateSmoothCamera s).targetCameraPosition.z) := by
  induction n with
  | zero => simp
  | succ k ih =>
    obtain ⟨hm, hsp, hx, hy, hz⟩ := ih
    obtain ⟨sm, ssp, sx, sy, sz⟩ := updateSmoothCamera_step (updateSmoothCamera^[k] s)
    have ht := updateSmoothCamera_target_congr s (updateSmoothCamera^[k] s) hm hsp
    rw [Function.iterate_succ_apply']
    rw [ht, hsp] at sx sy sz
    refine ⟨sm.trans hm, ssp.trans hsp, ?_, ?_, ?_⟩
    · rw [sx, hx, pow_succ]; ring
    · rw [sy, hy, pow_succ]; ring
    · rw [sz, hz, pow_succ]; ring

theorem geometric_small (r d ε : ℚ) (hr0 : 0 ≤ r) (hr1 : r < 1) (hε : 0 < ε) :
    ∃ N : Nat, ∀ n, N ≤ n → |r ^ n * d| < ε := by
  have hpos : 0 < ε / (|d| + 1) := div_pos hε (by positivity)
  obtain ⟨N, hN⟩ := exists_pow_lt_of_lt_one hpos hr1
  refine ⟨N, fun n hn => ?_⟩
  have hle : r ^ n ≤ r ^ N := pow_le_pow_of_le_one hr0 hr1.le hn
  have hnn : 0 ≤ r ^ n := pow_nonneg hr0 n
  rw [abs_mul, abs_of_nonneg hnn]
  have hd : 0 ≤ |d| := abs_nonneg d
  have h1 : r ^ n * |d| ≤ r ^ N * |d| := mul_le_mul_of_nonneg_right hle hd
  have h2 : r ^ N * (|d| + 1) < ε := by
    have := (lt_div_iff₀ (by positivity : (0 : ℚ) < |d| + 1)).mp hN
    exact this
  nlinarith [pow_nonneg hr0 N]

/-- C13. With the pointer and the camera parameters held fixed and `cameraLerpSpeed` `s` in
(0,1], every call of `updateSmoothCamera` computes the same target, and shrinks the distance
on each axis between `currentCameraPosition` and that target by exactly the factor `1 - s`;
after `n` calls the distance is `(1 - s)^n` times the initial one, and for every `ε > 0`
there is an `N` such that after any `n ≥ N` calls every axis is within `ε` of the target. -/
theorem C13_camera_converges (s : State)
    (h0 : 0 < s.shaderParams.cameraLerpSpeed) (h1 : s.shaderParams.cameraLerpSpeed ≤ 1) :
    (∀ n : Nat, (updateSmoothCamera^[n + 1] s).targetCameraPosition
        = (updateSmoothCamera s).targetCameraPosition)
    ∧ (∀ n : Nat,
        |(updateSmoothCamera^[n + 1] s).currentCameraPosition.x
            - (updateSmoothCamera s).targetCameraPosition.x|
          = (1 - s.shaderParams.cameraLerpSpeed)
            * |(updateSmoothCamera^[n] s).currentCameraPosition.x
                - (updateSmoothCamera s).targetCameraPosition.x|
        ∧ |(updateSmoothCamera^[n + 1] s).currentCameraPosition.y
            - (updateSmoothCamera s).targetCameraPosition.y|
          = (1 - s.shaderParams.cameraLerpSpeed)
            * |(updateSmoothCamera^[n] s).currentCameraPosition.y
                - (updateSmoothCamera s).targetCameraPosition.y|
        ∧ |(updateSmoothCamera^[n + 1] s).currentCameraPosition.z
            - (updateSmoothCamera s).targetCameraPosition.z|
          = (1 - s.shaderParams.cameraLerpSpeed)
            * |(updateSmoothCamera^[n] s).currentCameraPosition.z
                - (updateSmoothCamera s).targetCameraPosition.z|)
    ∧ (∀ n : Nat,
        |(updateSmoothCamera^[n] s).currentCameraPosition.x
            - (updateSmoothCamera s).targetCameraPosition.x|
          = (1 - s.shaderParams.cameraLerpSpeed) ^ n
            * |s.currentCameraPosition.x - (updateSmoothCamera s).targetCameraPosition.x|
        ∧ |(updateSmoothCamera^[n] s).currentCameraPosition.y
            - (updateSmoothCamera s).targetCameraPosition.y|
          = (1 - s.shaderParams.cameraLerpSpeed) ^ n
            * |s.currentCameraPosition.y - (updateSmoothCamera s).targetCameraPosition.y|
        ∧ |(updateSmoothCamera^[n] s).currentCameraPosition.z
            - (updateSmoothCamera s).targetCameraPosition.z|
          = (1 - s.shaderParams.cameraLerpSpeed) ^ n
            * |s.currentCameraPosition.z - (updateSmoothCamera s).targetCameraPosition.z|)
    ∧ (∀ ε : ℚ, 0 < ε → ∃ N : Nat, ∀ n : Nat, N ≤ n →
        |(updateSmoothCamera^[n] s).currentCameraPosition.x
            - (updateSmoothCamera s).targetCameraPosition.x| < ε
        ∧ |(updateSmoothCamera^[n] s).currentCameraPosition.y
            - (updateSmoothCamera s).targetCameraPosition.y| < ε
        ∧ |(updateSmoothCamera^[n] s).currentCameraPosition.z
            - (updateSmoothCamera s).targetCameraPosition.z| < ε) := by
  have hr0 : 0 ≤ 1 - s.shaderParams.cameraLerpSpeed := by linarith
  have hr1 : 1 - s.shaderParams.cameraLerpSpeed < 1 := by linarith
  refine ⟨fun n => ?_, fun n => ?_, fun n => ?_, fun ε hε => ?_⟩
  · obtain ⟨hm, hsp, _⟩ := updateSmoothCamera_iterate s n
    rw [Function.iterate_succ_apply']
    exact updateSmoothCamera_target_congr s _ hm hsp
  · obtain ⟨_, _, hx, hy, hz⟩ := updateSmoothCamera_iterate s n
    obtain ⟨_, _, hx1, hy1, hz1⟩ := updateSmoothCamera_iterate s (n + 1)
    rw [hx1, hy1, hz1, hx, hy, hz]
    simp only [abs_mul, abs_pow, abs_of_nonneg hr0, pow_succ]
    refine ⟨by ring, by ring, by ring⟩
  · obtain ⟨_, _, hx, hy, hz⟩ := updateSmoothCamera_iterate s n
    rw [hx, hy, hz]
    refine ⟨?_, ?_, ?_⟩ <;> rw [abs_mul, abs_pow, abs_of_nonneg hr0]
  · obtain ⟨Nx, hNx⟩ := geometric_small (1 - s.shaderParams.cameraLerpSpeed)
      (s.currentCameraPosition.x - (updateSmoothCamera s).targetCameraPosition.x) ε hr0 hr1 hε
    obtain ⟨Ny, hNy⟩ := geometric_small (1 - s.shaderParams.cameraLerpSpeed)
      (s.currentCameraPosition.y - (updateSmoothCamera s).targetCameraPosition.y) ε hr0 hr1 hε
    obtain ⟨Nz, hNz⟩ := geometric_small (1 - s.shaderParams.cameraLerpSpeed)
      (s.currentCameraPosition.z - (updateSmoothCamera s).targetCameraPosition.z) ε hr0 hr1 hε
    refine ⟨max Nx (max Ny Nz), fun n hn => ?_⟩
    obtain ⟨_, _, hx, hy, hz⟩ := updateSmoothCamera_iterate s n
    rw [hx, hy, hz]
    exact ⟨hNx n (le_trans (le_max_left _ _) hn),
      hNy n (le_trans (le_trans (le_max_left _ _) (le_max_right _ _)) hn),
      hNz n (le_trans (le_trans (le_max_right _ _) (le_max_right _ _)) hn)⟩

/-- C13, at a concrete input: the initial state with the pointer at (1/2, 1/4). -/
theorem C13_camera_converges_witness :
    (updateSmoothCamera^[3 + 1]
        { init (CONFIG 3) 0 with mouse := ⟨1 / 2, 1 / 4⟩ }).targetCameraPosition
      = (updateSmoothCamera
        { init (CONFIG 3) 0 with mouse := ⟨1 / 2, 1 / 4⟩ }).targetCameraPosition :=
  (C13_camera_converges { init (CONFIG 3) 0 with mouse := ⟨1 / 2, 1 / 4⟩ }
    (by norm_num [init, initHoverSystem, initAppearanceAnimation, shaderParams])
    (by norm_num [init, initHoverSystem, initAppearanceAnimation, shaderParams])).1 3

/-! ## Transitions of the phase machine -/

/-- C20, refuted as stated: in phase 7, started at 7000, a call at 9001 (elapsed 2001, more
than `stageRotationDuration` = 2000) advances to phase 8 but leaves the phase-start
timestamp at 7000 instead of setting it to the current time. -/
theorem C20_transition_gate_counterexample :
    rotatingBottom.animationPhase = 7
    ∧ (9001 : ℚ) - rotatingBottom.animationStartTime > (CONFIG 3).stageRotationDuration
    ∧ (handleAppearanceAnimation (CONFIG 3) rotatingBottom 9001).map
        (fun s => (s.animationPhase, s.animationStartTime)) = some (8, 7000)
    ∧ (7000 : ℚ) ≠ 9001 := by
  refine ⟨rfl, by norm_num [rotatingBottom, CONFIG, init, initHoverSystem,
    initAppearanceAnimation], ?_, by norm_num⟩
  have hph : rotatingBottom.animationPhase = 7 := rfl
  have hst : rotatingBottom.animationStartTime = 7000 := rfl
  unfold handleAppearanceAnimation
  simp only [hph, hst]
  norm_num [CONFIG]

/-- C20, amended. `handleAppearanceAnimation` returns, and the transition is gated strictly
on `elapsed` exceeding the duration. In a reveal phase `p` in 1..5 it advances to `p + 1`
and sets the phase-start timestamp to the current time if and only if
`elapsed > animationDuration`; otherwise (also at `elapsed = animationDuration`) phase and
timestamp are unchanged; leaving phase 5 also sets `stageRotationStartTime` to the current
time. In phase 6 the same holds with `stageRotationDuration`. In phase 7 the phase advances
to 8 if and only if `elapsed > stageRotationDuration`, and the phase-start timestamp is left
unchanged in either case. -/
theorem C20_transition_gate_amended (cfg : Config) (s : State) (now : ℚ)
    (hlen : s.cubes.length = 10) :
    ∃ s1, handleAppearanceAnimation cfg s now = some s1
      ∧ (1 ≤ s.animationPhase → s.animationPhase ≤ 5 →
          ((s1.animationPhase = s.animationPhase + 1 ∧ s1.animationStartTime = now)
              ↔ now - s.animationStartTime > cfg.animationDuration)
          ∧ (¬ now - s.animationStartTime > cfg.animationDuration →
              s1.animationPhase = s.animationPhase
              ∧ s1.animationStartTime = s.animationStartTime)
          ∧ (s.animationPhase = 5 → now - s.animationStartTime > cfg.animationDuration →
              s1.stageRotationStartTime = some now))
      ∧ (s.animationPhase = 6 →
          ((s1.animationPhase = 7 ∧ s1.animationStartTime = now)
              ↔ now - s.animationStartTime > cfg.stageRotationDuration)
          ∧ (¬ now - s.animationStartTime > cfg.stageRotationDuration →
              s1.animationPhase = 6 ∧ s1.animationStartTime = s.animationStartTime))
      ∧ (s.animationPhase = 7 →
          (s1.animationPhase = 8 ↔ now - s.animationStartTime > cfg.stageRotationDuration)
          ∧ (¬ now - s.animationStartTime > cfg.stageRotationDuration →
              s1.animationPhase = 7)
          ∧ s1.animationStartTime = s.animationStartTime) := by
  obtain ⟨cs, _, _, _, heq⟩ := handleAppearanceAnimation_eq cfg s now (by omega)
  refine ⟨_, heq, ?_, ?_, ?_⟩
  · intro h1 h5
    dsimp only
    have h7 : s.animationPhase ≠ 7 := by omega
    by_cases he : now - s.animationStartTime > cfg.animationDuration
    · have hpa : phaseAfter cfg s.animationPhase (now - s.animationStartTime)
          = s.animationPhase + 1 := by simp [phaseAfter, h1, h5, he]
      rw [hpa]
      refine ⟨?_, fun h => absurd he h, fun h5e _ => ?_⟩
      · simp [h7, he]
      · simp [h5e]
    · have hpa : phaseAfter cfg s.animationPhase (now - s.animationStartTime)
          = s.animationPhase := by simp [phaseAfter, h1, h5, he]
      rw [hpa]
      refine ⟨?_, fun _ => ?_, fun _ h => absurd h he⟩
      · simp [he]
      · simp
  · intro h6
    dsimp only
    by_cases he : now - s.animationStartTime > cfg.stageRotationDuration
    · have hpa : phaseAfter cfg s.animationPhase (now - s.animationStartTime) = 7 := by
        simp [phaseAfter, h6, he]
      rw [hpa]
      refine ⟨?_, fun h => absurd he h⟩
      simp [h6, he]
    · have hpa : phaseAfter cfg s.animationPhase (now - s.animationStartTime) = 6 := by
        simp [phaseAfter, h6, he]
      rw [hpa]
      refine ⟨?_, fun _ => ?_⟩
      · simp [he]
      · simp [h6]
  · intro h7
    dsimp only
    by_cases he : now - s.animationStartTime > cfg.stageRotationDuration
    · have hpa : phaseAfter cfg s.animationPhase (now - s.animationStartTime) = 8 := by
        simp [phaseAfter, h7, he]
      rw [hpa]
      refine ⟨?_, fun h => absurd he h, ?_⟩
      · simp [he]
      · simp [h7]
    · have hpa : phaseAfter cfg s.animationPhase (now - s.animationStartTime) = 7 := by
        simp [phaseAfter, h7, he]
      rw [hpa]
      refine ⟨?_, fun _ => rfl, ?_⟩
      · simp [he]
      · simp [h7]

/-- C20 amended, at a concrete input: phase 7 of `rotatingBottom`, called at 9001. -/
theorem C20_transition_gate_amended_witness :
    rotatingBottom.cubes.length = 10
    ∧ ∃ s1, handleAppearanceAnimation (CONFIG 3) rotatingBottom 9001 = some s1
      ∧ (rotatingBottom.animationPhase = 7 →
          (s1.animationPhase = 8
            ↔ 9001 - rotatingBottom.animationStartTime > (CONFIG 3).stageRotationDuration)
          ∧ (¬ 9001 - rotatingBottom.animationStartTime > (CONFIG 3).stageRotationDuration →
              s1.animationPhase = 7)
          ∧ s1.animationStartTime = rotatingBottom.animationStartTime) :=
  ⟨rfl, by
    obtain ⟨s1, h1, _, _, h7⟩ := C20_transition_gate_amended (CONFIG 3) rotatingBottom 9001 rfl
    exact ⟨s1, h1, h7⟩⟩

/-! ## Hover picking -/

theorem intersectObjects_head_mem (ray : Nat → Option ℚ) (objects : List Nat) (hit : ℚ × Nat)
    (h : (intersectObjects ray objects).head? = some hit) : hit.2 ∈ objects := by
  have hmem : hit ∈ intersectObjects ray objects := List.mem_of_mem_head? h
  unfold intersectObjects at hmem
  rw [(List.perm_insertionSort _ _).mem_iff] at hmem
  obtain ⟨i, hi, hmap⟩ := List.mem_filterMap.mp hmem
  cases hr : ray i with
  | none => rw [hr] at hmap; simp at hmap
  | some d =>
    rw [hr] at hmap
    simp only [Option.map_some', Option.some.injEq] at hmap
    rw [← hmap]
    exact hi

theorem checkHover_eq (s : State) (ray : Nat → Option ℚ) (now : ℚ) :
    checkHover s ray now = switchHover s (pickHovered s ray) now := rfl

theorem switchHover_fields (s : State) (new : Option Nat) (now : ℚ) :
    (switchHover s new now).cubes.length = s.cubes.length
    ∧ (switchHover s new now).animationPhase = s.animationPhase
    ∧ (switchHover s new now).animationStartTime = s.animationStartTime
    ∧ (switchHover s new now).topStageGroup = s.topStageGroup
    ∧ (switchHover s new now).bottomStageGroup = s.bottomStageGroup
    ∧ (switchHover s new now).shaderParams = s.shaderParams
    ∧ (switchHover s new now).hoveredCube = new
    ∧ (switchHover s new now).hoverStartTime
        = (if new ≠ s.hoveredCube ∧ new ≠ none then now else s.hoverStartTime) := by
  unfold switchHover
  by_cases hne : new = s.hoveredCube
  · have hnn : ¬ (new ≠ s.hoveredCube) := fun h => h hne
    rw [if_neg hnn, if_neg (fun h => hnn h.1)]
    exact ⟨rfl, rfl, rfl, rfl, rfl, rfl, hne.symm, rfl⟩
  · have hnn : new ≠ s.hoveredCube := hne
    rw [if_pos hnn]
    cases new with
    | none =>
      rw [if_neg (fun h => h.2 rfl)]
      cases hold : s.hoveredCube <;> simp
    | some n =>
      rw [if_pos ⟨hnn, by simp⟩]
      cases hold : s.hoveredCube <;> simp

theorem switchHover_getElem? (s : State) (new : Option Nat) (now : ℚ) (i : Nat)
    (hne : new ≠ s.hoveredCube) :
    (switchHover s new now).cubes[i]? = (s.cubes[i]?).map fun c =>
      if new = some i then setHovered true (if s.hoveredCube = some i then setHovered false c else c)
      else if s.hoveredCube = some i then setHovered false c else c := by
  unfold switchHover
  rw [if_pos hne]
  cases new with
  | none =>
    cases hold : s.hoveredCube with
    | none => rw [hold] at hne; exact absurd rfl hne
    | some old =>
      simp only [List.getElem?_modify, Option.some.injEq]
      cases s.cubes[i]? <;> simp
  | some n =>
    cases hold : s.hoveredCube with
    | none =>
      simp only [List.getElem?_modify, Option.some.injEq]
      cases s.cubes[i]? <;> simp
    | some old =>
      simp only [List.getElem?_modify, Option.some.injEq]
      cases s.cubes[i]? <;> simp

theorem setHovered_isHovered (flag : Bool) (c : Cube) :
    (setHovered flag c).userData.isHovered = flag := rfl

theorem switchHover_consistent (s : State) (new : Option Nat) (now : ℚ)
    (hcons : HoverConsistent s) : HoverConsistent (switchHover s new now) := by
  by_cases hne : new = s.hoveredCube
  · have : switchHover s new now = s := by unfold switchHover; simp [hne]
    rw [this]; exact hcons
  · intro i c hc
    rw [switchHover_getElem? s new now i hne] at hc
    rw [(switchHover_fields s new now).2.2.2.2.2.2.1]
    cases h0 : s.cubes[i]? with
    | none => rw [h0] at hc; simp at hc
    | some c0 =>
      rw [h0] at hc
      simp only [Option.map_some', Option.some.injEq] at hc
      have hc0 := hcons i c0 h0
      by_cases hni : new = some i
      · rw [if_pos hni] at hc
        rw [← hc, setHovered_isHovered]
        exact ⟨fun _ => hni, fun _ => rfl⟩
      · rw [if_neg hni] at hc
        by_cases hoi : s.hoveredCube = some i
        · rw [if_pos hoi] at hc
          rw [← hc, setHovered_isHovered]
          exact ⟨fun h => absurd h (by decide), fun h => absurd h hni⟩
        · rw [if_neg hoi] at hc
          rw [← hc]
          exact ⟨fun h => absurd (hc0.mp h) hoi, fun h => absurd h hni⟩

theorem onMouseLeave_consistent (s : State) (hcons : HoverConsistent s) :
    HoverConsistent (onMouseLeave s) ∧ (onMouseLeave s).cubes.length = s.cubes.length
    ∧ (onMouseLeave s).hoveredCube = none := by
  unfold onMouseLeave
  dsimp only
  cases hold : s.hoveredCube with
  | none =>
    refine ⟨?_, rfl, rfl⟩
    intro i c hc
    have h := hcons i c hc
    rw [hold] at h
    exact h
  | some old =>
    refine ⟨?_, by simp, rfl⟩
    intro i c hc
    dsimp only at hc ⊢
    rw [List.getElem?_modify] at hc
    cases h0 : s.cubes[i]? with
    | none => rw [h0] at hc; simp at hc
    | some c0 =>
      rw [h0] at hc
      simp only [Option.map_eq_map, Option.map_some', Option.some.injEq] at hc
      have hc0 := hcons i c0 h0
      rw [hold] at hc0
      by_cases hoi : old = i
      · rw [if_pos hoi] at hc
        rw [← hc, setHovered_isHovered]
        simp
      · rw [if_neg hoi] at hc
        rw [← hc]
        constructor
        · intro h; exact absurd (Option.some.inj (hc0.mp h)) hoi
        · intro h; exact absurd h (by simp)

/-! ## Runs of events -/

theorem runEvents_induct (cfg : Config) (P : State → Prop) (ok : Event → Prop)
    (hstep : ∀ s e, P s → ok e → ∃ s1, stepEvent cfg s e = some s1 ∧ P s1)
    (events : List Event) :
    ∀ s, P s → (∀ e ∈ events, ok e) → ∃ s1, runEvents cfg s events = some s1 ∧ P s1 := by
  induction events with
  | nil => intro s hs _; exact ⟨s, rfl, hs⟩
  | cons e rest ih =>
    intro s hs hok
    obtain ⟨s1, h1, hP1⟩ := hstep s e hs (hok e (List.mem_cons_self _ _))
    obtain ⟨s2, h2, hP2⟩ := ih s1 hP1 (fun e' he' => hok e' (List.mem_cons_of_mem _ he'))
    exact ⟨s2, by simp [runEvents, h1, h2], hP2⟩

theorem runEvents_append (cfg : Config) (a b : List Event) :
    ∀ s : State,
      runEvents cfg s (a ++ b) = (runEvents cfg s a).bind fun s1 => runEvents cfg s1 b := by
  induction a with
  | nil => intro s; rfl
  | cons e rest ih =>
    intro s
    simp only [List.cons_append, runEvents]
    cases stepEvent cfg s e with
    | none => rfl
    | some s1 => simpa using ih s1

theorem animateCube_userData (cfg : Config) (p : Nat) (e : ℚ) (c : Cube) :
    (animateCube cfg p e c).userData.isHovered = c.userData.isHovered
    ∧ (animateCube cfg p e c).userData.hoverProgress = c.userData.hoverProgress
    ∧ (animateCube cfg p e c).userData.finalPosition = c.userData.finalPosition
    ∧ (animateCube cfg p e c).userData.finalOpacity = c.userData.finalOpacity
    ∧ (animateCube cfg p e c).userData.initialOpacity = c.userData.initialOpacity :=
  ⟨rfl, rfl, rfl, rfl, rfl⟩

theorem stepEvent_consistent (cfg : Config) (s : State) (e : Event)
    (hs : HoverConsistent s ∧ s.cubes.length = 10) :
    ∃ s1, stepEvent cfg s e = some s1 ∧ HoverConsistent s1 ∧ s1.cubes.length = 10 := by
  obtain ⟨hcons, hlen⟩ := hs
  cases e with
  | frame now =>
    obtain ⟨s1, h1, hl, hh, _, _, hget, _⟩ := animate_fields cfg s now (by omega)
    refine ⟨s1, h1, ?_, by omega⟩
    intro i c hc
    rw [hget i] at hc
    rw [hh]
    cases h0 : s.cubes[i]? with
    | none => rw [h0] at hc; simp at hc
    | some c0 =>
      rw [h0] at hc
      simp only [Option.map_some', Option.some.injEq] at hc
      have hflag : c.userData.isHovered = c0.userData.isHovered := by
        rw [← hc]
        split_ifs
        · rw [(animateCube_userData _ _ _ _).1, (updateHoverCube_flags _ _ _).1]
        · rw [(updateHoverCube_flags _ _ _).1]
      rw [hflag]
      exact hcons i c0 h0
  | mousemove pointer ray now =>
    refine ⟨_, rfl, ?_, ?_⟩
    · show HoverConsistent (checkHover { s with mouse := pointer } ray now)
      rw [checkHover_eq]
      exact switchHover_consistent _ _ _ hcons
    · show (checkHover { s with mouse := pointer } ray now).cubes.length = 10
      rw [checkHover_eq, (switchHover_fields _ _ _).1]
      exact hlen
  | mouseleave =>
    obtain ⟨h1, h2, _⟩ := onMouseLeave_consistent s hcons
    exact ⟨_, rfl, h1, by rw [h2]; exact hlen⟩
  | reset now =>
    refine ⟨_, rfl, ?_, by simp [resetAnimation, hlen]⟩
    intro i c hc
    simp only [resetAnimation, List.getElem?_map] at hc
    cases h0 : s.cubes[i]? with
    | none => rw [h0] at hc; simp at hc
    | some c0 =>
      rw [h0] at hc
      simp only [Option.map_some', Option.some.injEq] at hc
      rw [← hc]
      exact hcons i c0 h0
  | pause flag =>
    exact ⟨_, rfl, hcons, hlen⟩

theorem initHoverSystem_consistent (s0 : State) (hnull : s0.hoveredCube = none) :
    HoverConsistent (initHoverSystem s0) := by
  intro i c hc
  simp only [initHoverSystem, List.getElem?_map] at hc
  have hnone : (initHoverSystem s0).hoveredCube = none := hnull
  rw [hnone]
  cases h0 : s0.cubes[i]? with
  | none => rw [h0] at hc; simp at hc
  | some c0 =>
    rw [h0] at hc
    simp only [Option.map_some', Option.some.injEq] at hc
    rw [← hc]
    simp

theorem pickHovered_none_of_hidden (s : State) (ray : Nat → Option ℚ)
    (hhidden : ∀ c ∈ s.cubes, isVisibleCube c = false) : pickHovered s ray = none := by
  unfold pickHovered
  have hfilter : ((List.range s.cubes.length).filter
      fun i => (s.cubes[i]?).any isVisibleCube) = [] := by
    rw [List.filter_eq_nil_iff]
    intro i hi
    have hlt : i < s.cubes.length := List.mem_range.mp hi
    rw [List.getElem?_eq_getElem hlt]
    simp [hhidden _ (List.getElem_mem hlt)]
  rw [hfilter]
  rfl

theorem isVisibleCube_false (c : Cube)
    (h : ¬ (c.material.opacity > 0 ∧ (c.scale.x ≠ 0 ∨ c.scale.y ≠ 0 ∨ c.scale.z ≠ 0))) :
    isVisibleCube c = false := by
  unfold isVisibleCube
  by_contra hv
  simp only [Bool.not_eq_false, Bool.and_eq_true, decide_eq_true_eq] at hv
  apply h
  refine ⟨hv.1, ?_⟩
  by_contra hz
  push_neg at hz
  obtain ⟨hx, hy, hzz⟩ := hz
  rw [hx, hy, hzz] at hv
  norm_num at hv

/-- C17. If no cube has both opacity > 0 and a non-zero scale vector (for instance when all
cubes are at opacity 0), then in a state whose hover flags agree with `hoveredCube`, for
every pointer ray `checkHover` ends with `hoveredCube = null` and no cube's `isHovered`
flag set, whatever the ray would hit among the hidden cubes. -/
theorem C17_no_visible_no_hover (s : State) (ray : Nat → Option ℚ) (now : ℚ)
    (hcons : HoverConsistent s)
    (hhidden : ∀ c ∈ s.cubes,
      ¬ (c.material.opacity > 0 ∧ (c.scale.x ≠ 0 ∨ c.scale.y ≠ 0 ∨ c.scale.z ≠ 0))) :
    (checkHover s ray now).hoveredCube = none
    ∧ ∀ c ∈ (checkHover s ray now).cubes, c.userData.isHovered = false := by
  have hpick : pickHovered s ray = none :=
    pickHovered_none_of_hidden s ray (fun c hc => isVisibleCube_false c (hhidden c hc))
  have hnone : (checkHover s ray now).hoveredCube = none := by
    rw [checkHover_eq, (switchHover_fields _ _ _).2.2.2.2.2.2.1, hpick]
  refine ⟨hnone, fun c hc => ?_⟩
  have hc2 : HoverConsistent (checkHover s ray now) := by
    rw [checkHover_eq]; exact switchHover_consistent _ _ _ hcons
  obtain ⟨i, hi, hget⟩ := List.getElem_of_mem hc
  have h := hc2 i c (by rw [List.getElem?_eq_getElem hi, hget])
  rw [hnone] at h
  cases hf : c.userData.isHovered with
  | false => rfl
  | true => exact absurd (h.mp hf) (by simp)

/-- C17, at a concrete input: the initial state, where every cube has opacity 0, with a ray
that would meet every cube. -/
theorem C17_no_visible_no_hover_witness :
    (checkHover (init (CONFIG 3) 0) (fun _ => some 1) 100).hoveredCube = none
    ∧ ∀ c ∈ (checkHover (init (CONFIG 3) 0) (fun _ => some 1) 100).cubes,
        c.userData.isHovered = false :=
  C17_no_visible_no_hover (init (CONFIG 3) 0) (fun _ => some 1) 100
    (initHoverSystem_consistent _ rfl)
    (by
      intro c hc
      simp only [init, initHoverSystem, initAppearanceAnimation, createCubeGroup, List.map_map,
        List.mem_map] at hc
      obtain ⟨p, _, rfl⟩ := hc
      simp)

/-- C18. At most one cube is hovered at a time. In every state reached from
`initHoverSystem` (called while `hoveredCube` is still `null`, on the ten cubes) through any
sequence of frames, pointer moves with their `checkHover` calls, `mouseleave` events, resets
and pause toggles, a cube's `isHovered` flag is true if and only if that cube is
`hoveredCube`, so at most one flag is set. When a `checkHover` call changes the hovered cube,
the previous cube's flag is cleared, and `hoverStartTime` is set to the current time if a
new cube is hovered and left unchanged otherwise; a call that does not change the hovered
cube changes nothing. -/
theorem C18_single_hover (cfg : Config) (s0 : State) (events : List Event)
    (hlen : s0.cubes.length = 10) (hnull : s0.hoveredCube = none) :
    ∃ s, runEvents cfg (initHoverSystem s0) events = some s
      ∧ HoverConsistent s
      ∧ (∀ (i j : Nat) (ci cj : Cube), s.cubes[i]? = some ci → s.cubes[j]? = some cj →
          ci.userData.isHovered = true → cj.userData.isHovered = true → i = j)
      ∧ ∀ (ray : Nat → Option ℚ) (now : ℚ),
          ((checkHover s ray now).hoveredCube ≠ s.hoveredCube →
            (∀ (old : Nat) (c : Cube), s.hoveredCube = some old →
              (checkHover s ray now).cubes[old]? = some c → c.userData.isHovered = false)
            ∧ ((checkHover s ray now).hoveredCube ≠ none →
                (checkHover s ray now).hoverStartTime = now)
            ∧ ((checkHover s ray now).hoveredCube = none →
                (checkHover s ray now).hoverStartTime = s.hoverStartTime))
          ∧ ((checkHover s ray now).hoveredCube = s.hoveredCube → checkHover s ray now = s) := by
  obtain ⟨s, hrun, hcons, _⟩ := runEvents_induct cfg
    (fun s => HoverConsistent s ∧ s.cubes.length = 10) (fun _ => True)
    (fun s e hs _ => stepEvent_consistent cfg s e hs) events (initHoverSystem s0)
    ⟨initHoverSystem_consistent s0 hnull, by simp [initHoverSystem, hlen]⟩ (fun _ _ => trivial)
  refine ⟨s, hrun, hcons, ?_, fun ray now => ⟨fun hchg => ⟨?_, ?_, ?_⟩, fun hsame => ?_⟩⟩
  · intro i j ci cj hi hj hci hcj
    have h1 := (hcons i ci hi).mp hci
    have h2 := (hcons j cj hj).mp hcj
    rw [h1] at h2
    exact Option.some.inj h2
  · intro old c hold hc
    have hc2 : HoverConsistent (checkHover s ray now) := by
      rw [checkHover_eq]; exact switchHover_consistent _ _ _ hcons
    cases hf : c.userData.isHovered with
    | false => rfl
    | true =>
      have := (hc2 old c hc).mp hf
      rw [← hold] at this
      exact absurd this hchg
  · intro hsome
    rw [checkHover_eq] at hchg hsome ⊢
    obtain ⟨_, _, _, _, _, _, hh, hst⟩ := switchHover_fields s (pickHovered s ray) now
    rw [hh] at hchg hsome
    rw [hst, if_pos ⟨hchg, hsome⟩]
  · intro hnone
    rw [checkHover_eq] at hnone ⊢
    obtain ⟨_, _, _, _, _, _, hh, hst⟩ := switchHover_fields s (pickHovered s ray) now
    rw [hh] at hnone
    rw [hst, if_neg (fun h => h.2 hnone)]
  · rw [checkHover_eq] at hsame ⊢
    obtain ⟨_, _, _, _, _, _, hh, _⟩ := switchHover_fields s (pickHovered s ray) now
    rw [hh] at hsame
    unfold switchHover
    rw [if_neg (fun h => h hsame)]

/-- C18, at a concrete run: a frame, the pointer coming onto cube 0, a frame, the pointer
leaving the window, a reset. -/
theorem C18_single_hover_witness :
    ∃ s, runEvents (CONFIG 3) (initHoverSystem (init (CONFIG 3) 0))
          [.frame 250, .mousemove ⟨0, 0⟩ rayOnCube0 300, .frame 500, .mouseleave, .reset 600]
        = some s
      ∧ HoverConsistent s := by
  obtain ⟨s, h1, h2, _⟩ := C18_single_hover (CONFIG 3) (init (CONFIG 3) 0)
    [.frame 250, .mousemove ⟨0, 0⟩ rayOnCube0 300, .frame 500, .mouseleave, .reset 600] rfl rfl
  exact ⟨s, h1, h2⟩

/-! ## Stage rotation -/

theorem progress_full (elapsed duration : ℚ) (hd : 0 < duration) (he : elapsed > duration) :
    easeInOutCubic (min (elapsed / duration) 1) = 1 := by
  have h1 : 1 < elapsed / duration := (one_lt_div hd).mpr he
  rw [min_eq_right h1.le, easeInOutCubic_one]

theorem animateStageRotation_full (cfg : Config) (g : Group) (elapsed : ℚ)
    (hd : 0 < cfg.stageRotationDuration) (he : elapsed > cfg.stageRotationDuration) :
    (animateStageRotation cfg g elapsed).rotationY = cfg.stageRotationAngle := by
  unfold animateStageRotation
  simp only [progress_full elapsed _ hd he, mul_one]

theorem phaseAfter_ge (cfg : Config) (p : Nat) (e : ℚ) : p ≤ phaseAfter cfg p e := by
  rcases phaseAfter_cases cfg p e with h | h <;> omega

theorem phaseAfter_advance_6 (cfg : Config) (e : ℚ) (h : phaseAfter cfg 6 e ≠ 6) :
    e > cfg.stageRotationDuration := by
  unfold phaseAfter at h
  by_contra he
  simp [he] at h

theorem phaseAfter_advance_7 (cfg : Config) (e : ℚ) (h : phaseAfter cfg 7 e ≠ 7) :
    e > cfg.stageRotationDuration := by
  unfold phaseAfter at h
  by_contra he
  simp [he] at h

theorem onMouseLeave_fields (s : State) :
    (onMouseLeave s).animationPhase = s.animationPhase
    ∧ (onMouseLeave s).animationStartTime = s.animationStartTime
    ∧ (onMouseLeave s).topStageGroup = s.topStageGroup
    ∧ (onMouseLeave s).bottomStageGroup = s.bottomStageGroup
    ∧ (onMouseLeave s).shaderParams = s.shaderParams
    ∧ (onMouseLeave s).cubes.length = s.cubes.length := by
  unfold onMouseLeave
  dsimp only
  cases s.hoveredCube <;> simp

theorem animate_rotation (cfg : Config) (s : State) (now : ℚ)
    (hd : 0 < cfg.stageRotationDuration) (hinv : RotationInvariant cfg s) :
    ∃ s1, animate cfg s now = some s1 ∧ RotationInvariant cfg s1
      ∧ (s.animationPhase ≠ 7 → s1.animationPhase = 7 → s1.bottomStageGroup.rotationY = 0) := by
  obtain ⟨hlen, hp8, htop0, hbot0, htop, hbot⟩ := hinv
  obtain ⟨s1, h1, hl, _, _, _, _, hph, ht, hb⟩ := animate_fields cfg s now (by omega)
  cases hpa : s.shaderParams.pauseAnimation with
  | true =>
    rw [hpa] at hph ht hb
    simp only [Bool.true_eq_false, if_false, false_and] at hph ht hb
    refine ⟨s1, h1, ⟨by omega, by omega, ?_, ?_, ?_, ?_⟩, ?_⟩
    · rw [hph, ht]; exact htop0
    · rw [hph, hb]; exact hbot0
    · rw [hph, ht]; exact htop
    · rw [hph, hb]; exact hbot
    · intro hne h7
      rw [hph] at h7
      exact absurd h7 hne
  | false =>
    rw [hpa] at hph ht hb
    simp only [true_and, if_true] at hph ht hb
    have hge := phaseAfter_ge cfg s.animationPhase (now - s.animationStartTime)
    have hle := phaseAfter_le cfg s.animationPhase (now - s.animationStartTime) hp8
    have hcases := phaseAfter_cases cfg s.animationPhase (now - s.animationStartTime)
    refine ⟨s1, h1, ⟨by omega, ?_, ?_, ?_, ?_, ?_⟩, ?_⟩
    · rw [hph]; exact hle
    · intro h5
      rw [hph] at h5
      rw [ht, if_neg (by omega)]
      exact htop0 (by omega)
    · intro h6
      rw [hph] at h6
      rw [hb, if_neg (by omega)]
      exact hbot0 (by omega)
    · intro h7
      rw [hph] at h7
      rw [ht]
      by_cases h6 : s.animationPhase = 6
      · rw [if_pos h6]
        apply animateStageRotation_full cfg _ _ hd
        apply phaseAfter_advance_6
        rw [h6] at h7
        omega
      · rw [if_neg h6]
        exact htop (by omega)
    · intro h8
      rw [hph] at h8
      rw [hb]
      by_cases h7 : s.animationPhase = 7
      · rw [if_pos h7]
        apply animateStageRotation_full cfg _ _ hd
        apply phaseAfter_advance_7
        rw [h7] at h8
        omega
      · rw [if_neg h7]
        exact hbot (by omega)
    · intro hne h7
      rw [hb, if_neg hne]
      rw [hph] at h7
      exact hbot0 (by omega)

theorem stepEvent_rotation (cfg : Config) (s : State) (e : Event)
    (hd : 0 < cfg.stageRotationDuration) (hinv : RotationInvariant cfg s)
    (hnr : e.isReset = false) :
    ∃ s1, stepEvent cfg s e = some s1 ∧ RotationInvariant cfg s1
      ∧ (s.animationPhase ≠ 7 → s1.animationPhase = 7 → s1.bottomStageGroup.rotationY = 0) := by
  cases e with
  | frame now => exact animate_rotation cfg s now hd hinv
  | mousemove pointer ray now =>
    obtain ⟨hl, hp, _, ht, hb, _⟩ := switchHover_fields { s with mouse := pointer }
      (pickHovered { s with mouse := pointer } ray) now
    refine ⟨_, rfl, ?_, ?_⟩
    · show RotationInvariant cfg (checkHover { s with mouse := pointer } ray now)
      rw [checkHover_eq]
      unfold RotationInvariant
      rw [hl, hp, ht, hb]
      exact hinv
    · show _ → (checkHover { s with mouse := pointer } ray now).animationPhase = 7 → _
      rw [checkHover_eq, hp]
      intro h1 h2
      exact absurd h2 h1
  | mouseleave =>
    obtain ⟨hp, _, ht, hb, _, hl⟩ := onMouseLeave_fields s
    refine ⟨_, rfl, ?_, ?_⟩
    · show RotationInvariant cfg (onMouseLeave s)
      unfold RotationInvariant
      rw [hl, hp, ht, hb]
      exact hinv
    · show _ → (onMouseLeave s).animationPhase = 7 → _
      rw [hp]
      intro h1 h2
      exact absurd h2 h1
  | reset now => exact absurd hnr (by simp [Event.isReset])
  | pause flag =>
    exact ⟨_, rfl, hinv, fun h1 h2 => absurd h2 h1⟩

theorem init_rotationInvariant (cfg : Config) (t0 : ℚ) : RotationInvariant cfg (init cfg t0) := by
  refine ⟨by simp [init, initHoverSystem, initAppearanceAnimation, createCubeGroup, positions],
    by simp [init, initHoverSystem, initAppearanceAnimation], fun _ => rfl, fun _ => rfl, ?_, ?_⟩
  · intro h
    simp [init, initHoverSystem, initAppearanceAnimation] at h
  · intro h
    simp [init, initHoverSystem, initAppearanceAnimation] at h

/-- C19. Each stage group rotates fully, one at a time. In any run from initialisation
without a reset (frames, pointer moves, the pointer leaving, pause toggles), with a positive
`stageRotationDuration`: at the step where the phase becomes 7 the top stage group's
rotation angle is exactly `stageRotationAngle` while the bottom group's is still 0, and at the
step where the phase becomes 8 both groups' rotation angles are exactly
`stageRotationAngle`. -/
theorem C19_stage_rotation (cfg : Config) (t0 : ℚ) (events : List Event) (e : Event)
    (hd : 0 < cfg.stageRotationDuration)
    (hnoreset : ∀ ev ∈ events ++ [e], ev.isReset = false) :
    ∃ s s1, runEvents cfg (init cfg t0) events = some s
      ∧ runEvents cfg (init cfg t0) (events ++ [e]) = some s1
      ∧ (s.animationPhase ≠ 7 → s1.animationPhase = 7 →
          s1.topStageGroup.rotationY = cfg.stageRotationAngle
          ∧ s1.bottomStageGroup.rotationY = 0)
      ∧ (s.animationPhase ≠ 8 → s1.animationPhase = 8 →
          s1.topStageGroup.rotationY = cfg.stageRotationAngle
          ∧ s1.bottomStageGroup.rotationY = cfg.stageRotationAngle) := by
  obtain ⟨s, hrun, hinv⟩ := runEvents_induct cfg (RotationInvariant cfg)
    (fun ev => ev.isReset = false)
    (fun s ev hs hev => by
      obtain ⟨s1, h1, h2, _⟩ := stepEvent_rotation cfg s ev hd hs hev
      exact ⟨s1, h1, h2⟩)
    events (init cfg t0) (init_rotationInvariant cfg t0)
    (fun ev hev => hnoreset ev (List.mem_append_left _ hev))
  obtain ⟨s1, hstep, hinv1, hbot⟩ := stepEvent_rotation cfg s e hd hinv
    (hnoreset e (List.mem_append_right _ (List.mem_singleton_self e)))
  obtain ⟨_, _, _, _, htop1, hbot1⟩ := hinv1
  refine ⟨s, s1, hrun, ?_, ?_, ?_⟩
  · rw [runEvents_append, hrun]
    simp [runEvents, hstep]
  · intro hne h7
    exact ⟨htop1 (by omega), hbot hne h7⟩
  · intro _ h8
    exact ⟨htop1 (by omega), hbot1 (by omega)⟩

/-- C19, at a concrete run: frames that end the five reveal phases, then the frame at
7006 ms. -/
theorem C19_stage_rotation_witness :
    ∃ s s1, runEvents (CONFIG 3) (init (CONFIG 3) 0)
          [.frame 1001, .frame 2002, .frame 3003, .frame 4004, .frame 5005] = some s
      ∧ runEvents (CONFIG 3) (init (CONFIG 3) 0)
          ([.frame 1001, .frame 2002, .frame 3003, .frame 4004, .frame 5005] ++ [.frame 7006])
          = some s1
      ∧ (s.animationPhase ≠ 7 → s1.animationPhase = 7 →
          s1.topStageGroup.rotationY = (CONFIG 3).stageRotationAngle
          ∧ s1.bottomStageGroup.rotationY = 0)
      ∧ (s.animationPhase ≠ 8 → s1.animationPhase = 8 →
          s1.topStageGroup.rotationY = (CONFIG 3).stageRotationAngle
          ∧ s1.bottomStageGroup.rotationY = (CONFIG 3).stageRotationAngle) :=
  C19_stage_rotation (CONFIG 3) 0
    [.frame 1001, .frame 2002, .frame 3003, .frame 4004, .frame 5005] (.frame 7006)
    (by norm_num [CONFIG]) (by simp [Event.isReset])

/-! ## Configuration export and import -/

theorem Store.any_key_iff (st : Store) (key : String) :
    st.own.any (fun kv => kv.1 == key) = true ↔ key ∈ st.own.map Prod.fst := by
  simp only [List.any_eq_true, beq_iff_eq, List.mem_map]

theorem Store.assign_of_own (st : Store) (key : String) (value : Json)
    (hk : key ∈ st.own.map Prod.fst) :
    st.assign key value
      = { st with
          own := st.own.map fun kv => if kv.1 = key then (kv.1, Entry.data value) else kv } := by
  unfold Store.assign
  rw [if_pos ((st.any_key_iff key).mpr hk)]

theorem Store.assign_mem_other (st : Store) (key : String) (value : Json) (k : String)
    (e : Entry) (hmem : (k, e) ∈ st.own) (hne : key ≠ k) :
    (k, e) ∈ (st.assign key value).own := by
  unfold Store.assign
  split_ifs with h1 h2
  · simp only [List.mem_map]
    exact ⟨(k, e), hmem, if_neg (fun h => hne h.symm)⟩
  · split <;> exact hmem
  · simp only [List.mem_append]
    exact Or.inl hmem

theorem Store.assign_keys_mono (st : Store) (key : String) (value : Json) (k : String)
    (hk : k ∈ st.own.map Prod.fst) : k ∈ (st.assign key value).own.map Prod.fst := by
  unfold Store.assign
  split_ifs with h1 h2
  · simp only [List.map_map, List.mem_map, Function.comp_apply] at hk ⊢
    obtain ⟨kv, hkv, rfl⟩ := hk
    refine ⟨kv, hkv, ?_⟩
    split_ifs <;> rfl
  · split <;> exact hk
  · simp only [List.map_append, List.mem_append]
    exact Or.inl hk

theorem Store.assign_own_value (st : Store) (key : String) (value : Json)
    (hk : key ∈ st.own.map Prod.fst) : (key, Entry.data value) ∈ (st.assign key value).own := by
  rw [st.assign_of_own key value hk]
  simp only [List.mem_map] at hk ⊢
  obtain ⟨kv, hkv, rfl⟩ := hk
  exact ⟨kv, hkv, by simp⟩

theorem applyImported_cons (st : Store) (kv : String × Json) (rest : List (String × Json)) :
    applyImported st (kv :: rest)
      = applyImported (if st.hasProperty kv.1 then st.assign kv.1 kv.2 else st) rest := rfl

theorem applyImported_keys_mono (entries : List (String × Json)) :
    ∀ (st : Store) (k : String), k ∈ st.own.map Prod.fst →
      k ∈ (applyImported st entries).own.map Prod.fst := by
  induction entries with
  | nil => intro st k hk; exact hk
  | cons kv rest ih =>
    intro st k hk
    rw [applyImported_cons]
    apply ih
    split_ifs
    · exact st.assign_keys_mono _ _ k hk
    · exact hk

theorem applyImported_mem_other (entries : List (String × Json)) :
    ∀ (st : Store) (k : String) (e : Entry), (k, e) ∈ st.own →
      k ∉ entries.map Prod.fst → (k, e) ∈ (applyImported st entries).own := by
  induction entries with
  | nil => intro st k e hmem _; exact hmem
  | cons kv rest ih =>
    intro st k e hmem hk
    rw [applyImported_cons]
    simp only [List.map_cons, List.mem_cons, not_or] at hk
    apply ih _ k e _ hk.2
    split_ifs
    · exact st.assign_mem_other _ _ k e hmem (fun h => hk.1 h.symm)
    · exact hmem

theorem applyImported_value (entries : List (String × Json)) :
    ∀ (st : Store) (k : String) (v : Json), (entries.map Prod.fst).Nodup →
      (k, v) ∈ entries → k ∈ st.own.map Prod.fst →
      (k, Entry.data v) ∈ (applyImported st entries).own := by
  induction entries with
  | nil => intro st k v _ hmem _; exact absurd hmem (List.not_mem_nil _)
  | cons kv rest ih =>
    intro st k v hnodup hmem hk
    rw [applyImported_cons]
    simp only [List.map_cons, List.nodup_cons] at hnodup
    rcases List.mem_cons.mp hmem with heq | hrest
    · subst heq
      have hprop : st.hasProperty k = true := by
        unfold Store.hasProperty
        rw [(st.any_key_iff k).mpr hk]
        rfl
      rw [if_pos hprop]
      exact applyImported_mem_other rest _ k _ (st.assign_own_value k v hk) hnodup.1
    · apply ih _ k v hnodup.2 hrest
      split_ifs
      · exact st.assign_keys_mono _ _ k hk
      · exact hk

theorem applyImported_own_keys (entries : List (String × Json)) :
    ∀ st : Store, (∀ kv ∈ entries, kv.1 ∈ st.own.map Prod.fst) →
      (applyImported st entries).own.map Prod.fst = st.own.map Prod.fst
      ∧ (applyImported st entries).inherited = st.inherited
      ∧ (applyImported st entries).protoSetter = st.protoSetter := by
  induction entries with
  | nil => intro st _; exact ⟨rfl, rfl, rfl⟩
  | cons kv rest ih =>
    intro st hall
    rw [applyImported_cons]
    have hk := hall kv (List.mem_cons_self _ _)
    have hprop : st.hasProperty kv.1 = true := by
      unfold Store.hasProperty
      rw [(st.any_key_iff kv.1).mpr hk]
      rfl
    rw [if_pos hprop, st.assign_of_own kv.1 kv.2 hk]
    have hkeys : (st.own.map fun e => if e.1 = kv.1 then (e.1, Entry.data kv.2) else e).map
        Prod.fst = st.own.map Prod.fst := by
      rw [List.map_map]
      apply List.map_congr_left
      intro e _
      simp only [Function.comp_apply]
      split_ifs <;> rfl
    obtain ⟨h1, h2, h3⟩ := ih
      { st with
        own := st.own.map fun e => if e.1 = kv.1 then (e.1, Entry.data kv.2) else e }
      (fun e he => by
        show e.1 ∈ (st.own.map fun e => if e.1 = kv.1 then (e.1, Entry.data kv.2) else e).map
          Prod.fst
        rw [hkeys]
        exact hall e (List.mem_cons_of_mem _ he))
    exact ⟨h1.trans hkeys, h2, h3⟩

theorem exportedParams_mem (st : Store) (k : String) (v : Json) :
    (k, v) ∈ exportedParams st ↔ (k, Entry.data v) ∈ st.own := by
  unfold exportedParams
  simp only [List.mem_filterMap]
  constructor
  · rintro ⟨⟨k1, e⟩, hmem, hsome⟩
    cases e with
    | data value =>
      simp only [Option.some.injEq, Prod.mk.injEq] at hsome
      obtain ⟨rfl, rfl⟩ := hsome
      exact hmem
    | func name => simp at hsome
  · intro hmem
    exact ⟨(k, Entry.data v), hmem, rfl⟩

theorem exportedParams_keys_sublist (st : Store) :
    ((exportedParams st).map Prod.fst).Sublist (st.own.map Prod.fst) := by
  unfold exportedParams
  induction st.own with
  | nil => exact List.Sublist.slnil
  | cons kv rest ih =>
    cases h : kv.2 with
    | data value =>
      simp only [List.filterMap_cons, h, List.map_cons]
      exact ih.cons₂ _
    | func name =>
      simp only [List.filterMap_cons, h, List.map_cons]
      exact ih.cons _

theorem importOnload_export (src tgt : Store) (timestamp : String) :
    importOnload (some (exportGUIConfig src timestamp)) tgt
      = (applyImported tgt (exportedParams src), ImportOutcome.success) := by
  unfold importOnload exportGUIConfig shaderParamsOf
  simp [List.lookup, Json.truthy, ownEntries]

/-- C14. Export followed by import is the identity on parameter data. For every parameter
store with distinct keys whose non-function entries are finite numbers or booleans, the
file that `exportGUIConfig` writes (the entries of `shaderParams` under the key
`shaderParams`, the function-valued ones dropped) is imported with the success message into
any store with the same keys, and the resulting store has the same keys and holds every
non-function entry of the exported store. -/
theorem C14_export_import_roundtrip (src tgt : Store) (timestamp : String)
    (hnodup : (src.own.map Prod.fst).Nodup)
    (_hplain : src.own.all (fun kv => kv.2.plain) = true)
    (hkeys : ∀ k, k ∈ tgt.own.map Prod.fst ↔ k ∈ src.own.map Prod.fst) :
    (importOnload (some (exportGUIConfig src timestamp)) tgt).2 = ImportOutcome.success
    ∧ (∀ (k : String) (v : Json), (k, Entry.data v) ∈ src.own →
        (k, Entry.data v) ∈ (importOnload (some (exportGUIConfig src timestamp)) tgt).1.own)
    ∧ (importOnload (some (exportGUIConfig src timestamp)) tgt).1.own.map Prod.fst
        = tgt.own.map Prod.fst := by
  rw [importOnload_export]
  refine ⟨rfl, fun k v hmem => ?_, ?_⟩
  · have hk : k ∈ tgt.own.map Prod.fst :=
      (hkeys k).mpr (List.mem_map.mpr ⟨(k, Entry.data v), hmem, rfl⟩)
    exact applyImported_value (exportedParams src) tgt k v
      (hnodup.sublist (exportedParams_keys_sublist src))
      ((exportedParams_mem src k v).mpr hmem) hk
  · refine (applyImported_own_keys (exportedParams src) tgt (fun kv hkv => ?_)).1
    apply (hkeys kv.1).mpr
    exact (exportedParams_keys_sublist src).subset (List.mem_map.mpr ⟨kv, hkv, rfl⟩)

/-- C14, at a concrete input: the store of the source, exported and imported into itself. -/
theorem C14_export_import_roundtrip_witness :
    (importOnload (some (exportGUIConfig shaderParamsStore "2025-01-01T00:00:00.000Z"))
        shaderParamsStore).2 = ImportOutcome.success
    ∧ (∀ (k : String) (v : Json), (k, Entry.data v) ∈ shaderParamsStore.own →
        (k, Entry.data v) ∈ (importOnload
          (some (exportGUIConfig shaderParamsStore "2025-01-01T00:00:00.000Z"))
          shaderParamsStore).1.own)
    ∧ (importOnload (some (exportGUIConfig shaderParamsStore "2025-01-01T00:00:00.000Z"))
        shaderParamsStore).1.own.map Prod.fst = shaderParamsStore.own.map Prod.fst :=
  C14_export_import_roundtrip shaderParamsStore shaderParamsStore "2025-01-01T00:00:00.000Z"
    (by decide) (by rfl) (fun _ => Iff.rfl)

/-- C15. Import fails atomically. For every file that is not valid JSON (`JSON.parse`
throws), or whose parsed value has no truthy `shaderParams` member (it is not an object,
lacks the member, or the member is `null`, `false`, `0` or the empty string), the load
handler leaves the parameter store as it was and shows the error alert, not the success
message. -/
theorem C15_import_fails_atomically (parsed : Option Json) (st : Store)
    (hbad : ∀ (config sp : Json), parsed = some config → shaderParamsOf config = some sp →
      sp.truthy = false) :
    importOnload parsed st = (st, ImportOutcome.error) := by
  unfold importOnload
  cases parsed with
  | none => rfl
  | some config =>
    cases hsp : shaderParamsOf config with
    | none => simp only [hsp]
    | some sp =>
      have htr := hbad config sp rfl hsp
      simp only [hsp, htr, Bool.false_eq_true, if_false]

/-- C15, at a concrete input: a file with a version but no `shaderParams`. -/
theorem C15_import_fails_atomically_witness :
    importOnload (some (.obj [("version", .str "1.0")])) shaderParamsStore
      = (shaderParamsStore, ImportOutcome.error) :=
  C15_import_fails_atomically (some (.obj [("version", .str "1.0")])) shaderParamsStore
    (by
      intro config sp h1 h2
      cases h1
      simp [shaderParamsOf, List.lookup] at h2)

/-- C16, evaluated on the code. The store of the source has no key `toString`, but
`'toString' in shaderParams` holds through `Object.prototype`; importing a file whose
`shaderParams` is `{"toString": 1}` succeeds and adds the entry `toString` to the store, so
the set of keys of the store changes. -/
theorem C16_import_adds_inherited_key :
    "toString" ∉ shaderParamsStore.own.map Prod.fst
    ∧ shaderParamsStore.hasProperty "toString" = true
    ∧ (importOnload (some fileWithToString) shaderParamsStore).2 = ImportOutcome.success
    ∧ (importOnload (some fileWithToString) shaderParamsStore).1.own
        = shaderParamsStore.own ++ [("toString", Entry.data (Json.num 1))]
    ∧ (importOnload (some fileWithToString) shaderParamsStore).1.own.map Prod.fst
        ≠ shaderParamsStore.own.map Prod.fst := by
  refine ⟨by decide, by rfl, by rfl, by rfl, by decide⟩

/-- C26, evaluated on the code. The guard of `importGUIConfig` tests the type of the value
in the file, which is never a function; importing a file whose `shaderParams` is
`{"resetAnimation": 5}` succeeds and replaces the function `resetAnimation` of the store by
the number 5. -/
theorem C26_import_replaces_reset :
    shaderParamsStore.get? "resetAnimation" = some (Entry.func "resetAnimation")
    ∧ (importOnload (some fileWithResetAnimation) shaderParamsStore).2 = ImportOutcome.success
    ∧ (importOnload (some fileWithResetAnimation) shaderParamsStore).1.get? "resetAnimation"
        = some (Entry.data (Json.num 5)) := by
  refine ⟨by rfl, by rfl, by rfl⟩

/-! ## The reveal update -/

theorem animateCube_scale (cfg : Config) (p : Nat) (e : ℚ) (c : Cube) :
    ((p = 1 ∨ p = 2) → (animateCube cfg p e c).scale = ⟨1, e, 1⟩)
    ∧ (p = 3 → (animateCube cfg p e c).scale = ⟨1, 1, e⟩)
    ∧ ((p = 4 ∨ p = 5) → (animateCube cfg p e c).scale = ⟨e, 1, 1⟩)
    ∧ (animateCube cfg p e c).userData.originalScale
        = c.userData.originalScale.map (fun _ => (animateCube cfg p e c).scale)
    ∧ (animateCube cfg p e c).material.opacity
        = c.userData.initialOpacity
          + (c.userData.finalOpacity - c.userData.initialOpacity) * e := by
  refine ⟨?_, ?_, ?_, rfl, rfl⟩
  · rintro (rfl | rfl) <;> simp [animateCube]
  · rintro rfl; simp [animateCube]
  · rintro (rfl | rfl) <;> simp [animateCube]

theorem animateCube_position (cfg : Config) (p : Nat) (e : ℚ) (c : Cube) :
    ((p = 1 ∨ p = 2) → (animateCube cfg p e c).position
        = ⟨c.position.x, c.userData.finalPosition.y - cfg.cubeSize / 2 * (1 - e),
            c.position.z⟩)
    ∧ (p = 3 → (animateCube cfg p e c).position
        = ⟨c.position.x, c.position.y,
            c.userData.finalPosition.z - cfg.cubeSize / 2 * (1 - e)⟩)
    ∧ (p = 4 → (animateCube cfg p e c).position
        = ⟨c.userData.finalPosition.x - cfg.cubeSize / 2 * (1 - e), c.position.y,
            c.position.z⟩)
    ∧ (p = 5 → (animateCube cfg p e c).position
        = ⟨c.userData.finalPosition.x - cfg.cubeSize / 4 * (1 - e), c.position.y,
            c.position.z⟩) := by
  refine ⟨?_, ?_, ?_, ?_⟩
  · rintro (rfl | rfl) <;> simp [animateCube] <;> ring
  · rintro rfl; simp [animateCube]; ring
  · rintro rfl; simp [animateCube]; ring
  · rintro rfl; simp [animateCube]; ring

/-- C21. For every reveal phase 1..5 and every `elapsed ≥ 0`, `animateCubes` on the phase's
index subset returns and gives each cube of the subset a scale with one component equal to
`eased = ease(min(elapsed / animationDuration, 1))` and the other two equal to 1: the y
component in phases 1 and 2, the z component in phase 3, the x component in phases 4 and 5.
It writes the same vector to the baseline scale `userData.originalScale` (set from
`initHoverSystem` on), sets the opacity to
`initialOpacity + (finalOpacity - initialOpacity) * eased`, which is `finalOpacity * eased`
when `initialOpacity` is 0, and leaves the cubes outside the subset as they were. -/
theorem C21_reveal_scale_opacity (cfg : Config) (p : Nat) (cubes : List Cube) (elapsed : ℚ)
    (_hdur : 0 < cfg.animationDuration) (_helapsed : 0 ≤ elapsed)
    (_h1 : 1 ≤ p) (_h5 : p ≤ 5) (hlen : cubes.length = 10)
    (hhover : ∀ c ∈ cubes, c.userData.originalScale ≠ none) :
    ∃ cs, animateCubes cfg p cubes (revealIndices p) elapsed = some cs
      ∧ (∀ i ∈ revealIndices p, ∃ c c1, cubes[i]? = some c ∧ cs[i]? = some c1
          ∧ ((p = 1 ∨ p = 2) → c1.scale
              = ⟨1, easeInOutCubic (min (elapsed / cfg.animationDuration) 1), 1⟩)
          ∧ (p = 3 → c1.scale
              = ⟨1, 1, easeInOutCubic (min (elapsed / cfg.animationDuration) 1)⟩)
          ∧ ((p = 4 ∨ p = 5) → c1.scale
              = ⟨easeInOutCubic (min (elapsed / cfg.animationDuration) 1), 1, 1⟩)
          ∧ c1.userData.originalScale = some c1.scale
          ∧ c1.material.opacity = c.userData.initialOpacity
              + (c.userData.finalOpacity - c.userData.initialOpacity)
                * easeInOutCubic (min (elapsed / cfg.animationDuration) 1)
          ∧ (c.userData.initialOpacity = 0 → c1.material.opacity
              = c.userData.finalOpacity
                * easeInOutCubic (min (elapsed / cfg.animationDuration) 1)))
      ∧ ∀ j : Nat, j ∉ revealIndices p → cs[j]? = cubes[j]? := by
  obtain ⟨cs, hcs, _, hget⟩ := animateCubes_spec cfg p cubes (revealIndices p) elapsed
    (fun i hi => by rw [hlen]; exact revealIndices_lt p i hi)
  refine ⟨cs, hcs, fun i hi => ?_, fun j hj => ?_⟩
  · have hi10 : i < cubes.length := by rw [hlen]; exact revealIndices_lt p i hi
    obtain ⟨s12, s3, s45, ho, hop⟩ := animateCube_scale cfg p
      (easeInOutCubic (min (elapsed / cfg.animationDuration) 1)) cubes[i]
    refine ⟨cubes[i], _, List.getElem?_eq_getElem hi10, ?_, s12, s3, s45, ?_, hop, ?_⟩
    · rw [hget i, List.getElem?_eq_getElem hi10]
      simp [hi]
    · rw [ho]
      have := hhover cubes[i] (List.getElem_mem hi10)
      cases h : cubes[i].userData.originalScale with
      | none => exact absurd h this
      | some v => rfl
    · intro h0
      rw [hop, h0]
      ring
  · rw [hget j]
    cases cubes[j]? with
    | none => rfl
    | some c => simp [hj]

/-- C21, at a concrete input: phase 3 on the ten cubes of the initial state, 250 ms. -/
theorem C21_reveal_scale_opacity_witness :
    ∃ cs, animateCubes (CONFIG 3) 3 (init (CONFIG 3) 0).cubes (revealIndices 3) 250 = some cs
      ∧ ∀ j : Nat, j ∉ revealIndices 3 → cs[j]? = (init (CONFIG 3) 0).cubes[j]? := by
  obtain ⟨cs, h1, _, h3⟩ := C21_reveal_scale_opacity (CONFIG 3) 3 (init (CONFIG 3) 0).cubes
    250 (by norm_num [CONFIG]) (by norm_num) (by decide) (by decide) rfl
    (by simp [init, initHoverSystem, initAppearanceAnimation, createCubeGroup])
  exact ⟨cs, h1, h3⟩

/-- C22. Positional compensation. For every reveal phase 1..5 and every `elapsed ≥ 0`,
`animateCubes` sets the position of each cube of the phase's subset, on the driven axis, to
`finalPosition - halfExtent * (1 - eased)`, with `halfExtent = cubeSize / 2` in phases 1 to 4
and `cubeSize / 4` in phase 5, and leaves the other two coordinates unchanged; so the
coordinate of the rear face on the driven axis, `position - eased * halfExtent`, is
`finalPosition - halfExtent` whatever `eased` is, and the position on the driven axis is
`finalPosition` when `eased = 1`. -/
theorem C22_positional_compensation (cfg : Config) (p : Nat) (cubes : List Cube)
    (elapsed : ℚ) (_hdur : 0 < cfg.animationDuration) (_helapsed : 0 ≤ elapsed)
    (h1 : 1 ≤ p) (h5 : p ≤ 5) (hlen : cubes.length = 10) :
    ∃ cs, animateCubes cfg p cubes (revealIndices p) elapsed = some cs
      ∧ ∀ i ∈ revealIndices p, ∃ c c1, cubes[i]? = some c ∧ cs[i]? = some c1
          ∧ drivenAxis p c1.position
              = drivenAxis p c.userData.finalPosition
                - halfExtent cfg p
                  * (1 - easeInOutCubic (min (elapsed / cfg.animationDuration) 1))
          ∧ ((p = 1 ∨ p = 2) → c1.position.x = c.position.x ∧ c1.position.z = c.position.z)
          ∧ (p = 3 → c1.position.x = c.position.x ∧ c1.position.y = c.position.y)
          ∧ ((p = 4 ∨ p = 5) → c1.position.y = c.position.y ∧ c1.position.z = c.position.z)
          ∧ drivenAxis p c1.position
                - easeInOutCubic (min (elapsed / cfg.animationDuration) 1) * halfExtent cfg p
              = drivenAxis p c.userData.finalPosition - halfExtent cfg p
          ∧ (easeInOutCubic (min (elapsed / cfg.animationDuration) 1) = 1 →
              drivenAxis p c1.position = drivenAxis p c.userData.finalPosition) := by
  obtain ⟨cs, hcs, _, hget⟩ := animateCubes_spec cfg p cubes (revealIndices p) elapsed
    (fun i hi => by rw [hlen]; exact revealIndices_lt p i hi)
  refine ⟨cs, hcs, fun i hi => ?_⟩
  have hi10 : i < cubes.length := by rw [hlen]; exact revealIndices_lt p i hi
  obtain ⟨p12, p3, p4, p5⟩ := animateCube_position cfg p
    (easeInOutCubic (min (elapsed / cfg.animationDuration) 1)) cubes[i]
  have hdriven : drivenAxis p (animateCube cfg p
        (easeInOutCubic (min (elapsed / cfg.animationDuration) 1)) cubes[i]).position
      = drivenAxis p cubes[i].userData.finalPosition
        - halfExtent cfg p
          * (1 - easeInOutCubic (min (elapsed / cfg.animationDuration) 1)) := by
    have hp : p = 1 ∨ p = 2 ∨ p = 3 ∨ p = 4 ∨ p = 5 := by omega
    rcases hp with rfl | rfl | rfl | rfl | rfl
    · rw [p12 (Or.inl rfl)]; simp [drivenAxis, halfExtent]
    · rw [p12 (Or.inr rfl)]; simp [drivenAxis, halfExtent]
    · rw [p3 rfl]; simp [drivenAxis, halfExtent]
    · rw [p4 rfl]; simp [drivenAxis, halfExtent]
    · rw [p5 rfl]; simp [drivenAxis, halfExtent]
  refine ⟨cubes[i], _, List.getElem?_eq_getElem hi10, ?_, hdriven, ?_, ?_, ?_, ?_, ?_⟩
  · rw [hget i, List.getElem?_eq_getElem hi10]
    simp [hi]
  · intro h; rw [p12 h]; exact ⟨rfl, rfl⟩
  · intro h; rw [p3 h]; exact ⟨rfl, rfl⟩
  · rintro (h | h)
    · rw [p4 h]; exact ⟨rfl, rfl⟩
    · rw [p5 h]; exact ⟨rfl, rfl⟩
  · rw [hdriven]; ring
  · intro he
    rw [hdriven, he]; ring

/-- C22, at a concrete input: phase 5 on the ten cubes of the initial state, 250 ms. -/
theorem C22_positional_compensation_witness :
    ∃ cs, animateCubes (CONFIG 3) 5 (init (CONFIG 3) 0).cubes (revealIndices 5) 250 = some cs
      ∧ ∀ i ∈ revealIndices 5, ∃ c c1, (init (CONFIG 3) 0).cubes[i]? = some c
          ∧ cs[i]? = some c1
          ∧ drivenAxis 5 c1.position
              = drivenAxis 5 c.userData.finalPosition
                - halfExtent (CONFIG 3) 5
                  * (1 - easeInOutCubic (min (250 / (CONFIG 3).animationDuration) 1)) := by
  obtain ⟨cs, h1, h2⟩ := C22_positional_compensation (CONFIG 3) 5 (init (CONFIG 3) 0).cubes
    250 (by norm_num [CONFIG]) (by norm_num) (by decide) (by decide) rfl
  refine ⟨cs, h1, fun i hi => ?_⟩
  obtain ⟨c, c1, a, b, d, _⟩ := h2 i hi
  exact ⟨c, c1, a, b, d⟩

/-- C23. Rotation update. `animateStageRotation` sets the group's rotation about the
vertical axis to `stageRotationAngle * ease(min(elapsed / stageRotationDuration, 1))`. A
phase-6 call of `handleAppearanceAnimation` gives the top stage group that rotation and
leaves the bottom group's rotation unchanged; a phase-7 call does so for the bottom group
and leaves the top group's rotation unchanged; neither changes any cube, so no scale,
position or opacity. -/
theorem C23_rotation_update (cfg : Config) (s : State) (now : ℚ)
    (_hdur : 0 < cfg.stageRotationDuration) (_helapsed : 0 ≤ now - s.animationStartTime) :
    (∀ (g : Group) (elapsed : ℚ), (animateStageRotation cfg g elapsed).rotationY
        = cfg.stageRotationAngle
          * easeInOutCubic (min (elapsed / cfg.stageRotationDuration) 1))
    ∧ (s.animationPhase = 6 → ∃ s1, handleAppearanceAnimation cfg s now = some s1
        ∧ s1.topStageGroup.rotationY = cfg.stageRotationAngle
            * easeInOutCubic
              (min ((now - s.animationStartTime) / cfg.stageRotationDuration) 1)
        ∧ s1.bottomStageGroup = s.bottomStageGroup
        ∧ s1.cubes = s.cubes)
    ∧ (s.animationPhase = 7 → ∃ s1, handleAppearanceAnimation cfg s now = some s1
        ∧ s1.bottomStageGroup.rotationY = cfg.stageRotationAngle
            * easeInOutCubic
              (min ((now - s.animationStartTime) / cfg.stageRotationDuration) 1)
        ∧ s1.topStageGroup = s.topStageGroup
        ∧ s1.cubes = s.cubes) := by
  refine ⟨fun g elapsed => rfl, fun h6 => ?_, fun h7 => ?_⟩
  · unfold handleAppearanceAnimation
    simp only [h6]
    by_cases he : now - s.animationStartTime > cfg.stageRotationDuration
    · simp only [he, if_true]
      exact ⟨_, rfl, rfl, rfl, rfl⟩
    · simp only [he, if_false]
      exact ⟨_, rfl, rfl, rfl, rfl⟩
  · unfold handleAppearanceAnimation
    simp only [h7]
    by_cases he : now - s.animationStartTime > cfg.stageRotationDuration
    · simp only [he, if_true]
      exact ⟨_, rfl, rfl, rfl, rfl⟩
    · simp only [he, if_false]
      exact ⟨_, rfl, rfl, rfl, rfl⟩

/-- C23, at a concrete input: phase 7 of `rotatingBottom`, called at 8000. -/
theorem C23_rotation_update_witness :
    ∃ s1,
      handleAppearanceAnimation (CONFIG 3) rotatingBottom 8000 = some s1
        ∧ s1.bottomStageGroup.rotationY = (CONFIG 3).stageRotationAngle
            * easeInOutCubic
              (min ((8000 - rotatingBottom.animationStartTime)
                / (CONFIG 3).stageRotationDuration) 1)
        ∧ s1.topStageGroup = rotatingBottom.topStageGroup
        ∧ s1.cubes = rotatingBottom.cubes :=
  (C23_rotation_update (CONFIG 3) rotatingBottom 8000 (by norm_num [CONFIG])
    (by norm_num [rotatingBottom, init, initHoverSystem, initAppearanceAnimation])).2.2 rfl

/-- C25. The reset action changes only the phase, the phase-start timestamp and each cube's
displayed scale and opacity: every cube keeps its `userData` (baseline scale, hover flag,
hover progress, final position, opacities) and its position, both stage groups keep their
rotation, and every other module variable keeps its value; nothing is restored to its
initial value. -/
theorem C25_reset_frame (s : State) (now : ℚ) :
    (resetAnimation s now).topStageGroup = s.topStageGroup
    ∧ (resetAnimation s now).bottomStageGroup = s.bottomStageGroup
    ∧ (resetAnimation s now).cubeGroup = s.cubeGroup
    ∧ (resetAnimation s now).stageRotationStartTime = s.stageRotationStartTime
    ∧ (resetAnimation s now).shaderParams = s.shaderParams
    ∧ (resetAnimation s now).hoveredCube = s.hoveredCube
    ∧ (resetAnimation s now).hoverStartTime = s.hoverStartTime
    ∧ (resetAnimation s now).mouse = s.mouse
    ∧ (resetAnimation s now).targetCameraPosition = s.targetCameraPosition
    ∧ (resetAnimation s now).currentCameraPosition = s.currentCameraPosition
    ∧ (resetAnimation s now).cubes.length = s.cubes.length
    ∧ ∀ (i : Nat) (c : Cube), s.cubes[i]? = some c →
        ∃ c1, (resetAnimation s now).cubes[i]? = some c1
          ∧ c1.userData = c.userData
          ∧ c1.userData.originalScale = c.userData.originalScale
          ∧ c1.userData.isHovered = c.userData.isHovered
          ∧ c1.userData.hoverProgress = c.userData.hoverProgress
          ∧ c1.position = c.position := by
  refine ⟨rfl, rfl, rfl, rfl, rfl, rfl, rfl, rfl, rfl, rfl, by simp [resetAnimation], ?_⟩
  intro i c hc
  refine ⟨{ c with scale := ⟨0, 0, 0⟩, material := { c.material with opacity := 0 } }, ?_,
    rfl, rfl, rfl, rfl, rfl⟩
  simp [resetAnimation, hc]

/-! ## Every cube is revealed before the rotations -/

theorem revealIndices_phaseOfIndex (p i : Nat) (hi : i ∈ revealIndices p) :
    p = phaseOfIndex i ∧ 1 ≤ p ∧ p ≤ 5 := by
  unfold revealIndices at hi
  split_ifs at hi with h1 h2 h3 h4 h5
  · simp at hi; subst hi; subst h1; exact ⟨rfl, by decide, by decide⟩
  · simp at hi; subst hi; subst h2; exact ⟨rfl, by decide, by decide⟩
  · simp at hi; subst h3; rcases hi with rfl | rfl <;> exact ⟨rfl, by decide, by decide⟩
  · simp at hi; subst h4
    rcases hi with rfl | rfl | rfl | rfl <;> exact ⟨rfl, by decide, by decide⟩
  · simp at hi; subst h5; rcases hi with rfl | rfl <;> exact ⟨rfl, by decide, by decide⟩
  · simp at hi

theorem revealIndices_disjoint (p q i : Nat) (hp : i ∈ revealIndices p)
    (hq : i ∈ revealIndices q) : p = q := by
  rw [(revealIndices_phaseOfIndex p i hp).1, (revealIndices_phaseOfIndex q i hq).1]

theorem revealIndices_cover (i : Nat) (hi : i < 10) : i ∈ revealIndices (phaseOfIndex i) := by
  interval_cases i <;> decide

theorem CubeRevealInvariant.of_same (cfg : Config) (p i : Nat) (c c1 : Cube)
    (hpos : c1.position = c.position) (hmat : c1.material = c.material)
    (ho : c1.userData.originalScale = c.userData.originalScale)
    (hfp : c1.userData.finalPosition = c.userData.finalPosition)
    (hfo : c1.userData.finalOpacity = c.userData.finalOpacity)
    (h : CubeRevealInvariant cfg p i c) : CubeRevealInvariant cfg p i c1 := by
  obtain ⟨h1, h2, h3⟩ := h
  refine ⟨by rw [ho]; exact h1, by rw [hfp, hfo]; exact h2, fun q hq => ?_⟩
  obtain ⟨hoff, hfull⟩ := h3 q hq
  refine ⟨?_, fun hlt => ?_⟩
  · unfold OffAxisAtRest at hoff ⊢
    rw [hpos, hfp]
    exact hoff
  · unfold FullyRevealed at hfull ⊢
    rw [hpos, hmat, ho, hfp, hfo]
    exact hfull hlt

theorem updateHoverCube_keeps (a now : ℚ) (c : Cube) :
    (updateHoverCube a now c).position = c.position
    ∧ (updateHoverCube a now c).material = c.material
    ∧ (updateHoverCube a now c).userData.originalScale = c.userData.originalScale
    ∧ (updateHoverCube a now c).userData.finalPosition = c.userData.finalPosition
    ∧ (updateHoverCube a now c).userData.finalOpacity = c.userData.finalOpacity := by
  unfold updateHoverCube
  cases h : c.userData.originalScale <;> simp [h]

theorem phaseAfter_advance_reveal (cfg : Config) (p : Nat) (e : ℚ) (h1 : 1 ≤ p) (h5 : p ≤ 5)
    (h : p < phaseAfter cfg p e) : e > cfg.animationDuration := by
  unfold phaseAfter at h
  by_contra he
  simp [h1, h5, he] at h

theorem animateCube_fullyRevealed (cfg : Config) (p : Nat) (c : Cube) (h1 : 1 ≤ p)
    (h5 : p ≤ 5) (ho : c.userData.originalScale ≠ none) (hoff : OffAxisAtRest p c) :
    FullyRevealed (animateCube cfg p 1 c) := by
  obtain ⟨_, hbase, hop, hfo⟩ := animateCube_full cfg p c h1 h5
  obtain ⟨p12, p3, p4, p5⟩ := animateCube_position cfg p 1 c
  obtain ⟨o12, o3, o45⟩ := hoff
  have hfp : (animateCube cfg p 1 c).userData.finalPosition = c.userData.finalPosition := rfl
  refine ⟨?_, ?_, ?_⟩
  · rw [hbase]
    cases h : c.userData.originalScale with
    | none => exact absurd h ho
    | some v => rfl
  · rw [hfp]
    have hp : p = 1 ∨ p = 2 ∨ p = 3 ∨ p = 4 ∨ p = 5 := by omega
    rcases hp with rfl | rfl | rfl | rfl | rfl
    · rw [p12 (Or.inl rfl)]
      obtain ⟨hx, hz⟩ := o12 (by decide)
      rw [hx, hz]; simp
    · rw [p12 (Or.inr rfl)]
      obtain ⟨hx, hz⟩ := o12 (by decide)
      rw [hx, hz]; simp
    · rw [p3 rfl]
      obtain ⟨hx, hy⟩ := o3 rfl
      rw [hx, hy]; simp
    · rw [p4 rfl]
      obtain ⟨hy, hz⟩ := o45 (by decide)
      rw [hy, hz]; simp
    · rw [p5 rfl]
      obtain ⟨hy, hz⟩ := o45 (by decide)
      rw [hy, hz]; simp
  · rw [hop, hfo]

theorem animateCube_offAxis (cfg : Config) (p : Nat) (e : ℚ) (c : Cube) (h1 : 1 ≤ p)
    (h5 : p ≤ 5) (hoff : OffAxisAtRest p c) : OffAxisAtRest p (animateCube cfg p e c) := by
  obtain ⟨p12, p3, p4, p5⟩ := animateCube_position cfg p e c
  obtain ⟨o12, o3, o45⟩ := hoff
  have hfp : (animateCube cfg p e c).userData.finalPosition = c.userData.finalPosition := rfl
  unfold OffAxisAtRest
  rw [hfp]
  have hp : p = 1 ∨ p = 2 ∨ p = 3 ∨ p = 4 ∨ p = 5 := by omega
  rcases hp with rfl | rfl | rfl | rfl | rfl
  · rw [p12 (Or.inl rfl)]
    exact ⟨fun h => o12 h, fun h => absurd h (by decide), fun h => absurd h (by decide)⟩
  · rw [p12 (Or.inr rfl)]
    exact ⟨fun h => o12 h, fun h => absurd h (by decide), fun h => absurd h (by decide)⟩
  · rw [p3 rfl]
    exact ⟨fun h => absurd h (by decide), fun h => o3 h, fun h => absurd h (by decide)⟩
  · rw [p4 rfl]
    exact ⟨fun h => absurd h (by decide), fun h => absurd h (by decide), fun h => o45 h⟩
  · rw [p5 rfl]
    exact ⟨fun h => absurd h (by decide), fun h => absurd h (by decide), fun h => o45 h⟩

theorem animate_reveal (cfg : Config) (s : State) (now : ℚ)
    (hd : 0 < cfg.animationDuration) (hinv : RevealInvariant cfg s) :
    ∃ s1, animate cfg s now = some s1 ∧ RevealInvariant cfg s1 := by
  obtain ⟨hlen, hcubes⟩ := hinv
  obtain ⟨s1, h1, hl, _, _, _, hget, hph, _, _⟩ := animate_fields cfg s now (by omega)
  refine ⟨s1, h1, by omega, fun i c1 hc1 => ?_⟩
  rw [hget i] at hc1
  cases h0 : s.cubes[i]? with
  | none => rw [h0] at hc1; simp at hc1
  | some c0 =>
    rw [h0] at hc1
    simp only [Option.map_some', Option.some.injEq] at hc1
    obtain ⟨k1, k2, k3, k4, k5⟩ := updateHoverCube_keeps s.hoverStartTime now c0
    have hPu : CubeRevealInvariant cfg s.animationPhase i
        (updateHoverCube s.hoverStartTime now c0) :=
      CubeRevealInvariant.of_same cfg _ i c0 _ k1 k2 k3 k4 k5 (hcubes i c0 h0)
    by_cases hcond : s.shaderParams.pauseAnimation = false ∧ i ∈ revealIndices s.animationPhase
    · rw [if_pos hcond] at hc1
      rw [if_pos hcond.1] at hph
      obtain ⟨_, hp1, hp5⟩ := revealIndices_phaseOfIndex _ i hcond.2
      obtain ⟨ho, hfin, hq⟩ := hPu
      rw [← hc1]
      refine ⟨?_, hfin, fun q hqi => ?_⟩
      · rw [(animateCube_scale _ _ _ _).2.2.2.1]
        cases h : (updateHoverCube s.hoverStartTime now c0).userData.originalScale with
        | none => exact absurd h ho
        | some v => simp
      · have hqp : q = s.animationPhase := revealIndices_disjoint _ _ i hqi hcond.2
        rw [hqp]
        have hoff := (hq s.animationPhase hcond.2).1
        refine ⟨animateCube_offAxis cfg _ _ _ hp1 hp5 hoff, fun hlt => ?_⟩
        rw [hph] at hlt
        have he := phaseAfter_advance_reveal cfg _ _ hp1 hp5 hlt
        rw [progress_full _ _ hd he]
        exact animateCube_fullyRevealed cfg _ _ hp1 hp5 ho hoff
    · rw [if_neg hcond] at hc1
      rw [← hc1]
      obtain ⟨ho, hfin, hq⟩ := hPu
      refine ⟨ho, hfin, fun q hqi => ⟨(hq q hqi).1, fun hlt => ?_⟩⟩
      by_cases hold : q < s.animationPhase
      · exact (hq q hqi).2 hold
      · exfalso
        apply hcond
        cases hpa : s.shaderParams.pauseAnimation with
        | true =>
          rw [hpa] at hph
          simp only [Bool.true_eq_false, if_false] at hph
          omega
        | false =>
          rw [hpa] at hph
          simp only [if_true] at hph
          have hcases := phaseAfter_cases cfg s.animationPhase (now - s.animationStartTime)
          have hqp : q = s.animationPhase := by omega
          rw [hqp] at hqi
          exact ⟨rfl, hqi⟩

theorem switchHover_cube (s : State) (new : Option Nat) (now : ℚ) (i : Nat) (c1 : Cube)
    (h : (switchHover s new now).cubes[i]? = some c1) :
    ∃ c, s.cubes[i]? = some c ∧ c1.position = c.position ∧ c1.material = c.material
      ∧ c1.userData.originalScale = c.userData.originalScale
      ∧ c1.userData.finalPosition = c.userData.finalPosition
      ∧ c1.userData.finalOpacity = c.userData.finalOpacity := by
  by_cases hne : new = s.hoveredCube
  · have hs : switchHover s new now = s := by unfold switchHover; simp [hne]
    rw [hs] at h
    exact ⟨c1, h, rfl, rfl, rfl, rfl, rfl⟩
  · rw [switchHover_getElem? s new now i hne] at h
    cases h0 : s.cubes[i]? with
    | none => rw [h0] at h; simp at h
    | some c =>
      rw [h0] at h
      simp only [Option.map_some', Option.some.injEq] at h
      refine ⟨c, rfl, ?_⟩
      rw [← h]
      split_ifs <;> exact ⟨rfl, rfl, rfl, rfl, rfl⟩

theorem onMouseLeave_cube (s : State) (i : Nat) (c1 : Cube)
    (h : (onMouseLeave s).cubes[i]? = some c1) :
    ∃ c, s.cubes[i]? = some c ∧ c1.position = c.position ∧ c1.material = c.material
      ∧ c1.userData.originalScale = c.userData.originalScale
      ∧ c1.userData.finalPosition = c.userData.finalPosition
      ∧ c1.userData.finalOpacity = c.userData.finalOpacity := by
  unfold onMouseLeave at h
  dsimp only at h
  cases hold : s.hoveredCube with
  | none =>
    rw [hold] at h
    exact ⟨c1, h, rfl, rfl, rfl, rfl, rfl⟩
  | some old =>
    rw [hold] at h
    dsimp only at h
    rw [List.getElem?_modify] at h
    cases h0 : s.cubes[i]? with
    | none => rw [h0] at h; simp at h
    | some c =>
      rw [h0] at h
      simp only [Option.map_eq_map, Option.map_some', Option.some.injEq] at h
      refine ⟨c, rfl, ?_⟩
      rw [← h]
      split_ifs <;> exact ⟨rfl, rfl, rfl, rfl, rfl⟩

theorem stepEvent_reveal (cfg : Config) (s : State) (e : Event)
    (hd : 0 < cfg.animationDuration) (hinv : RevealInvariant cfg s)
    (hnr : e.isReset = false) :
    ∃ s1, stepEvent cfg s e = some s1 ∧ RevealInvariant cfg s1 := by
  cases e with
  | frame now => exact animate_reveal cfg s now hd hinv
  | mousemove pointer ray now =>
    obtain ⟨hlen, hcubes⟩ := hinv
    obtain ⟨hl, hp, _⟩ := switchHover_fields { s with mouse := pointer }
      (pickHovered { s with mouse := pointer } ray) now
    refine ⟨_, rfl, ?_, ?_⟩
    · show (checkHover { s with mouse := pointer } ray now).cubes.length = 10
      rw [checkHover_eq, hl]; exact hlen
    · intro i c1 hc1
      change (checkHover { s with mouse := pointer } ray now).cubes[i]? = some c1 at hc1
      show CubeRevealInvariant cfg
        (checkHover { s with mouse := pointer } ray now).animationPhase i c1
      rw [checkHover_eq] at hc1 ⊢
      rw [hp]
      obtain ⟨c, h0, a1, a2, a3, a4, a5⟩ := switchHover_cube _ _ _ i c1 hc1
      exact CubeRevealInvariant.of_same cfg _ i c c1 a1 a2 a3 a4 a5 (hcubes i c h0)
  | mouseleave =>
    obtain ⟨hlen, hcubes⟩ := hinv
    obtain ⟨hp, _, _, _, _, hl⟩ := onMouseLeave_fields s
    refine ⟨_, rfl, ?_, ?_⟩
    · show (onMouseLeave s).cubes.length = 10
      rw [hl]; exact hlen
    · intro i c1 hc1
      change (onMouseLeave s).cubes[i]? = some c1 at hc1
      show CubeRevealInvariant cfg (onMouseLeave s).animationPhase i c1
      rw [hp]
      obtain ⟨c, h0, a1, a2, a3, a4, a5⟩ := onMouseLeave_cube s i c1 hc1
      exact CubeRevealInvariant.of_same cfg _ i c c1 a1 a2 a3 a4 a5 (hcubes i c h0)
  | reset now => exact absurd hnr (by simp [Event.isReset])
  | pause flag => exact ⟨_, rfl, hinv⟩

theorem init_revealInvariant (cfg : Config) (t0 : ℚ) : RevealInvariant cfg (init cfg t0) := by
  refine ⟨by simp [init, initHoverSystem, initAppearanceAnimation, createCubeGroup, positions],
    fun i c hc => ?_⟩
  simp only [init, initHoverSystem, initAppearanceAnimation, List.getElem?_map] at hc
  cases h0 : (createCubeGroup cfg)[i]? with
  | none => rw [h0] at hc; simp at hc
  | some c0 =>
    rw [h0] at hc
    simp only [Option.map_some', Option.some.injEq] at hc
    have hc0 : c0.position = c0.userData.finalPosition := by
      simp only [createCubeGroup, List.getElem?_map] at h0
      cases hp : positions[i]? with
      | none => rw [hp] at h0; simp at h0
      | some pos =>
        rw [hp] at h0
        simp only [Option.map_some', Option.some.injEq] at h0
        rw [← h0]
    rw [← hc]
    refine ⟨by simp, by rw [h0]; simp only [Option.map_some', hc0],
      fun q hq => ⟨?_, fun hlt => ?_⟩⟩
    · unfold OffAxisAtRest
      refine ⟨fun _ => ?_, fun _ => ?_, fun _ => ?_⟩ <;> dsimp only <;> rw [hc0] <;>
        exact ⟨rfl, rfl⟩
    · have h1 := (revealIndices_phaseOfIndex q i hq).2.1
      have hph : (init cfg t0).animationPhase = 1 := rfl
      simp only [init, initHoverSystem, initAppearanceAnimation] at hlt
      omega

theorem createCubeGroup_finalOpacity (cfg : Config) (i : Nat) (c0 : Cube)
    (h0 : (createCubeGroup cfg)[i]? = some c0) : c0.userData.finalOpacity = cfg.transparency := by
  simp only [createCubeGroup, List.getElem?_map] at h0
  cases hp : positions[i]? with
  | none => rw [hp] at h0; simp at h0
  | some pos =>
    rw [hp] at h0
    simp only [Option.map_some', Option.some.injEq] at h0
    rw [← h0]

/-- C24. Every cube is fully revealed before the rotations start. The index subsets of the
reveal phases 1..5 are pairwise disjoint, hold only valid indices (below 10) and together
cover 0..9. The call of `handleAppearanceAnimation` that advances a reveal phase (elapsed
beyond a positive `animationDuration`) drives each cube of the phase's subset with
`eased = 1`. So in any run from initialisation without a reset (frames, pointer moves, the
pointer leaving, pause toggles; nothing else writes the opacity), whenever the phase is 6 or
more, every one of the ten cubes has baseline scale (1,1,1), is at its final resting
position, the one given at creation, and has its target opacity, `CONFIG.transparency`. -/
theorem C24_revealed_before_rotation (cfg : Config) (t0 : ℚ) (events : List Event)
    (hd : 0 < cfg.animationDuration) (hnoreset : ∀ ev ∈ events, ev.isReset = false) :
    (revealIndices 1 = [0] ∧ revealIndices 2 = [4] ∧ revealIndices 3 = [2, 6]
      ∧ revealIndices 4 = [1, 3, 5, 7] ∧ revealIndices 5 = [8, 9])
    ∧ (∀ p q i : Nat, i ∈ revealIndices p → i ∈ revealIndices q → p = q)
    ∧ (∀ p i : Nat, i ∈ revealIndices p → i < 10 ∧ 1 ≤ p ∧ p ≤ 5)
    ∧ (∀ i : Nat, i < 10 → ∃ p, 1 ≤ p ∧ p ≤ 5 ∧ i ∈ revealIndices p)
    ∧ (∀ (s : State) (now : ℚ), s.cubes.length = 10 → 1 ≤ s.animationPhase →
        s.animationPhase ≤ 5 → now - s.animationStartTime > cfg.animationDuration →
        ∃ s1, handleAppearanceAnimation cfg s now = some s1
          ∧ s1.animationPhase = s.animationPhase + 1
          ∧ ∀ i ∈ revealIndices s.animationPhase, ∃ c, s.cubes[i]? = some c
              ∧ s1.cubes[i]? = some (animateCube cfg s.animationPhase 1 c))
    ∧ ∃ s, runEvents cfg (init cfg t0) events = some s
        ∧ (6 ≤ s.animationPhase → ∀ i : Nat, i < 10 →
            ∃ c c0, s.cubes[i]? = some c ∧ (createCubeGroup cfg)[i]? = some c0
              ∧ c.userData.originalScale = some ⟨1, 1, 1⟩
              ∧ c.position = c.userData.finalPosition
              ∧ c.userData.finalPosition = c0.position
              ∧ c.material.opacity = c.userData.finalOpacity
              ∧ c.userData.finalOpacity = cfg.transparency) := by
  refine ⟨⟨rfl, rfl, rfl, rfl, rfl⟩, fun p q i hp hq => revealIndices_disjoint p q i hp hq,
    fun p i hi => ⟨revealIndices_lt p i hi, (revealIndices_phaseOfIndex p i hi).2⟩,
    fun i hi => ?_, fun s now hlen h1 h5 he => ?_, ?_⟩
  · have hmem := revealIndices_cover i hi
    exact ⟨phaseOfIndex i, (revealIndices_phaseOfIndex _ i hmem).2.1,
      (revealIndices_phaseOfIndex _ i hmem).2.2, hmem⟩
  · obtain ⟨cs, _, _, hget, heq⟩ := handleAppearanceAnimation_eq cfg s now (by omega)
    refine ⟨_, heq, ?_, fun i hi => ?_⟩
    · show phaseAfter cfg s.animationPhase (now - s.animationStartTime) = _
      simp [phaseAfter, h1, h5, he]
    · have hi10 : i < s.cubes.length := by rw [hlen]; exact revealIndices_lt _ i hi
      refine ⟨s.cubes[i], List.getElem?_eq_getElem hi10, ?_⟩
      show cs[i]? = _
      rw [hget i, List.getElem?_eq_getElem hi10, progress_full _ _ hd he]
      simp [hi]
  · obtain ⟨s, hrun, hlen, hcubes⟩ := runEvents_induct cfg (RevealInvariant cfg)
      (fun ev => ev.isReset = false)
      (fun s ev hs hev => stepEvent_reveal cfg s ev hd hs hev)
      events (init cfg t0) (init_revealInvariant cfg t0) hnoreset
    refine ⟨s, hrun, fun h6 i hi => ?_⟩
    have hi10 : i < s.cubes.length := by rw [hlen]; exact hi
    obtain ⟨_, hfin, hq⟩ := hcubes i s.cubes[i] (List.getElem?_eq_getElem hi10)
    have hmem := revealIndices_cover i hi
    have hle := (revealIndices_phaseOfIndex _ i hmem).2.2
    obtain ⟨hb, hpos, hop⟩ := (hq (phaseOfIndex i) hmem).2 (by omega)
    cases h0 : (createCubeGroup cfg)[i]? with
    | none => rw [h0] at hfin; simp at hfin
    | some c0 =>
      rw [h0] at hfin
      simp only [Option.map_some', Option.some.injEq, Prod.mk.injEq] at hfin
      refine ⟨s.cubes[i], c0, List.getElem?_eq_getElem hi10, rfl, hb, hpos, hfin.1.symm, hop,
        ?_⟩
      rw [← hfin.2]
      exact createCubeGroup_finalOpacity cfg i c0 h0

/-- C24, at a concrete run: frames that end the five reveal phases, with a pointer move in
between. -/
theorem C24_revealed_before_rotation_witness :
    ∃ s, runEvents (CONFIG 3) (init (CONFIG 3) 0)
          [.frame 1001, .frame 2002, .mousemove ⟨0, 0⟩ rayOnCube0 2500, .frame 3003,
           .frame 4004, .frame 5005] = some s
        ∧ (6 ≤ s.animationPhase → ∀ i : Nat, i < 10 →
            ∃ c c0, s.cubes[i]? = some c ∧ (createCubeGroup (CONFIG 3))[i]? = some c0
              ∧ c.userData.originalScale = some ⟨1, 1, 1⟩
              ∧ c.position = c.userData.finalPosition
              ∧ c.userData.finalPosition = c0.position
              ∧ c.material.opacity = c.userData.finalOpacity
              ∧ c.userData.finalOpacity = (CONFIG 3).transparency) :=
  (C24_revealed_before_rotation (CONFIG 3) 0
    [.frame 1001, .frame 2002, .mousemove ⟨0, 0⟩ rayOnCube0 2500, .frame 3003,
     .frame 4004, .frame 5005]
    (by norm_num [CONFIG]) (by simp [Event.isReset])).2.2.2.2.2

end XerfiThree
